import Mathlib

/-!
# zcgen — verification of the lexer / parser / LLVM-lowering claims

This file is a shallow embedding, in Lean 4, of the parts of the zcgen
compiler front-end that the specification claims C1..C10 talk about:

* `src/lexer/lexer.c` together with the C99 syntax table from
  `src/syntax/c_syntax.c` (claims C6, C7, C10);
* the generic parser driver `src/parser/parser.c` and the C parser
  `src/parser/c_parser.c` (claims C4, C5, C9);
* the LLVM backend `src/codegen/llvm_backend_impl.c` (claims C1, C2, C3, C8).

Modelling conventions, used throughout:

* C strings become `List Char`; a byte read one past the end of the buffer
  yields the NUL terminator, modelled by `getD … (Char.ofNat 0)`.
* Functions whose C originals loop on external data use either well-founded
  recursion on the number of unconsumed bytes/tokens (when every iteration
  makes progress by construction) or an explicit fuel parameter (when, for
  some inputs, the C loop does not terminate; `none` means the fuel ran out,
  and "the C function terminates" is rendered as "some fuel suffices").
* Diagnostics (`error_report`) are modelled by appending the message to a
  `diags` list; `error_report` at severity `DIAG_ERROR` never exits the
  process (only `DIAG_FATAL` does, and the lexer/parser never use it).
* Token values (the decoded integer/float/string payloads) are not modelled;
  no claim mentions them.  Source locations are modelled only as far as the
  `line`/`column` counters that the lexer maintains.
-/

namespace ZC

/-! ## Token-type codes (src/common/types.h and src/syntax/c_syntax.h)

`TokenType` is a C enum; we keep the numeric codes.  Special tokens are
0–99, keywords 100–299, operators 300–499, punctuation 500–699, and the
trivia kinds (`TOKEN_COMMENT`, `TOKEN_WHITESPACE`, `TOKEN_NEWLINE`) follow
the punctuation range at 700, 701, 702. -/

def TOKEN_EOF : Nat := 0
def TOKEN_ERROR : Nat := 1
def TOKEN_UNKNOWN : Nat := 2
def TOKEN_IDENTIFIER : Nat := 3
def TOKEN_INTEGER_LITERAL : Nat := 4
def TOKEN_FLOAT_LITERAL : Nat := 5
def TOKEN_STRING_LITERAL : Nat := 6
def TOKEN_CHAR_LITERAL : Nat := 7
def TOKEN_COMMENT : Nat := 700
def TOKEN_WHITESPACE : Nat := 701
def TOKEN_NEWLINE : Nat := 702

/-- Keyword codes, numbered from `TOKEN_KEYWORD_START = 100` in the order of
the `CTokenType` enum in `c_syntax.h`. -/
def TOKEN_AUTO : Nat := 100
def TOKEN_BREAK : Nat := 101
def TOKEN_CASE : Nat := 102
def TOKEN_CHAR : Nat := 103
def TOKEN_CONST : Nat := 104
def TOKEN_CONTINUE : Nat := 105
def TOKEN_DEFAULT : Nat := 106
def TOKEN_DO : Nat := 107
def TOKEN_DOUBLE : Nat := 108
def TOKEN_ELSE : Nat := 109
def TOKEN_ENUM : Nat := 110
def TOKEN_EXTERN : Nat := 111
def TOKEN_FLOAT : Nat := 112
def TOKEN_FOR : Nat := 113
def TOKEN_GOTO : Nat := 114
def TOKEN_IF : Nat := 115
def TOKEN_INT : Nat := 116
def TOKEN_LONG : Nat := 117
def TOKEN_REGISTER : Nat := 118
def TOKEN_RETURN : Nat := 119
def TOKEN_SHORT : Nat := 120
def TOKEN_SIGNED : Nat := 121
def TOKEN_SIZEOF : Nat := 122
def TOKEN_STATIC : Nat := 123
def TOKEN_STRUCT : Nat := 124
def TOKEN_SWITCH : Nat := 125
def TOKEN_TYPEDEF : Nat := 126
def TOKEN_UNION : Nat := 127
def TOKEN_UNSIGNED : Nat := 128
def TOKEN_VOID : Nat := 129
def TOKEN_VOLATILE : Nat := 130
def TOKEN_WHILE : Nat := 131
def TOKEN_INLINE : Nat := 132
def TOKEN_RESTRICT : Nat := 133
def TOKEN__BOOL : Nat := 134
def TOKEN__COMPLEX : Nat := 135
def TOKEN__IMAGINARY : Nat := 136
def TOKEN__ALIGNAS : Nat := 137
def TOKEN__ALIGNOF : Nat := 138
def TOKEN__ATOMIC : Nat := 139
def TOKEN__GENERIC : Nat := 140
def TOKEN__NORETURN : Nat := 141
def TOKEN__STATIC_ASSERT : Nat := 142
def TOKEN__THREAD_LOCAL : Nat := 143
def TOKEN__BITINT : Nat := 144
def TOKEN__DECIMAL128 : Nat := 145
def TOKEN__DECIMAL32 : Nat := 146
def TOKEN__DECIMAL64 : Nat := 147
def TOKEN_TYPEOF : Nat := 148
def TOKEN_TYPEOF_UNQUAL : Nat := 149
def TOKEN__BITINT_MAXWIDTH : Nat := 150
def TOKEN___TYPEOF__ : Nat := 151
def TOKEN___INLINE__ : Nat := 152
def TOKEN___CONST__ : Nat := 153
def TOKEN___VOLATILE__ : Nat := 154
def TOKEN___RESTRICT__ : Nat := 155
def TOKEN___ATTRIBUTE__ : Nat := 156
def TOKEN___EXTENSION__ : Nat := 157
def TOKEN___ASM__ : Nat := 158
def TOKEN___SIGNED__ : Nat := 159
def TOKEN___UNSIGNED__ : Nat := 160
def TOKEN___COMPLEX__ : Nat := 161
def TOKEN___IMAG__ : Nat := 162
def TOKEN___REAL__ : Nat := 163
def TOKEN___LABEL__ : Nat := 164
def TOKEN___ALIGNOF__ : Nat := 165
def TOKEN___BUILTIN_VA_ARG : Nat := 166
def TOKEN___BUILTIN_OFFSETOF : Nat := 167
def TOKEN___BUILTIN_TYPES_COMPATIBLE_P : Nat := 168

/-- Keyword kinds used by the C99 keyword table in `c_syntax.c` whose numeric
values are not pinned down by the shipped `c_syntax.h` enum; they are
assigned distinct fresh codes in the keyword range 100–299.  No claim
depends on their exact values. -/
def TOKEN_BOOL : Nat := 169
def TOKEN_SIZE_T : Nat := 170
def TOKEN_SSIZE_T : Nat := 171
def TOKEN_PTRDIFF_T : Nat := 172
def TOKEN_TVALUE : Nat := 173
def TOKEN__FLOAT128 : Nat := 174
def TOKEN__FLOAT32 : Nat := 175
def TOKEN__FLOAT64 : Nat := 176
def TOKEN_ASM : Nat := 177
def TOKEN___UINT8_T : Nat := 178
def TOKEN___UINT16_T : Nat := 179
def TOKEN___UINT32_T : Nat := 180
def TOKEN___UINT64_T : Nat := 181
def TOKEN___INT8_T : Nat := 182
def TOKEN___INT16_T : Nat := 183
def TOKEN___INT32_T : Nat := 184
def TOKEN___INT64_T : Nat := 185
def TOKEN___INT128 : Nat := 186
def TOKEN___UINT128_T : Nat := 187
def TOKEN___SIZE_T : Nat := 188
def TOKEN___SSIZE_T : Nat := 189
def TOKEN___PTRDIFF_T : Nat := 190
def TOKEN___INTPTR_T : Nat := 191
def TOKEN___UINTPTR_T : Nat := 192
def TOKEN___WCHAR_T : Nat := 193
def TOKEN___WINT_T : Nat := 194
def TOKEN___INTMAX_T : Nat := 195
def TOKEN___UINTMAX_T : Nat := 196
def TOKEN___ALWAYS_INLINE__ : Nat := 197
def TOKEN___NOINLINE__ : Nat := 198
def TOKEN___PURE__ : Nat := 199
def TOKEN___NOTHROW__ : Nat := 200
def TOKEN___LEAF__ : Nat := 201
def TOKEN___ARTIFICIAL__ : Nat := 202
def TOKEN___BUILTIN_BSWAP16 : Nat := 203
def TOKEN___BUILTIN_BSWAP32 : Nat := 204
def TOKEN___BUILTIN_BSWAP64 : Nat := 205
def TOKEN___BUILTIN_CLZ : Nat := 206
def TOKEN___BUILTIN_CTZ : Nat := 207
def TOKEN___BUILTIN_POPCOUNT : Nat := 208

/-- Operator codes, numbered from `TOKEN_OPERATOR_START = 300`. -/
def TOKEN_PLUS : Nat := 300
def TOKEN_MINUS : Nat := 301
def TOKEN_STAR : Nat := 302
def TOKEN_SLASH : Nat := 303
def TOKEN_PERCENT : Nat := 304
def TOKEN_AMPERSAND : Nat := 305
def TOKEN_PIPE : Nat := 306
def TOKEN_CARET : Nat := 307
def TOKEN_TILDE : Nat := 308
def TOKEN_EXCLAIM : Nat := 309
def TOKEN_QUESTION : Nat := 310
def TOKEN_COLON : Nat := 311
def TOKEN_EQUAL : Nat := 312
def TOKEN_LESS : Nat := 313
def TOKEN_GREATER : Nat := 314
def TOKEN_PLUS_EQUAL : Nat := 315
def TOKEN_MINUS_EQUAL : Nat := 316
def TOKEN_STAR_EQUAL : Nat := 317
def TOKEN_SLASH_EQUAL : Nat := 318
def TOKEN_PERCENT_EQUAL : Nat := 319
def TOKEN_AMPERSAND_EQUAL : Nat := 320
def TOKEN_PIPE_EQUAL : Nat := 321
def TOKEN_CARET_EQUAL : Nat := 322
def TOKEN_LESS_LESS_EQUAL : Nat := 323
def TOKEN_GREATER_GREATER_EQUAL : Nat := 324
def TOKEN_EQUAL_EQUAL : Nat := 325
def TOKEN_EXCLAIM_EQUAL : Nat := 326
def TOKEN_LESS_EQUAL : Nat := 327
def TOKEN_GREATER_EQUAL : Nat := 328
def TOKEN_AMPERSAND_AMPERSAND : Nat := 329
def TOKEN_PIPE_PIPE : Nat := 330
def TOKEN_LESS_LESS : Nat := 331
def TOKEN_GREATER_GREATER : Nat := 332
def TOKEN_PLUS_PLUS : Nat := 333
def TOKEN_MINUS_MINUS : Nat := 334
def TOKEN_ARROW : Nat := 335
def TOKEN_DOT : Nat := 336

/-- Punctuation codes, numbered from `TOKEN_PUNCTUATION_START = 500`. -/
def TOKEN_LPAREN : Nat := 500
def TOKEN_RPAREN : Nat := 501
def TOKEN_LBRACE : Nat := 502
def TOKEN_RBRACE : Nat := 503
def TOKEN_LBRACKET : Nat := 504
def TOKEN_RBRACKET : Nat := 505
def TOKEN_SEMICOLON : Nat := 506
def TOKEN_COMMA : Nat := 507
def TOKEN_ELLIPSIS : Nat := 508
def TOKEN_HASH : Nat := 509
def TOKEN_HASH_HASH : Nat := 510
def TOKEN_AT : Nat := 511
def TOKEN_DOLLAR : Nat := 512
def TOKEN_BACKTICK : Nat := 513

/-! ## `<ctype.h>` classifiers in the C locale -/

def c_isalpha (c : Char) : Bool := ('A' ≤ c && c ≤ 'Z') || ('a' ≤ c && c ≤ 'z')

def c_isdigit (c : Char) : Bool := '0' ≤ c && c ≤ '9'

def c_isalnum (c : Char) : Bool := c_isalpha c || c_isdigit c

def c_isxdigit (c : Char) : Bool :=
  c_isdigit c || ('A' ≤ c && c ≤ 'F') || ('a' ≤ c && c ≤ 'f')

def c_isspace (c : Char) : Bool :=
  c = ' ' || c = '\t' || c = '\n' || c = Char.ofNat 11 || c = Char.ofNat 12 || c = '\r'

/-! ## Syntax tables (src/syntax/syntax.h)

Keyword, operator and punctuation entries are `(text, token_type)` pairs;
the operator table also carries precedence/associativity, which the lexer
never reads, so they are omitted here.  Null `const char *` fields of
`CommentStyle` become `Option String`. -/

structure SyntaxDefinition where
  keywords : List (String × Nat)
  operators : List (String × Nat)
  punctuation : List (String × Nat)
  single_line_start : Option String
  multi_line_start : Option String
  multi_line_end : Option String
  is_identifier_start : Char → Bool
  is_identifier_continue : Char → Bool
  is_digit : Char → Bool
  is_whitespace : Char → Bool
  string_delimiter : Char
  char_delimiter : Char
  escape_char : Char
  supports_hex : Bool
  supports_octal : Bool
  supports_binary : Bool
  supports_float : Bool
  supports_scientific : Bool

/-- The C99 keyword table `c_keywords` from `c_syntax.c`, in source order
(the lexer's keyword lookup is a linear scan, first match wins). -/
def c_keywords : List (String × Nat) :=
  [("auto", TOKEN_AUTO), ("break", TOKEN_BREAK), ("case", TOKEN_CASE),
   ("char", TOKEN_CHAR), ("const", TOKEN_CONST), ("continue", TOKEN_CONTINUE),
   ("default", TOKEN_DEFAULT), ("do", TOKEN_DO), ("double", TOKEN_DOUBLE),
   ("else", TOKEN_ELSE), ("enum", TOKEN_ENUM), ("extern", TOKEN_EXTERN),
   ("float", TOKEN_FLOAT), ("for", TOKEN_FOR), ("goto", TOKEN_GOTO),
   ("if", TOKEN_IF), ("int", TOKEN_INT), ("long", TOKEN_LONG),
   ("register", TOKEN_REGISTER), ("return", TOKEN_RETURN),
   ("short", TOKEN_SHORT), ("signed", TOKEN_SIGNED), ("sizeof", TOKEN_SIZEOF),
   ("static", TOKEN_STATIC), ("struct", TOKEN_STRUCT), ("switch", TOKEN_SWITCH),
   ("typedef", TOKEN_TYPEDEF), ("union", TOKEN_UNION),
   ("unsigned", TOKEN_UNSIGNED), ("void", TOKEN_VOID),
   ("volatile", TOKEN_VOLATILE), ("while", TOKEN_WHILE),
   ("inline", TOKEN_INLINE), ("restrict", TOKEN_RESTRICT),
   ("_Bool", TOKEN__BOOL), ("_Complex", TOKEN__COMPLEX),
   ("_Imaginary", TOKEN__IMAGINARY),
   ("_Alignas", TOKEN__ALIGNAS), ("_Alignof", TOKEN__ALIGNOF),
   ("_Atomic", TOKEN__ATOMIC), ("_Generic", TOKEN__GENERIC),
   ("_Noreturn", TOKEN__NORETURN), ("_Static_assert", TOKEN__STATIC_ASSERT),
   ("_Thread_local", TOKEN__THREAD_LOCAL),
   ("bool", TOKEN_BOOL),
   ("size_t", TOKEN_SIZE_T), ("ssize_t", TOKEN_SSIZE_T),
   ("ptrdiff_t", TOKEN_PTRDIFF_T),
   ("TValue", TOKEN_TVALUE),
   ("_BitInt", TOKEN__BITINT), ("_Decimal128", TOKEN__DECIMAL128),
   ("_Decimal32", TOKEN__DECIMAL32), ("_Decimal64", TOKEN__DECIMAL64),
   ("_Float128", TOKEN__FLOAT128), ("_Float32", TOKEN__FLOAT32),
   ("_Float64", TOKEN__FLOAT64),
   ("typeof", TOKEN_TYPEOF), ("typeof_unqual", TOKEN_TYPEOF_UNQUAL),
   ("__attribute__", TOKEN___ATTRIBUTE__), ("__extension__", TOKEN___EXTENSION__),
   ("__asm__", TOKEN___ASM__), ("asm", TOKEN_ASM),
   ("__typeof__", TOKEN___TYPEOF__), ("__inline__", TOKEN___INLINE__),
   ("__inline", TOKEN___INLINE__), ("__restrict__", TOKEN___RESTRICT__),
   ("__volatile__", TOKEN___VOLATILE__), ("__const__", TOKEN___CONST__),
   ("__signed__", TOKEN___SIGNED__), ("__unsigned__", TOKEN___UNSIGNED__),
   ("__uint8_t", TOKEN___UINT8_T), ("__uint16_t", TOKEN___UINT16_T),
   ("__uint32_t", TOKEN___UINT32_T), ("__uint64_t", TOKEN___UINT64_T),
   ("__int8_t", TOKEN___INT8_T), ("__int16_t", TOKEN___INT16_T),
   ("__int32_t", TOKEN___INT32_T), ("__int64_t", TOKEN___INT64_T),
   ("__int128", TOKEN___INT128), ("__uint128_t", TOKEN___UINT128_T),
   ("__complex__", TOKEN___COMPLEX__), ("__imag__", TOKEN___IMAG__),
   ("__real__", TOKEN___REAL__), ("__label__", TOKEN___LABEL__),
   ("__alignof__", TOKEN___ALIGNOF__),
   ("__builtin_va_arg", TOKEN___BUILTIN_VA_ARG),
   ("__builtin_offsetof", TOKEN___BUILTIN_OFFSETOF),
   ("__builtin_types_compatible_p", TOKEN___BUILTIN_TYPES_COMPATIBLE_P),
   ("__uint8_t", TOKEN___UINT8_T), ("__uint16_t", TOKEN___UINT16_T),
   ("__uint32_t", TOKEN___UINT32_T), ("__uint64_t", TOKEN___UINT64_T),
   ("__int8_t", TOKEN___INT8_T), ("__int16_t", TOKEN___INT16_T),
   ("__int32_t", TOKEN___INT32_T), ("__int64_t", TOKEN___INT64_T),
   ("__size_t", TOKEN___SIZE_T), ("__ssize_t", TOKEN___SSIZE_T),
   ("__ptrdiff_t", TOKEN___PTRDIFF_T), ("__intptr_t", TOKEN___INTPTR_T),
   ("__uintptr_t", TOKEN___UINTPTR_T), ("__wchar_t", TOKEN___WCHAR_T),
   ("__wint_t", TOKEN___WINT_T), ("__intmax_t", TOKEN___INTMAX_T),
   ("__uintmax_t", TOKEN___UINTMAX_T),
   ("__always_inline__", TOKEN___ALWAYS_INLINE__),
   ("__noinline__", TOKEN___NOINLINE__), ("__pure__", TOKEN___PURE__),
   ("__nothrow__", TOKEN___NOTHROW__), ("__leaf__", TOKEN___LEAF__),
   ("__artificial__", TOKEN___ARTIFICIAL__),
   ("__builtin_bswap16", TOKEN___BUILTIN_BSWAP16),
   ("__builtin_bswap32", TOKEN___BUILTIN_BSWAP32),
   ("__builtin_bswap64", TOKEN___BUILTIN_BSWAP64),
   ("__builtin_clz", TOKEN___BUILTIN_CLZ),
   ("__builtin_ctz", TOKEN___BUILTIN_CTZ),
   ("__builtin_popcount", TOKEN___BUILTIN_POPCOUNT)]

/-- The C99 operator table `c_operators`, ordered longest-first as in the
source. -/
def c_operators : List (String × Nat) :=
  [("<<=", TOKEN_LESS_LESS_EQUAL), (">>=", TOKEN_GREATER_GREATER_EQUAL),
   ("==", TOKEN_EQUAL_EQUAL), ("!=", TOKEN_EXCLAIM_EQUAL),
   ("<=", TOKEN_LESS_EQUAL), (">=", TOKEN_GREATER_EQUAL),
   ("<<", TOKEN_LESS_LESS), (">>", TOKEN_GREATER_GREATER),
   ("&&", TOKEN_AMPERSAND_AMPERSAND), ("||", TOKEN_PIPE_PIPE),
   ("++", TOKEN_PLUS_PLUS), ("--", TOKEN_MINUS_MINUS),
   ("->", TOKEN_ARROW),
   ("+=", TOKEN_PLUS_EQUAL), ("-=", TOKEN_MINUS_EQUAL),
   ("*=", TOKEN_STAR_EQUAL), ("/=", TOKEN_SLASH_EQUAL),
   ("%=", TOKEN_PERCENT_EQUAL), ("&=", TOKEN_AMPERSAND_EQUAL),
   ("|=", TOKEN_PIPE_EQUAL), ("^=", TOKEN_CARET_EQUAL),
   ("=", TOKEN_EQUAL), ("+", TOKEN_PLUS), ("-", TOKEN_MINUS),
   ("*", TOKEN_STAR), ("/", TOKEN_SLASH), ("%", TOKEN_PERCENT),
   ("&", TOKEN_AMPERSAND), ("|", TOKEN_PIPE), ("^", TOKEN_CARET),
   ("<", TOKEN_LESS), (">", TOKEN_GREATER), ("!", TOKEN_EXCLAIM),
   ("~", TOKEN_TILDE), ("?", TOKEN_QUESTION), (":", TOKEN_COLON),
   (".", TOKEN_DOT)]

/-- The C99 punctuation table `c_punctuation`. -/
def c_punctuation : List (String × Nat) :=
  [("...", TOKEN_ELLIPSIS), ("##", TOKEN_HASH_HASH), ("(", TOKEN_LPAREN),
   (")", TOKEN_RPAREN), ("\x7b", TOKEN_LBRACE), ("\x7d", TOKEN_RBRACE),
   ("[", TOKEN_LBRACKET), ("]", TOKEN_RBRACKET), (";", TOKEN_SEMICOLON),
   (",", TOKEN_COMMA), ("#", TOKEN_HASH), ("@", TOKEN_AT),
   ("$", TOKEN_DOLLAR), ("`", TOKEN_BACKTICK)]

/-- `syntax_c99_create` from `c_syntax.c` (the fields the lexer reads). -/
def syntax_c99 : SyntaxDefinition where
  keywords := c_keywords
  operators := c_operators
  punctuation := c_punctuation
  single_line_start := some "//"
  multi_line_start := some "/*"
  multi_line_end := some "*/"
  is_identifier_start := fun c => c_isalpha c || c = '_'
  is_identifier_continue := fun c => c_isalnum c || c = '_'
  is_digit := c_isdigit
  is_whitespace := fun c => c = ' ' || c = '\t' || c = '\r' || c = '\n'
  string_delimiter := '"'
  char_delimiter := '\''
  escape_char := '\\'
  supports_hex := true
  supports_octal := true
  supports_binary := false
  supports_float := true
  supports_scientific := true

/-! ## The lexer (src/lexer/lexer.c) -/

/-- A token: `type` and `lexeme` (the matched source substring).  The decoded
value union and the source location are not modelled (no claim reads them). -/
structure Token where
  type : Nat
  lexeme : List Char
  deriving DecidableEq, Repr

/-- The `Lexer` state.  `source`/`position`/`line`/`column` as in `lexer.h`;
`length` is `source.length`.  `tokens` is the output list and `diags` the
diagnostics emitted so far via `error_report` (which prints and counts, but
never aborts, at severity `DIAG_ERROR`). -/
structure Lexer where
  source : List Char
  position : Nat
  line : Nat
  column : Nat
  syn : SyntaxDefinition
  tokens : List Token
  diags : List String

/-- `lexer_create`. -/
def lexer_create (source : String) (syn : SyntaxDefinition) : Lexer :=
  { source := source.data, position := 0, line := 1, column := 1,
    syn := syn, tokens := [], diags := [] }

/-- `AT_END(lexer)`: `position >= length`. -/
def atEnd (l : Lexer) : Bool := l.source.length ≤ l.position

/-- `CURRENT(lexer)`: `source[position]`; reading the index `length` yields
the NUL terminator of the C string. -/
def current (l : Lexer) : Char := l.source.getD l.position (Char.ofNat 0)

/-- `ADVANCE(lexer)`: `position++, column++`. -/
def advanceL (l : Lexer) : Lexer :=
  { l with position := l.position + 1, column := l.column + 1 }

/-- The `line++; column = 0` bookkeeping done when the lexer steps over a
newline character. -/
def bumpLine (l : Lexer) : Lexer := { l with line := l.line + 1, column := 0 }

/-- `strncmp(&source[position], pat, strlen(pat)) == 0` together with the
bound check `position + strlen(pat) <= length`. -/
def prefix_match (l : Lexer) (pat : String) : Bool :=
  l.position + pat.length ≤ l.source.length &&
    decide ((l.source.drop l.position).take pat.length = pat.data)

/-- The loop of `skip_whitespace`.  Every iteration of the C loop consumes
one byte, so running it with fuel `remaining bytes + 1` (as the wrapper
below does) is exact; the fuel makes the recursion structural, hence
kernel-computable. -/
def skip_whitespace_go : Nat → Lexer → Lexer
  | 0, l => l
  | fuel + 1, l =>
    if ¬ atEnd l ∧ l.syn.is_whitespace (current l) then
      skip_whitespace_go fuel (advanceL (if current l = '\n' then bumpLine l else l))
    else l

/-- `skip_whitespace`. -/
def skip_whitespace (l : Lexer) : Lexer :=
  skip_whitespace_go (l.source.length - l.position + 1) l

/-- The loop of `skip_to_eol`. -/
def skip_to_eol_go : Nat → Lexer → Lexer
  | 0, l => l
  | fuel + 1, l =>
    if ¬ atEnd l ∧ current l ≠ '\n' then skip_to_eol_go fuel (advanceL l) else l

/-- The scan-to-end-of-line loop `while (!AT_END && CURRENT != '\n') ADVANCE;`
shared by `skip_single_line_comment` and `skip_preprocessor_line_marker`. -/
def skip_to_eol (l : Lexer) : Lexer :=
  skip_to_eol_go (l.source.length - l.position + 1) l

/-- `skip_single_line_comment`; `none` when the comment-start did not match
(the C function returns `false` without touching the state). -/
def skip_single_line_comment (l : Lexer) : Option Lexer :=
  match l.syn.single_line_start with
  | none => none
  | some start =>
    if prefix_match l start then
      some (skip_to_eol { l with position := l.position + start.length,
                                 column := l.column + start.length })
    else none

/-- The loop of `multi_comment_scan`. -/
def multi_comment_scan_go (endPat : String) : Nat → Lexer → Lexer
  | 0, l => l
  | fuel + 1, l =>
    if ¬ atEnd l then
      if prefix_match l endPat then
        { l with position := l.position + endPat.length,
                 column := l.column + endPat.length }
      else
        multi_comment_scan_go endPat fuel (advanceL (if current l = '\n' then bumpLine l else l))
    else { l with diags := l.diags ++ ["unterminated comment"] }

/-- The inner scan of `skip_multi_line_comment`: consume up to and including
the end marker; at end of input report "unterminated comment". -/
def multi_comment_scan (endPat : String) (l : Lexer) : Lexer :=
  multi_comment_scan_go endPat (l.source.length - l.position + 1) l

/-- `skip_multi_line_comment`. -/
def skip_multi_line_comment (l : Lexer) : Option Lexer :=
  match l.syn.multi_line_start, l.syn.multi_line_end with
  | some start, some endPat =>
    if prefix_match l start then
      some (multi_comment_scan endPat
        { l with position := l.position + start.length,
                 column := l.column + start.length })
    else none
  | _, _ => none

/-- The backwards scan of `skip_preprocessor_line_marker`: from `pos - 1`
down, stop at a newline or at index 0 (index 0 itself is never examined, as
in the C loop condition `check_pos > 0`); fail on a non-whitespace byte. -/
def marker_lookback (src : List Char) : Nat → Bool
  | 0 => true
  | k + 1 =>
    if src.getD (k + 1) ' ' ≠ '\n' then
      if ¬ c_isspace (src.getD (k + 1) ' ') then false
      else marker_lookback src k
    else true

/-- `skip_preprocessor_line_marker`; `none` when it is not a line marker. -/
def skip_preprocessor_line_marker (l : Lexer) : Option Lexer :=
  if current l ≠ '#' then none
  else if l.position > 0 && ¬ marker_lookback l.source (l.position - 1) then none
  else if l.position + 1 < l.source.length && c_isdigit (l.source.getD (l.position + 1) ' ') then
    let l1 := skip_to_eol l
    some (if current l1 = '\n' then advanceL (bumpLine l1) else l1)
  else none

/-- `skip_trivia`, with fuel counting loop iterations: for adversarial syntax
tables this loop need not terminate (e.g. an empty comment-start string
standing before a newline makes an iteration consume nothing). -/
def skip_trivia : Nat → Lexer → Option Lexer
  | 0, _ => none
  | fuel + 1, l =>
    if atEnd l then some l
    else if l.syn.is_whitespace (current l) then skip_trivia fuel (skip_whitespace l)
    else match skip_preprocessor_line_marker l with
      | some l1 => skip_trivia fuel l1
      | none => match skip_single_line_comment l with
        | some l1 => skip_trivia fuel l1
        | none => match skip_multi_line_comment l with
          | some l1 => skip_trivia fuel l1
          | none => some l

/-- The loop of `ident_scan`. -/
def ident_scan_go : Nat → Lexer → Lexer
  | 0, l => l
  | fuel + 1, l =>
    if ¬ atEnd l ∧ l.syn.is_identifier_continue (current l) then
      ident_scan_go fuel (advanceL l)
    else l

/-- The max-munch identifier scan of `lex_identifier`. -/
def ident_scan (l : Lexer) : Lexer :=
  ident_scan_go (l.source.length - l.position + 1) l

/-- `lex_identifier`: scan, then linear keyword lookup (first match wins). -/
def lex_identifier (l : Lexer) : Lexer × Token :=
  let start := l.position
  let l1 := ident_scan l
  let lexeme := (l.source.drop start).take (l1.position - start)
  match l.syn.keywords.find? (fun kw => kw.1.data = lexeme) with
  | some kw => (l1, ⟨kw.2, lexeme⟩)
  | none => (l1, ⟨TOKEN_IDENTIFIER, lexeme⟩)

/-- The loop of `scan_while`. -/
def scan_while_go (p : Char → Bool) : Nat → Lexer → Lexer
  | 0, l => l
  | fuel + 1, l =>
    if ¬ atEnd l ∧ p (current l) then scan_while_go p fuel (advanceL l) else l

/-- A guarded scan loop `while (!AT_END && p(CURRENT)) ADVANCE;`, the shape
of every digit/suffix loop inside `lex_number`. -/
def scan_while (p : Char → Bool) (l : Lexer) : Lexer :=
  scan_while_go p (l.source.length - l.position + 1) l

/-- The hex/binary/octal/decimal-prefix phase of `lex_number` (the first
`if (CURRENT == '0')` ladder). -/
def number_prefix_scan (l : Lexer) : Lexer :=
  if current l = '0' then
    let la := advanceL l
    if ¬ atEnd la then
      let next := current la
      if (next = 'x' || next = 'X') && l.syn.supports_hex then
        scan_while c_isxdigit (advanceL la)
      else if (next = 'b' || next = 'B') && l.syn.supports_binary then
        scan_while (fun c => c = '0' || c = '1') (advanceL la)
      else if c_isdigit next && l.syn.supports_octal then
        scan_while (fun c => '0' ≤ c && c ≤ '7') la
      else la
    else la
  else scan_while l.syn.is_digit l

/-- The fractional-part phase of `lex_number`; the flag is true when a
decimal point was consumed. -/
def number_fraction_scan (l : Lexer) : Bool × Lexer :=
  if ¬ atEnd l && current l = '.' && l.syn.supports_float then
    (true, scan_while l.syn.is_digit (advanceL l))
  else (false, l)

/-- The exponent phase of `lex_number`; the flag is true when an exponent
marker was consumed. -/
def number_exponent_scan (l : Lexer) : Bool × Lexer :=
  if ¬ atEnd l && (current l = 'e' || current l = 'E') && l.syn.supports_scientific then
    let la := advanceL l
    let lb := if ¬ atEnd la && (current la = '+' || current la = '-') then advanceL la else la
    (true, scan_while l.syn.is_digit lb)
  else (false, l)

/-- The trailing suffix phase of `lex_number` (`f`, `l`, `u` and friends). -/
def number_suffix_scan (l : Lexer) : Lexer :=
  scan_while (fun c => c = 'f' || c = 'F' || c = 'l' || c = 'L' ||
                       c = 'u' || c = 'U') l

/-- `lex_number`.  Returns the lexer after the scan and the token; the token
type is float exactly when a decimal point or exponent was consumed. -/
def lex_number (l : Lexer) : Lexer × Token :=
  let start := l.position
  let l1 := number_prefix_scan l
  let fr := number_fraction_scan l1
  let ex := number_exponent_scan fr.2
  let l4 := number_suffix_scan ex.2
  let lexeme := (l.source.drop start).take (l4.position - start)
  (l4, ⟨if fr.1 || ex.1 then TOKEN_FLOAT_LITERAL else TOKEN_INTEGER_LITERAL, lexeme⟩)

/-- The loop of `string_scan`. -/
def string_scan_go : Nat → Lexer → Lexer
  | 0, l => l
  | fuel + 1, l =>
    if ¬ atEnd l ∧ current l ≠ l.syn.string_delimiter then
      if current l = l.syn.escape_char then
        let l1 := advanceL l
        string_scan_go fuel (if ¬ atEnd l1 then advanceL l1 else l1)
      else
        string_scan_go fuel (advanceL (if current l = '\n' then bumpLine l else l))
    else l

/-- The scan loop of `lex_string`: consume until the closing delimiter,
honouring the escape character (which consumes the following byte too). -/
def string_scan (l : Lexer) : Lexer :=
  string_scan_go (l.source.length - l.position + 1) l

/-- `lex_string`.  On an unterminated literal: report the diagnostic and
return an `ERROR` token, the input having been consumed to its end.  (The
escape-decoding of the string contents into the token's value field is not
modelled.) -/
def lex_string (l : Lexer) : Lexer × Token :=
  let start := l.position
  let l1 := string_scan (advanceL l)
  if atEnd l1 then
    ({ l1 with diags := l1.diags ++ ["unterminated string literal"] },
     ⟨TOKEN_ERROR, []⟩)
  else
    let l2 := advanceL l1
    (l2, ⟨TOKEN_STRING_LITERAL, (l.source.drop start).take (l2.position - start)⟩)

/-- The one-logical-character step of `lex_char`: an escape consumes the
backslash and (when available) the escaped byte, anything else consumes one
byte. -/
def char_body_scan (esc : Char) (l1 : Lexer) : Lexer :=
  if current l1 = esc then
    let la := advanceL l1
    if ¬ atEnd la then advanceL la else la
  else advanceL l1

/-- `lex_char`. -/
def lex_char (l : Lexer) : Lexer × Token :=
  let start := l.position
  let l1 := advanceL l
  if atEnd l1 then
    ({ l1 with diags := l1.diags ++ ["unterminated character literal"] },
     ⟨TOKEN_ERROR, []⟩)
  else
    let l2 := char_body_scan l.syn.escape_char l1
    if atEnd l2 || current l2 ≠ l.syn.char_delimiter then
      ({ l2 with diags := l2.diags ++ ["unterminated character literal"] },
       ⟨TOKEN_ERROR, []⟩)
    else
      let l3 := advanceL l2
      (l3, ⟨TOKEN_CHAR_LITERAL, (l.source.drop start).take (l3.position - start)⟩)

/-- The linear longest-defined-first scan over a symbol table used twice by
`lex_operator_or_punct`; `none` when no entry matches at the cursor. -/
def table_match (l : Lexer) (tbl : List (String × Nat)) : Option (Lexer × Token) :=
  match tbl with
  | [] => none
  | (sym, ty) :: rest =>
    if prefix_match l sym then
      some ({ l with position := l.position + sym.length,
                     column := l.column + sym.length }, ⟨ty, sym.data⟩)
    else table_match l rest

/-- `lex_operator_or_punct`: punctuation table first, then operators; an
unknown character is reported, consumed (one byte) and becomes an `ERROR`
token. -/
def lex_operator_or_punct (l : Lexer) : Lexer × Token :=
  match table_match l l.syn.punctuation with
  | some r => r
  | none =>
    match table_match l l.syn.operators with
    | some r => r
    | none =>
      ({ advanceL l with diags := l.diags ++ ["unexpected character"] },
       ⟨TOKEN_ERROR, [current l]⟩)

/-- One iteration of the dispatch in `lexer_tokenize`: lex a single token
and append it to the output list. -/
def lex_one (l : Lexer) : Lexer :=
  let c := current l
  let r :=
    if l.syn.is_identifier_start c then lex_identifier l
    else if l.syn.is_digit c then lex_number l
    else if c = l.syn.string_delimiter then lex_string l
    else if c = l.syn.char_delimiter then lex_char l
    else lex_operator_or_punct l
  { r.1 with tokens := r.1.tokens ++ [r.2] }

/-- Appending the final EOF token after the main loop of `lexer_tokenize`. -/
def emit_eof (l : Lexer) : Lexer := { l with tokens := l.tokens ++ [⟨TOKEN_EOF, []⟩] }

/-- The main loop of `lexer_tokenize`, with fuel: one unit per loop
iteration, and the trivia skipper receives the same remaining fuel for its
own iterations.  `none` means the fuel ran out; the theorems below show a
fuel linear in the input length always suffices for the C99 table, and that
no fuel suffices for an adversarial table. -/
def tokenize_loop : Nat → Lexer → Option Lexer
  | 0, _ => none
  | fuel + 1, l =>
    if atEnd l then some (emit_eof l)
    else match skip_trivia (fuel + 1) l with
      | none => none
      | some l1 =>
        if atEnd l1 then some (emit_eof l1)
        else tokenize_loop fuel (lex_one l1)

/-- `lexer_tokenize`: the token list produced from a source buffer. -/
def lexer_tokenize (fuel : Nat) (l : Lexer) : Option (List Token) :=
  (tokenize_loop fuel l).map Lexer.tokens

/-! ### Frame and progress lemmas for the lexer -/

/-- What every lexing step preserves: the buffer and the syntax table are
read-only, the cursor only moves forward and never beyond the buffer end
(unless it already was), and the token/diagnostic lists only grow at the
tail. -/
def FrameLe (l l' : Lexer) : Prop :=
  l'.source = l.source ∧ l'.syn = l.syn ∧ l.position ≤ l'.position ∧
  l'.position ≤ max l.source.length l.position ∧
  l'.tokens = l.tokens ∧ (∃ ds, l'.diags = l.diags ++ ds)

theorem frameLe_refl (l : Lexer) : FrameLe l l :=
  ⟨rfl, rfl, le_rfl, le_max_right _ _, rfl, ⟨[], by simp⟩⟩

theorem frameLe_trans {a b c : Lexer} (h1 : FrameLe a b) (h2 : FrameLe b c) :
    FrameLe a c := by
  obtain ⟨s1, y1, p1, q1, t1, ⟨ds1, d1⟩⟩ := h1
  obtain ⟨s2, y2, p2, q2, t2, ⟨ds2, d2⟩⟩ := h2
  refine ⟨s2.trans s1, y2.trans y1, p1.trans p2, ?_, t2.trans t1,
    ⟨ds1 ++ ds2, by simp [d2, d1]⟩⟩
  rw [s1] at q2; omega

/-- `ADVANCE` while not at the end stays within the frame discipline. -/
theorem frameLe_advance {l : Lexer} (h : l.position < l.source.length) :
    FrameLe l (advanceL l) :=
  ⟨rfl, rfl, by simp [advanceL], by simp [advanceL]; omega,
   by simp [advanceL], ⟨[], by simp [advanceL]⟩⟩

theorem frameLe_bumpLine (l : Lexer) : FrameLe l (bumpLine l) :=
  ⟨rfl, rfl, le_rfl, le_max_right _ _, by simp [bumpLine], ⟨[], by simp [bumpLine]⟩⟩

/-- The newline-aware single step `advanceL (if CURRENT = '\n' then bumpLine
else id)` taken by several scan loops. -/
theorem frameLe_nl_step {l : Lexer} (h : l.position < l.source.length) :
    FrameLe l (advanceL (if current l = '\n' then bumpLine l else l)) := by
  split
  · exact frameLe_trans (frameLe_bumpLine l) (frameLe_advance (by simpa [bumpLine] using h))
  · exact frameLe_advance h

theorem skip_whitespace_go_frame : ∀ (fuel : Nat) (l : Lexer),
    FrameLe l (skip_whitespace_go fuel l) := by
  intro fuel
  induction fuel with
  | zero => intro l; exact frameLe_refl l
  | succ n ih =>
    intro l
    rw [skip_whitespace_go]
    split
    · next h =>
      have h1 : l.position < l.source.length := by
        have := h.1; simp only [atEnd, decide_eq_true_eq, not_le] at this; exact this
      exact frameLe_trans (frameLe_nl_step h1) (ih _)
    · exact frameLe_refl l

theorem skip_whitespace_frame (l : Lexer) : FrameLe l (skip_whitespace l) :=
  skip_whitespace_go_frame _ l

theorem skip_to_eol_go_frame : ∀ (fuel : Nat) (l : Lexer),
    FrameLe l (skip_to_eol_go fuel l) := by
  intro fuel
  induction fuel with
  | zero => intro l; exact frameLe_refl l
  | succ n ih =>
    intro l
    rw [skip_to_eol_go]
    split
    · next h =>
      have h1 : l.position < l.source.length := by
        have := h.1; simp only [atEnd, decide_eq_true_eq, not_le] at this; exact this
      exact frameLe_trans (frameLe_advance h1) (ih _)
    · exact frameLe_refl l

theorem skip_to_eol_frame (l : Lexer) : FrameLe l (skip_to_eol l) :=
  skip_to_eol_go_frame _ l

theorem multi_comment_scan_go_frame (endPat : String) : ∀ (fuel : Nat) (l : Lexer),
    FrameLe l (multi_comment_scan_go endPat fuel l) := by
  intro fuel
  induction fuel with
  | zero => intro l; exact frameLe_refl l
  | succ n ih =>
    intro l
    rw [multi_comment_scan_go]
    split
    · next h =>
      have h1 : l.position < l.source.length := by
        simpa only [atEnd, decide_eq_true_eq, not_le] using h
      split
      · next hm =>
        simp only [prefix_match, Bool.and_eq_true, decide_eq_true_eq] at hm
        exact ⟨rfl, rfl, by simp, by simp; omega, rfl, ⟨[], by simp⟩⟩
      · exact frameLe_trans (frameLe_nl_step h1) (ih _)
    · exact ⟨rfl, rfl, le_rfl, le_max_right _ _, rfl, ⟨_, rfl⟩⟩

theorem multi_comment_scan_frame (endPat : String) (l : Lexer) :
    FrameLe l (multi_comment_scan endPat l) :=
  multi_comment_scan_go_frame endPat _ l

theorem ident_scan_go_frame : ∀ (fuel : Nat) (l : Lexer),
    FrameLe l (ident_scan_go fuel l) := by
  intro fuel
  induction fuel with
  | zero => intro l; exact frameLe_refl l
  | succ n ih =>
    intro l
    rw [ident_scan_go]
    split
    · next h =>
      have h1 : l.position < l.source.length := by
        have := h.1; simp only [atEnd, decide_eq_true_eq, not_le] at this; exact this
      exact frameLe_trans (frameLe_advance h1) (ih _)
    · exact frameLe_refl l

theorem ident_scan_frame (l : Lexer) : FrameLe l (ident_scan l) :=
  ident_scan_go_frame _ l

theorem scan_while_go_frame (p : Char → Bool) : ∀ (fuel : Nat) (l : Lexer),
    FrameLe l (scan_while_go p fuel l) := by
  intro fuel
  induction fuel with
  | zero => intro l; exact frameLe_refl l
  | succ n ih =>
    intro l
    rw [scan_while_go]
    split
    · next h =>
      have h1 : l.position < l.source.length := by
        have := h.1; simp only [atEnd, decide_eq_true_eq, not_le] at this; exact this
      exact frameLe_trans (frameLe_advance h1) (ih _)
    · exact frameLe_refl l

theorem scan_while_frame (p : Char → Bool) (l : Lexer) : FrameLe l (scan_while p l) :=
  scan_while_go_frame p _ l

theorem string_scan_go_frame : ∀ (fuel : Nat) (l : Lexer),
    FrameLe l (string_scan_go fuel l) := by
  intro fuel
  induction fuel with
  | zero => intro l; exact frameLe_refl l
  | succ n ih =>
    intro l
    rw [string_scan_go]
    split
    · next h =>
      have h1 : l.position < l.source.length := by
        have := h.1; simp only [atEnd, decide_eq_true_eq, not_le] at this; exact this
      split
      · dsimp only
        refine frameLe_trans (frameLe_trans (frameLe_advance h1) ?_) (ih _)
        split
        · next hb =>
          simp only [atEnd, decide_eq_true_eq, not_le] at hb
          exact frameLe_advance hb
        · exact frameLe_refl _
      · exact frameLe_trans (frameLe_nl_step h1) (ih _)
    · exact frameLe_refl l

theorem string_scan_frame (l : Lexer) : FrameLe l (string_scan l) :=
  string_scan_go_frame _ l

theorem skip_single_line_comment_frame {l l' : Lexer}
    (h : skip_single_line_comment l = some l') : FrameLe l l' := by
  unfold skip_single_line_comment at h
  split at h
  · exact absurd h (by simp)
  · next start heq =>
    split at h
    · next hp =>
      simp only [Option.some.injEq] at h
      subst h
      refine frameLe_trans ?_ (skip_to_eol_frame _)
      simp only [prefix_match, Bool.and_eq_true, decide_eq_true_eq] at hp
      exact ⟨rfl, rfl, by simp, by simp; omega, rfl, ⟨[], by simp⟩⟩
    · exact absurd h (by simp)

theorem skip_multi_line_comment_frame {l l' : Lexer}
    (h : skip_multi_line_comment l = some l') : FrameLe l l' := by
  unfold skip_multi_line_comment at h
  split at h
  · next start endPat _ _ =>
    split at h
    · next hp =>
      simp only [Option.some.injEq] at h
      subst h
      refine frameLe_trans ?_ (multi_comment_scan_frame _ _)
      simp only [prefix_match, Bool.and_eq_true, decide_eq_true_eq] at hp
      exact ⟨rfl, rfl, by simp, by simp; omega, rfl, ⟨[], by simp⟩⟩
    · exact absurd h (by simp)
  · exact absurd h (by simp)

theorem skip_preprocessor_line_marker_frame {l l' : Lexer}
    (h : skip_preprocessor_line_marker l = some l') : FrameLe l l' := by
  unfold skip_preprocessor_line_marker at h
  split at h
  · exact absurd h (by simp)
  · split at h
    · exact absurd h (by simp)
    · split at h
      · simp only [Option.some.injEq] at h
        subst h
        refine frameLe_trans (skip_to_eol_frame l) ?_
        split
        · next hnl =>
          refine frameLe_trans (frameLe_bumpLine _) (frameLe_advance ?_)
          -- at a newline character the cursor is inside the buffer
          have hf := skip_to_eol_frame l
          by_contra hge
          simp only [not_lt] at hge
          have : current (skip_to_eol l) = Char.ofNat 0 := by
            simp only [current, bumpLine]
            rw [List.getD_eq_default]
            · simpa [bumpLine] using hge
          rw [hnl] at this
          exact absurd this (by decide)
        · exact frameLe_refl _
      · exact absurd h (by simp)

theorem skip_trivia_frame {fuel : Nat} {l l' : Lexer}
    (h : skip_trivia fuel l = some l') : FrameLe l l' := by
  induction fuel generalizing l with
  | zero => exact absurd h (by simp [skip_trivia])
  | succ n ih =>
    rw [skip_trivia] at h
    split at h
    · simp only [Option.some.injEq] at h; subst h; exact frameLe_refl l
    · split at h
      · exact frameLe_trans (skip_whitespace_frame l) (ih h)
      · split at h
        · next hm => exact frameLe_trans (skip_preprocessor_line_marker_frame hm) (ih h)
        · split at h
          · next hm => exact frameLe_trans (skip_single_line_comment_frame hm) (ih h)
          · split at h
            · next hm => exact frameLe_trans (skip_multi_line_comment_frame hm) (ih h)
            · simp only [Option.some.injEq] at h; subst h; exact frameLe_refl l

/-- The token types the lexer can construct when running over a given syntax
table: the fixed special/literal codes, or an entry of one of the three
symbol tables. -/
def token_type_from (syn : SyntaxDefinition) (n : Nat) : Prop :=
  n = TOKEN_EOF ∨ n = TOKEN_ERROR ∨ n = TOKEN_IDENTIFIER ∨
  n = TOKEN_INTEGER_LITERAL ∨ n = TOKEN_FLOAT_LITERAL ∨
  n = TOKEN_STRING_LITERAL ∨ n = TOKEN_CHAR_LITERAL ∨
  (∃ e ∈ syn.keywords, n = e.2) ∨ (∃ e ∈ syn.operators, n = e.2) ∨
  (∃ e ∈ syn.punctuation, n = e.2)

theorem table_match_spec {l : Lexer} {tbl : List (String × Nat)} {l' : Lexer} {t : Token}
    (h : table_match l tbl = some (l', t)) :
    ∃ sym ty, (sym, ty) ∈ tbl ∧ t.type = ty ∧
      l'.position = l.position + sym.length ∧ l'.source = l.source ∧
      l'.syn = l.syn ∧ l'.tokens = l.tokens ∧ l'.diags = l.diags ∧
      l'.position ≤ l.source.length := by
  induction tbl with
  | nil => exact absurd h (by simp [table_match])
  | cons e rest ih =>
    rw [table_match] at h
    split at h
    · next hp =>
      simp only [Option.some.injEq, Prod.mk.injEq] at h
      obtain ⟨h1, h2⟩ := h
      subst h1; subst h2
      simp only [prefix_match, Bool.and_eq_true, decide_eq_true_eq] at hp
      exact ⟨e.1, e.2, by simp, rfl, rfl, rfl, rfl, rfl, rfl, hp.1⟩
    · obtain ⟨sym, ty, hmem, rest'⟩ := ih h
      exact ⟨sym, ty, List.mem_cons_of_mem _ hmem, rest'⟩

theorem lex_identifier_spec (l : Lexer) :
    FrameLe l (lex_identifier l).1 ∧ token_type_from l.syn (lex_identifier l).2.type := by
  unfold lex_identifier
  dsimp only
  split
  · next kw hkw =>
    have hmem := List.mem_of_find?_eq_some hkw
    refine ⟨ident_scan_frame l, ?_⟩
    right; right; right; right; right; right; right; left
    exact ⟨kw, hmem, rfl⟩
  · exact ⟨ident_scan_frame l, by right; right; left; rfl⟩

theorem number_prefix_scan_frame (l : Lexer) (h : l.position < l.source.length) :
    FrameLe l (number_prefix_scan l) := by
  unfold number_prefix_scan
  dsimp only
  split
  · split
    · next hb =>
      simp only [atEnd, decide_eq_true_eq, not_le] at hb
      have hstep : FrameLe l (advanceL l) := frameLe_advance h
      split
      · exact frameLe_trans (frameLe_trans hstep (frameLe_advance hb)) (scan_while_frame _ _)
      · split
        · exact frameLe_trans (frameLe_trans hstep (frameLe_advance hb)) (scan_while_frame _ _)
        · split
          · exact frameLe_trans hstep (scan_while_frame _ _)
          · exact hstep
    · exact frameLe_advance h
  · exact scan_while_frame _ _

theorem number_fraction_scan_frame (l : Lexer) :
    FrameLe l (number_fraction_scan l).2 := by
  unfold number_fraction_scan
  split
  · next hd =>
    simp only [Bool.and_eq_true, decide_eq_true_eq] at hd
    obtain ⟨⟨hne, _⟩, _⟩ := hd
    simp only [atEnd, Bool.not_eq_true, decide_eq_true_eq, not_le,
      decide_eq_false_iff_not] at hne
    exact frameLe_trans (frameLe_advance hne) (scan_while_frame _ _)
  · exact frameLe_refl l

theorem number_exponent_scan_frame (l : Lexer) :
    FrameLe l (number_exponent_scan l).2 := by
  unfold number_exponent_scan
  dsimp only
  split
  · next he =>
    simp only [Bool.and_eq_true, decide_eq_true_eq] at he
    obtain ⟨⟨hne, _⟩, _⟩ := he
    simp only [atEnd, Bool.not_eq_true, decide_eq_true_eq, not_le,
      decide_eq_false_iff_not] at hne
    refine frameLe_trans (frameLe_trans (frameLe_advance hne) ?_) (scan_while_frame _ _)
    split
    · next hs =>
      simp only [Bool.and_eq_true, Bool.not_eq_true, decide_eq_false_iff_not,
        atEnd, not_le, decide_eq_true_eq] at hs
      exact frameLe_advance hs.1
    · exact frameLe_refl _
  · exact frameLe_refl l

theorem lex_number_spec (l : Lexer) (h : l.position < l.source.length) :
    FrameLe l (lex_number l).1 ∧ token_type_from l.syn (lex_number l).2.type := by
  unfold lex_number
  dsimp only
  refine ⟨frameLe_trans (frameLe_trans (frameLe_trans (number_prefix_scan_frame l h)
    (number_fraction_scan_frame _)) (number_exponent_scan_frame _))
    (scan_while_frame _ _), ?_⟩
  split <;> simp [token_type_from]

theorem lex_string_spec (l : Lexer) (h : l.position < l.source.length) :
    FrameLe l (lex_string l).1 ∧ token_type_from l.syn (lex_string l).2.type := by
  unfold lex_string
  dsimp only
  have hf : FrameLe l (string_scan (advanceL l)) :=
    frameLe_trans (frameLe_advance h) (string_scan_frame _)
  split
  · refine ⟨frameLe_trans hf ?_, by simp [token_type_from]⟩
    exact ⟨rfl, rfl, le_rfl, le_max_right _ _, rfl, ⟨_, rfl⟩⟩
  · next hend =>
    simp only [atEnd, decide_eq_true_eq, not_le] at hend
    exact ⟨frameLe_trans hf (frameLe_advance hend), by simp [token_type_from]⟩

theorem char_body_scan_frame (esc : Char) (l1 : Lexer)
    (h : l1.position < l1.source.length) : FrameLe l1 (char_body_scan esc l1) := by
  unfold char_body_scan
  dsimp only
  split
  · split
    · next hb =>
      simp only [atEnd, decide_eq_true_eq, not_le] at hb
      exact frameLe_trans (frameLe_advance h) (frameLe_advance hb)
    · exact frameLe_advance h
  · exact frameLe_advance h

theorem lex_char_spec (l : Lexer) (h : l.position < l.source.length) :
    FrameLe l (lex_char l).1 ∧ token_type_from l.syn (lex_char l).2.type := by
  unfold lex_char
  dsimp only
  split
  · refine ⟨frameLe_trans (frameLe_advance h) ?_, by simp [token_type_from]⟩
    exact ⟨rfl, rfl, le_rfl, le_max_right _ _, rfl, ⟨_, rfl⟩⟩
  · next hend1 =>
    simp only [atEnd, decide_eq_true_eq, not_le] at hend1
    have hmid : FrameLe l (char_body_scan l.syn.escape_char (advanceL l)) :=
      frameLe_trans (frameLe_advance h) (char_body_scan_frame _ _ hend1)
    split
    · refine ⟨frameLe_trans hmid ?_, by simp [token_type_from]⟩
      exact ⟨rfl, rfl, le_rfl, le_max_right _ _, rfl, ⟨_, rfl⟩⟩
    · next hok =>
      simp only [Bool.or_eq_true, Bool.not_eq_true, decide_eq_false_iff_not, not_or,
        atEnd, not_le, decide_eq_true_eq] at hok
      exact ⟨frameLe_trans hmid (frameLe_advance hok.1), by simp [token_type_from]⟩

theorem lex_operator_or_punct_spec (l : Lexer) (h : l.position < l.source.length) :
    FrameLe l (lex_operator_or_punct l).1 ∧
    token_type_from l.syn (lex_operator_or_punct l).2.type := by
  unfold lex_operator_or_punct
  split
  · next r hr =>
    obtain ⟨sym, ty, hmem, hty, hpos, hsrc, hsyn, htok, hdia, hle⟩ := table_match_spec hr
    refine ⟨⟨hsrc, hsyn, by omega, le_trans hle (le_max_left _ _), htok, ⟨[], by simp [hdia]⟩⟩, ?_⟩
    right; right; right; right; right; right; right; right; right
    exact ⟨(sym, ty), hmem, hty⟩
  · split
    · next r hr =>
      obtain ⟨sym, ty, hmem, hty, hpos, hsrc, hsyn, htok, hdia, hle⟩ := table_match_spec hr
      refine ⟨⟨hsrc, hsyn, by omega, le_trans hle (le_max_left _ _), htok, ⟨[], by simp [hdia]⟩⟩, ?_⟩
      right; right; right; right; right; right; right; right; left
      exact ⟨(sym, ty), hmem, hty⟩
    · refine ⟨⟨rfl, rfl, by simp [advanceL], by simp [advanceL]; omega,
        by simp [advanceL], ⟨_, rfl⟩⟩, by simp [token_type_from]⟩

/-- `lex_one` appends exactly one token whose type is one of the kinds the
lexer constructs, and obeys the frame discipline on the rest of the state. -/
theorem lex_one_spec (l : Lexer) (h : l.position < l.source.length) :
    ∃ t, (lex_one l).source = l.source ∧ (lex_one l).syn = l.syn ∧
      l.position ≤ (lex_one l).position ∧
      (lex_one l).position ≤ max l.source.length l.position ∧
      (lex_one l).tokens = l.tokens ++ [t] ∧
      (∃ ds, (lex_one l).diags = l.diags ++ ds) ∧
      token_type_from l.syn t.type := by
  unfold lex_one
  dsimp only
  split
  · obtain ⟨⟨h1, h2, h3, h4, h5, h6⟩, h7⟩ := lex_identifier_spec l
    exact ⟨_, h1, h2, h3, h4, by simp [h5], h6, h7⟩
  · split
    · obtain ⟨⟨h1, h2, h3, h4, h5, h6⟩, h7⟩ := lex_number_spec l h
      exact ⟨_, h1, h2, h3, h4, by simp [h5], h6, h7⟩
    · split
      · obtain ⟨⟨h1, h2, h3, h4, h5, h6⟩, h7⟩ := lex_string_spec l h
        exact ⟨_, h1, h2, h3, h4, by simp [h5], h6, h7⟩
      · split
        · obtain ⟨⟨h1, h2, h3, h4, h5, h6⟩, h7⟩ := lex_char_spec l h
          exact ⟨_, h1, h2, h3, h4, by simp [h5], h6, h7⟩
        · obtain ⟨⟨h1, h2, h3, h4, h5, h6⟩, h7⟩ := lex_operator_or_punct_spec l h
          exact ⟨_, h1, h2, h3, h4, by simp [h5], h6, h7⟩

/-! ### Progress lemmas: with the C99 table every lexing step consumes input -/

theorem scan_while_progress (p : Char → Bool) (l : Lexer)
    (h : l.position < l.source.length) (hp : p (current l) = true) :
    l.position < (scan_while p l).position := by
  rw [scan_while, scan_while_go, if_pos ⟨by simp [atEnd]; omega, hp⟩]
  have h1 := (scan_while_go_frame p (l.source.length - l.position) (advanceL l)).2.2.1
  have h2 : (advanceL l).position = l.position + 1 := rfl
  omega

theorem ident_scan_progress (l : Lexer) (h : l.position < l.source.length)
    (hp : l.syn.is_identifier_continue (current l) = true) :
    l.position < (ident_scan l).position := by
  rw [ident_scan, ident_scan_go, if_pos ⟨by simp [atEnd]; omega, hp⟩]
  have h1 := (ident_scan_go_frame (l.source.length - l.position) (advanceL l)).2.2.1
  have h2 : (advanceL l).position = l.position + 1 := rfl
  omega

theorem skip_whitespace_progress (l : Lexer) (h : l.position < l.source.length)
    (hp : l.syn.is_whitespace (current l) = true) :
    l.position < (skip_whitespace l).position := by
  rw [skip_whitespace, skip_whitespace_go, if_pos ⟨by simp [atEnd]; omega, hp⟩]
  have h1 := (skip_whitespace_go_frame (l.source.length - l.position)
    (advanceL (if current l = '\n' then bumpLine l else l))).2.2.1
  have h2 : (advanceL (if current l = '\n' then bumpLine l else l)).position = l.position + 1 := by
    split <;> rfl
  omega

theorem skip_to_eol_progress (l : Lexer) (h : l.position < l.source.length)
    (hp : current l ≠ '\n') : l.position < (skip_to_eol l).position := by
  rw [skip_to_eol, skip_to_eol_go, if_pos ⟨by simp [atEnd]; omega, hp⟩]
  have h1 := (skip_to_eol_go_frame (l.source.length - l.position) (advanceL l)).2.2.1
  have h2 : (advanceL l).position = l.position + 1 := rfl
  omega

theorem skip_preprocessor_line_marker_progress {l l' : Lexer}
    (h : skip_preprocessor_line_marker l = some l') : l.position < l'.position := by
  unfold skip_preprocessor_line_marker at h
  split at h
  · exact absurd h (by simp)
  · next hch =>
    simp only [Decidable.not_not] at hch
    split at h
    · exact absurd h (by simp)
    · split at h
      · next hdig =>
        simp only [Bool.and_eq_true, decide_eq_true_eq] at hdig
        simp only [Option.some.injEq] at h
        subst h
        have hlt : l.position < l.source.length := by omega
        have hstep := skip_to_eol_progress l hlt (by rw [hch]; decide)
        have hframe := (skip_to_eol_frame l).2.2.1
        split
        · simp only [advanceL, bumpLine]; omega
        · omega
      · exact absurd h (by simp)

theorem skip_single_line_comment_progress_c99 {l l' : Lexer}
    (hsyn : l.syn = syntax_c99) (h : skip_single_line_comment l = some l') :
    l.position < l'.position := by
  unfold skip_single_line_comment at h
  have hs : l.syn.single_line_start = some "//" := by rw [hsyn]; rfl
  rw [hs] at h
  split at h
  · exact absurd h (by simp)
  · next start heq =>
    injection heq with heq'
    subst heq'
    split at h
    · next hp =>
      simp only [Option.some.injEq] at h
      subst h
      have h1 := (skip_to_eol_frame { l with position := l.position + ("//" : String).length,
                                             column := l.column + ("//" : String).length }).2.2.1
      have h2 : ("//" : String).length = 2 := rfl
      simp only at h1
      omega
    · exact absurd h (by simp)

theorem skip_multi_line_comment_progress_c99 {l l' : Lexer}
    (hsyn : l.syn = syntax_c99) (h : skip_multi_line_comment l = some l') :
    l.position < l'.position := by
  unfold skip_multi_line_comment at h
  have hs1 : l.syn.multi_line_start = some "/*" := by rw [hsyn]; rfl
  have hs2 : l.syn.multi_line_end = some "*/" := by rw [hsyn]; rfl
  rw [hs1, hs2] at h
  split at h
  · next start endPat heq1 heq2 =>
    injection heq1 with heq1'
    injection heq2 with heq2'
    subst heq1'
    subst heq2'
    split at h
    · next hp =>
      simp only [Option.some.injEq] at h
      subst h
      have h1 := (multi_comment_scan_frame "*/"
        { l with position := l.position + ("/*" : String).length,
                 column := l.column + ("/*" : String).length }).2.2.1
      have h2 : ("/*" : String).length = 2 := rfl
      simp only at h1
      omega
    · exact absurd h (by simp)
  · next _ _ hne => exact (hne "/*" "*/" rfl rfl).elim

/-- With the C99 table, `skip_trivia` succeeds given fuel one more than the
number of unconsumed bytes. -/
theorem skip_trivia_c99_succeeds :
    ∀ (n : Nat) (l : Lexer), l.syn = syntax_c99 →
      l.source.length - l.position < n → ∃ l1, skip_trivia n l = some l1 := by
  intro n
  induction n with
  | zero => intro l _ h; omega
  | succ m ih =>
    intro l hsyn hlt
    rw [skip_trivia]
    split
    · exact ⟨l, rfl⟩
    · next hend =>
      simp only [atEnd, decide_eq_true_eq, not_le] at hend
      split
      · next hws =>
        have hprog := skip_whitespace_progress l hend hws
        have hfr := skip_whitespace_frame l
        obtain ⟨h1, h2, _, h4, _, _⟩ := hfr
        exact ih (skip_whitespace l) (h2.trans hsyn) (by rw [h1]; omega)
      · split
        · next l1 hm =>
          have hprog := skip_preprocessor_line_marker_progress hm
          have hfr := skip_preprocessor_line_marker_frame hm
          obtain ⟨h1, h2, _, h4, _, _⟩ := hfr
          exact ih l1 (h2.trans hsyn) (by rw [h1]; omega)
        · split
          · next l1 hm =>
            have hprog := skip_single_line_comment_progress_c99 hsyn hm
            have hfr := skip_single_line_comment_frame hm
            obtain ⟨h1, h2, _, h4, _, _⟩ := hfr
            exact ih l1 (h2.trans hsyn) (by rw [h1]; omega)
          · split
            · next l1 hm =>
              have hprog := skip_multi_line_comment_progress_c99 hsyn hm
              have hfr := skip_multi_line_comment_frame hm
              obtain ⟨h1, h2, _, h4, _, _⟩ := hfr
              exact ih l1 (h2.trans hsyn) (by rw [h1]; omega)
            · exact ⟨l, rfl⟩

/-- With the C99 classifiers, an identifier-start byte is also an
identifier-continue byte. -/
theorem c99_start_continue (c : Char) (h : (c_isalpha c || c = '_') = true) :
    (c_isalnum c || decide (c = '_')) = true := by
  rw [Bool.or_eq_true] at h ⊢
  rcases h with h | h
  · exact Or.inl (by simp [c_isalnum, h])
  · exact Or.inr h

/-- Every operator and punctuation symbol of the C99 table is non-empty. -/
theorem c99_symbols_nonempty :
    (∀ e ∈ c_operators, e.1.length ≠ 0) ∧ (∀ e ∈ c_punctuation, e.1.length ≠ 0) := by
  constructor <;> decide

theorem number_prefix_scan_progress (l : Lexer) (h : l.position < l.source.length)
    (hd : l.syn.is_digit (current l) = true) :
    l.position < (number_prefix_scan l).position := by
  unfold number_prefix_scan
  dsimp only
  split
  · have hadv : l.position < (advanceL l).position := by simp [advanceL]
    split
    · split
      · have := (scan_while_frame c_isxdigit (advanceL (advanceL l))).2.2.1
        simp only [advanceL] at this ⊢; omega
      · split
        · have := (scan_while_frame (fun c => decide (c = '0') || decide (c = '1'))
            (advanceL (advanceL l))).2.2.1
          simp only [advanceL] at this ⊢; omega
        · split
          · have := (scan_while_frame (fun c => decide ('0' ≤ c) && decide (c ≤ '7'))
              (advanceL l)).2.2.1
            simp only [advanceL] at this ⊢; omega
          · exact hadv
    · exact hadv
  · exact scan_while_progress _ l h hd

theorem lex_one_progress_c99 (l : Lexer) (hsyn : l.syn = syntax_c99)
    (h : l.position < l.source.length) : l.position < (lex_one l).position := by
  unfold lex_one
  dsimp only
  split
  · next hid =>
    unfold lex_identifier
    dsimp only
    have hcont : l.syn.is_identifier_continue (current l) = true := by
      rw [hsyn] at hid ⊢
      simpa [syntax_c99] using c99_start_continue _ (by simpa [syntax_c99] using hid)
    have := ident_scan_progress l h hcont
    split <;> simpa
  · split
    · next hdig =>
      unfold lex_number
      dsimp only
      have h1 := number_prefix_scan_progress l h hdig
      have h2 := (number_fraction_scan_frame (number_prefix_scan l)).2.2.1
      have h3 := (number_exponent_scan_frame (number_fraction_scan (number_prefix_scan l)).2).2.2.1
      have h4 := (scan_while_frame (fun c => decide (c = 'f') || decide (c = 'F') ||
        decide (c = 'l') || decide (c = 'L') || decide (c = 'u') || decide (c = 'U'))
        (number_exponent_scan (number_fraction_scan (number_prefix_scan l)).2).2).2.2.1
      simp only [number_suffix_scan]
      omega
    · split
      · unfold lex_string
        dsimp only
        have hstep : l.position < (advanceL l).position := by simp [advanceL]
        have hs := (string_scan_frame (advanceL l)).2.2.1
        split <;> simp only [advanceL] at * <;> omega
      · split
        · unfold lex_char
          dsimp only
          have hstep : l.position < (advanceL l).position := by simp [advanceL]
          split
          · simpa [advanceL]
          · next hend1 =>
            simp only [atEnd, decide_eq_true_eq, not_le] at hend1
            have hb := (char_body_scan_frame l.syn.escape_char (advanceL l) hend1).2.2.1
            split
            · simp only [advanceL] at *; omega
            · simp only [advanceL] at *; omega
        · unfold lex_operator_or_punct
          split
          · next r hr =>
            obtain ⟨sym, ty, hmem, _, hpos, _⟩ := table_match_spec hr
            have hne : sym.length ≠ 0 := by
              have := c99_symbols_nonempty.2 (sym, ty) (by rw [hsyn] at hmem; exact hmem)
              exact this
            omega
          · split
            · next r hr =>
              obtain ⟨sym, ty, hmem, _, hpos, _⟩ := table_match_spec hr
              have hne : sym.length ≠ 0 := by
                have := c99_symbols_nonempty.1 (sym, ty) (by rw [hsyn] at hmem; exact hmem)
                exact this
              omega
            · simp [advanceL]

/-- With the C99 table, the tokenizer's main loop succeeds given fuel one
more than the number of unconsumed bytes, and its output extends the token
list by some tokens followed by the EOF token. -/
theorem tokenize_loop_c99_succeeds :
    ∀ (n : Nat) (l : Lexer), l.syn = syntax_c99 →
      l.source.length - l.position < n →
      ∃ l1, tokenize_loop n l = some l1 ∧
        ∃ pre, l1.tokens = l.tokens ++ pre ++ [⟨TOKEN_EOF, []⟩] := by
  intro n
  induction n with
  | zero => intro l _ h; omega
  | succ m ih =>
    intro l hsyn hlt
    by_cases hend : atEnd l = true
    · exact ⟨emit_eof l, by rw [tokenize_loop, if_pos hend], [], by simp [emit_eof]⟩
    · obtain ⟨l1, hl1⟩ := skip_trivia_c99_succeeds (m + 1) l hsyn hlt
      obtain ⟨hsrc1, hsyn1, hpos1, hbd1, htok1, _⟩ := skip_trivia_frame hl1
      have hstep : tokenize_loop (m + 1) l =
          if atEnd l1 then some (emit_eof l1) else tokenize_loop m (lex_one l1) := by
        rw [tokenize_loop, if_neg hend, hl1]
      by_cases hend1 : atEnd l1 = true
      · exact ⟨emit_eof l1, by rw [hstep, if_pos hend1], [], by simp [emit_eof, htok1]⟩
      · have hstep2 : tokenize_loop (m + 1) l = tokenize_loop m (lex_one l1) := by
          rw [hstep, if_neg hend1]
        simp only [atEnd, decide_eq_true_eq, not_le] at hend1
        obtain ⟨t, g1, g2, g3, g4, g5, _, _⟩ := lex_one_spec l1 hend1
        have hprog := lex_one_progress_c99 l1 (hsyn1.trans hsyn) hend1
        have hrec : (lex_one l1).source.length - (lex_one l1).position < m := by
          rw [g1, hsrc1]
          rw [hsrc1] at g4 hend1
          omega
        obtain ⟨l2, hl2, pre, hpre⟩ := ih (lex_one l1) (g2.trans (hsyn1.trans hsyn)) hrec
        refine ⟨l2, hstep2.trans hl2, t :: pre, ?_⟩
        rw [hpre, g5, htok1]
        simp

/-- The adversarial syntax table for the C7 counterexample: every byte is an
identifier-start but no byte is an identifier-continue, so `lex_identifier`
emits an empty identifier token without consuming anything. -/
def hostile_syntax : SyntaxDefinition where
  keywords := []
  operators := []
  punctuation := []
  single_line_start := none
  multi_line_start := none
  multi_line_end := none
  is_identifier_start := fun _ => true
  is_identifier_continue := fun _ => false
  is_digit := fun _ => false
  is_whitespace := fun _ => false
  string_delimiter := '"'
  char_delimiter := '\''
  escape_char := '\\'
  supports_hex := false
  supports_octal := false
  supports_binary := false
  supports_float := false
  supports_scientific := false

theorem hostile_loop_none :
    ∀ (fuel : Nat) (tokens : List Token) (diags : List String) (line column : Nat),
      tokenize_loop fuel
        ⟨['a'], 0, line, column, hostile_syntax, tokens, diags⟩ = none := by
  intro fuel
  induction fuel with
  | zero => intro _ _ _ _; rfl
  | succ m ih =>
    intro tokens diags line column
    have hstep : tokenize_loop (m + 1) ⟨['a'], 0, line, column, hostile_syntax, tokens, diags⟩ =
        tokenize_loop m ⟨['a'], 0, line, column, hostile_syntax,
          tokens ++ [⟨TOKEN_IDENTIFIER, []⟩], diags⟩ := rfl
    rw [hstep]
    exact ih _ _ _ _

/-- C7, as stated, is refuted by `hostile_syntax` on the one-byte input
`"a"`: no amount of fuel makes `lexer_tokenize` return, because each
iteration of the token loop emits a zero-length identifier token without
advancing the cursor.  (Claim C7 quantifies over *every* combination of
character-classifier predicates.) -/
theorem C7_counterexample_hostile_table :
    ¬ ∃ (fuel : Nat) (toks : List Token),
        lexer_tokenize fuel (lexer_create "a" hostile_syntax) = some toks := by
  rintro ⟨fuel, toks, h⟩
  rw [lexer_tokenize, lexer_create] at h
  rw [show ("a" : String).data = ['a'] from rfl] at h
  rw [hostile_loop_none fuel [] [] 1 1] at h
  exact absurd h (by simp)

/-- C7 (amended): for every input byte sequence, tokenization **with the C99
syntax table** terminates — fuel `length + 1` suffices — and the resulting
token list is non-empty with its final token of kind `TOKEN_EOF`.  (The
original claim quantified over every syntax table; `hostile_syntax` above
refutes that, so the table is restricted to the one the compiler installs,
whose classifiers and non-empty symbol tables guarantee progress.) -/
theorem C7_tokenize_total_c99 (source : String) :
    ∃ toks : List Token,
      lexer_tokenize (source.length + 1) (lexer_create source syntax_c99) = some toks ∧
      toks ≠ [] ∧ toks.getLast? = some ⟨TOKEN_EOF, []⟩ := by
  obtain ⟨l1, hl1, pre, hpre⟩ := tokenize_loop_c99_succeeds (source.length + 1)
    (lexer_create source syntax_c99) rfl (by
      have h : (lexer_create source syntax_c99).source.length -
          (lexer_create source syntax_c99).position = source.length := rfl
      omega)
  refine ⟨l1.tokens, ?_, ?_, ?_⟩
  · rw [lexer_tokenize, hl1]; rfl
  · rw [hpre]; simp [lexer_create]
  · rw [hpre]; simp [lexer_create]


/-! ### C10: the token stream never contains trivia tokens -/

/-- Every token present after a successful run of the tokenizer loop was
either already in the input state's token list, or was constructed by
`emit_eof` / `lex_one`, hence carries a type drawn from `token_type_from`. -/
theorem tokenize_loop_types :
    ∀ (fuel : Nat) (l l1 : Lexer), tokenize_loop fuel l = some l1 →
      ∀ t ∈ l1.tokens, t ∈ l.tokens ∨ token_type_from l.syn t.type := by
  intro fuel
  induction fuel with
  | zero =>
    intro l l1 h
    rw [tokenize_loop] at h
    exact absurd h (by simp)
  | succ m ih =>
    intro l l1 h
    by_cases hend : atEnd l = true
    · rw [tokenize_loop, if_pos hend] at h
      simp only [Option.some.injEq] at h
      subst h
      intro t ht
      simp only [emit_eof, List.mem_append, List.mem_singleton] at ht
      rcases ht with ht | ht
      · exact Or.inl ht
      · subst ht; exact Or.inr (Or.inl rfl)
    · cases hsk : skip_trivia (m + 1) l with
      | none =>
        have hnone : tokenize_loop (m + 1) l = none := by
          rw [tokenize_loop, if_neg hend, hsk]
        rw [hnone] at h
        exact absurd h (by simp)
      | some lt1 =>
        obtain ⟨hsrc1, hsyn1, _, _, htok1, _⟩ := skip_trivia_frame hsk
        have hstep : tokenize_loop (m + 1) l =
            if atEnd lt1 then some (emit_eof lt1) else tokenize_loop m (lex_one lt1) := by
          rw [tokenize_loop, if_neg hend, hsk]
        by_cases hend1 : atEnd lt1 = true
        · rw [hstep, if_pos hend1] at h
          simp only [Option.some.injEq] at h
          subst h
          intro t ht
          simp only [emit_eof, List.mem_append, List.mem_singleton] at ht
          rcases ht with ht | ht
          · rw [htok1] at ht; exact Or.inl ht
          · subst ht; exact Or.inr (Or.inl rfl)
        · rw [hstep, if_neg hend1] at h
          have hlt1 : lt1.position < lt1.source.length := by
            simp only [atEnd, decide_eq_true_eq, not_le] at hend1
            exact hend1
          obtain ⟨t0, g1, g2, g3, g4, g5, g6, g7⟩ := lex_one_spec lt1 hlt1
          intro t ht
          rcases ih (lex_one lt1) l1 h t ht with hin | hty
          · rw [g5, htok1] at hin
            rcases List.mem_append.mp hin with hin | hin
            · exact Or.inl hin
            · have heq : t = t0 := by simpa using hin
              subst heq
              rw [hsyn1] at g7
              exact Or.inr g7
          · rw [g2, hsyn1] at hty
            exact Or.inr hty

/-- No entry of the C99 keyword, operator or punctuation tables carries one
of the three trivia token types, so anything `token_type_from syntax_c99`
admits is a non-trivia type. -/
theorem c99_no_trivia_types (n : Nat) (h : token_type_from syntax_c99 n) :
    n ≠ TOKEN_COMMENT ∧ n ≠ TOKEN_WHITESPACE ∧ n ≠ TOKEN_NEWLINE := by
  have hk : ∀ e ∈ syntax_c99.keywords,
      e.2 ≠ TOKEN_COMMENT ∧ e.2 ≠ TOKEN_WHITESPACE ∧ e.2 ≠ TOKEN_NEWLINE := by decide
  have ho : ∀ e ∈ syntax_c99.operators,
      e.2 ≠ TOKEN_COMMENT ∧ e.2 ≠ TOKEN_WHITESPACE ∧ e.2 ≠ TOKEN_NEWLINE := by decide
  have hp : ∀ e ∈ syntax_c99.punctuation,
      e.2 ≠ TOKEN_COMMENT ∧ e.2 ≠ TOKEN_WHITESPACE ∧ e.2 ≠ TOKEN_NEWLINE := by decide
  rcases h with h | h | h | h | h | h | h | ⟨e, he, h⟩ | ⟨e, he, h⟩ | ⟨e, he, h⟩
  · subst h; decide
  · subst h; decide
  · subst h; decide
  · subst h; decide
  · subst h; decide
  · subst h; decide
  · subst h; decide
  · subst h; exact hk e he
  · subst h; exact ho e he
  · subst h; exact hp e he

/-- C10: a token list produced by `lexer_tokenize` over the C99 table never
contains a token of kind `TOKEN_COMMENT`, `TOKEN_WHITESPACE` or
`TOKEN_NEWLINE`: trivia is consumed by `skip_trivia` without appending any
token, and every emitted token's type is one of EOF, ERROR, identifier,
integer/float/string/char literal, or an entry of the keyword, operator or
punctuation tables. -/
theorem C10_no_trivia_tokens (fuel : Nat) (source : String) (toks : List Token)
    (h : lexer_tokenize fuel (lexer_create source syntax_c99) = some toks) :
    ∀ t ∈ toks,
      t.type ≠ TOKEN_COMMENT ∧ t.type ≠ TOKEN_WHITESPACE ∧ t.type ≠ TOKEN_NEWLINE ∧
      token_type_from syntax_c99 t.type := by
  rw [lexer_tokenize] at h
  rcases Option.map_eq_some'.mp h with ⟨l1, hl1, htoks⟩
  intro t ht
  rw [← htoks] at ht
  rcases tokenize_loop_types fuel _ l1 hl1 t ht with hin | hty
  · exact absurd hin (by simp [lexer_create])
  · have hty1 : token_type_from syntax_c99 t.type := hty
    obtain ⟨n1, n2, n3⟩ := c99_no_trivia_types t.type hty1
    exact ⟨n1, n2, n3, hty1⟩

/-- Witness for C10 at the concrete source `"int x;"`: its first output
token (the `int` keyword) is non-trivia. -/
theorem C10_no_trivia_tokens_witness :
    (⟨TOKEN_INT, ['i', 'n', 't']⟩ : Token).type ≠ TOKEN_COMMENT ∧
    (⟨TOKEN_INT, ['i', 'n', 't']⟩ : Token).type ≠ TOKEN_WHITESPACE ∧
    (⟨TOKEN_INT, ['i', 'n', 't']⟩ : Token).type ≠ TOKEN_NEWLINE ∧
    token_type_from syntax_c99 (⟨TOKEN_INT, ['i', 'n', 't']⟩ : Token).type :=
  C10_no_trivia_tokens 7 "int x;"
    [⟨TOKEN_INT, ['i', 'n', 't']⟩, ⟨TOKEN_IDENTIFIER, ['x']⟩,
     ⟨TOKEN_SEMICOLON, [';']⟩, ⟨TOKEN_EOF, []⟩] rfl
    ⟨TOKEN_INT, ['i', 'n', 't']⟩ (by decide)

/-! ### C6: lexical error handling -/

/-- C6 is refuted on the unterminated comment `"/*x"`: the lexer emits the
"unterminated comment" diagnostic but synthesizes **no** `ERROR` token (the
output is just the EOF token), and the cursor is advanced to the end of the
buffer (3 bytes), not by one byte. -/
theorem C6_counterexample_unterminated_comment :
    lexer_tokenize 4 (lexer_create "/*x" syntax_c99) = some [⟨TOKEN_EOF, []⟩] ∧
    (tokenize_loop 4 (lexer_create "/*x" syntax_c99)).map Lexer.diags =
      some ["unterminated comment"] ∧
    (tokenize_loop 4 (lexer_create "/*x" syntax_c99)).map Lexer.position = some 3 :=
  ⟨rfl, rfl, rfl⟩

/-- C6 (amended): each lexical error emits a diagnostic and recovers, but
the three error classes behave differently.  (1) An unknown character (one
starting no identifier, number, string, char literal, or table symbol)
appends the "unexpected character" diagnostic, synthesizes an `ERROR` token
holding that byte, and advances exactly one byte.  (2) An unterminated
string literal appends its diagnostic and synthesizes an `ERROR` token, but
only after consuming the input to its end.  (3) An unterminated comment is
handled inside the trivia skipper, which appends its diagnostic but never
appends any token at all — no `ERROR` token is synthesized. -/
theorem C6_error_recovery :
    (∀ l : Lexer,
      l.syn.is_identifier_start (current l) = false →
      l.syn.is_digit (current l) = false →
      ¬ current l = l.syn.string_delimiter →
      ¬ current l = l.syn.char_delimiter →
      table_match l l.syn.punctuation = none →
      table_match l l.syn.operators = none →
      lex_one l = { advanceL l with
        tokens := l.tokens ++ [⟨TOKEN_ERROR, [current l]⟩],
        diags := l.diags ++ ["unexpected character"] }) ∧
    (∀ l : Lexer,
      atEnd (string_scan (advanceL l)) = true →
      lex_string l = ({ string_scan (advanceL l) with
          diags := (string_scan (advanceL l)).diags ++ ["unterminated string literal"] },
        ⟨TOKEN_ERROR, []⟩)) ∧
    (∀ (fuel : Nat) (l l1 : Lexer),
      skip_trivia fuel l = some l1 → l1.tokens = l.tokens) := by
  refine ⟨?_, ?_, ?_⟩
  · intro l h1 h2 h3 h4 h5 h6
    have hop : lex_operator_or_punct l =
        ({ advanceL l with diags := l.diags ++ ["unexpected character"] },
         ⟨TOKEN_ERROR, [current l]⟩) := by
      unfold lex_operator_or_punct
      rw [h5, h6]
    unfold lex_one
    dsimp only
    rw [h1, h2, if_neg h3, if_neg h4, hop]
    simp [advanceL]
  · intro l h
    unfold lex_string
    dsimp only
    rw [if_pos h]
  · intro fuel l l1 h
    exact (skip_trivia_frame h).2.2.2.2.1

/-- Witness for C6 at concrete inputs: the unknown byte `0x01` becomes an
`ERROR` token after a one-byte advance; the unterminated string literal
over the three-byte buffer `"\"ab"` becomes an `ERROR` token with the
input consumed; the trivia skipper leaves the token list of the
unterminated-comment buffer `"/*x"` unchanged (empty). -/
theorem C6_error_recovery_witness :
    lex_one (lexer_create "\x01" syntax_c99) =
      { advanceL (lexer_create "\x01" syntax_c99) with
        tokens := [⟨TOKEN_ERROR, ['\x01']⟩],
        diags := ["unexpected character"] } ∧
    lex_string (lexer_create "\"ab" syntax_c99) =
      ({ string_scan (advanceL (lexer_create "\"ab" syntax_c99)) with
          diags := ["unterminated string literal"] },
        ⟨TOKEN_ERROR, []⟩) ∧
    (skip_trivia 2 (lexer_create "/*x" syntax_c99)).map Lexer.tokens = some [] := by
  refine ⟨?_, ?_, ?_⟩
  · exact C6_error_recovery.1 (lexer_create "\x01" syntax_c99) rfl rfl
      (by decide) (by decide) rfl rfl
  · exact C6_error_recovery.2.1 (lexer_create "\"ab" syntax_c99) rfl
  · obtain ⟨l1, hl1⟩ : ∃ l1, skip_trivia 2 (lexer_create "/*x" syntax_c99) = some l1 :=
      ⟨_, rfl⟩
    have ht := C6_error_recovery.2.2 2 _ l1 hl1
    rw [hl1]
    simp [ht, lexer_create]


/-! ## The parser (src/parser/parser.c and src/parser/c_parser.c)

The token stream is a list of tokens; `current` is the token at the
cursor, `NULL` (running off the list) is modelled by reading a default
EOF-typed token past the end, which `parser_at_end` treats exactly as the
C null check does.  The `Parser` base structure and the `CParser` wrapper
are flattened into one record; the typedef-name symbol table (a hash set
of strings in C) is a duplicate-free list of strings. -/

/-- A parsed token: its `TokenType` code and its lexeme. -/
structure PToken where
  type : Nat
  lexeme : String
deriving DecidableEq, Repr

/-- The parser state: `Parser` (parser.h) flattened together with the
`CParser` fields the modelled routines touch (c_parser.h).  `diags` stands
for the diagnostics `parser_error` emits through `error_report`. -/
structure CParser where
  tokens : List PToken
  position : Nat
  panic_mode : Bool
  error_count : Nat
  diags : List String
  typedef_names : List String
  scope_depth : Int
deriving Repr

/-- `parser_current`: the token under the cursor (an EOF-typed token stands
for the C `NULL` once the cursor leaves the list). -/
def parser_current (p : CParser) : PToken :=
  p.tokens.getD p.position ⟨TOKEN_EOF, ""⟩

/-- `parser_at_end`: `current == NULL || current->type == TOKEN_EOF`. -/
def parser_at_end (p : CParser) : Bool :=
  decide (p.tokens.length ≤ p.position) || (parser_current p).type == TOKEN_EOF

/-- `parser_advance`: step the cursor unless at the end. -/
def parser_advance (p : CParser) : CParser :=
  if parser_at_end p then p else { p with position := p.position + 1 }

/-- `parser_check`: false at the end, else compare the current type. -/
def parser_check (p : CParser) (ty : Nat) : Bool :=
  if parser_at_end p then false else (parser_current p).type == ty

/-- `parser_match`: `check` then `advance`; the flag reports the match. -/
def parser_match (p : CParser) (ty : Nat) : Bool × CParser :=
  if parser_check p ty then (true, parser_advance p) else (false, p)

/-- `parser_error`: suppressed while panicking, else report the message,
count the error and enter panic mode. -/
def parser_error (p : CParser) (msg : String) : CParser :=
  if p.panic_mode then p
  else { p with diags := p.diags ++ [msg],
                error_count := p.error_count + 1,
                panic_mode := true }

/-- `parser_expect` (state part): advance past the expected token, or
report the message. -/
def parser_expect (p : CParser) (ty : Nat) (msg : String) : CParser :=
  if parser_check p ty then parser_advance p else parser_error p msg

/-- The loop of `parser_synchronize`: `while (!at_end) { advance; if
(current && current->type == 0) return; }`.  Each iteration consumes one
token, so the wrapper's fuel `remaining + 1` is exact. -/
def parser_synchronize_go : Nat → CParser → CParser
  | 0, p => p
  | fuel + 1, p =>
    if parser_at_end p then p
    else
      let p1 := parser_advance p
      if p1.position < p1.tokens.length ∧ (parser_current p1).type = 0 then p1
      else parser_synchronize_go fuel p1

/-- `parser_synchronize`: clear panic mode, then the skip loop (whose
synchronization-point logic is a TODO stub in the source: it only stops at
the EOF token). -/
def parser_synchronize (p : CParser) : CParser :=
  parser_synchronize_go (p.tokens.length - p.position + 1) { p with panic_mode := false }

/-- `symbol_table_add` (c_parser.c): insert unless already present.  The
hash table is modelled as the list of its entries. -/
def symbol_table_add (tbl : List String) (name : String) : List String :=
  if name ∈ tbl then tbl else name :: tbl

/-- `symbol_table_contains`. -/
def symbol_table_contains (tbl : List String) (name : String) : Bool :=
  tbl.contains name

/-- `c_parser_enter_scope`: only the scope depth changes (the comment in
the source defers per-scope symbol tables). -/
def c_parser_enter_scope (p : CParser) : CParser :=
  { p with scope_depth := p.scope_depth + 1 }

/-- `c_parser_exit_scope`: only the scope depth changes. -/
def c_parser_exit_scope (p : CParser) : CParser :=
  { p with scope_depth := p.scope_depth - 1 }

/-- `c_parser_add_typedef`. -/
def c_parser_add_typedef (p : CParser) (name : String) : CParser :=
  { p with typedef_names := symbol_table_add p.typedef_names name }

/-- The builtin type names `init_builtin_types` installs (c_parser.c). -/
def builtin_type_names : List String :=
  ["__gnuc_va_list", "__builtin_va_list", "__va_list_tag",
   "__int8_t", "__int16_t", "__int32_t", "__int64_t",
   "__uint8_t", "__uint16_t", "__uint32_t", "__uint64_t",
   "__intptr_t", "__uintptr_t", "__size_t", "__ptrdiff_t",
   "__wchar_t", "__int128_t", "__uint128_t", "__int128",
   "__uint128", "__intmax_t", "__uintmax_t",
   "__int8", "__int16", "__int32", "__int64",
   "__float128", "__float80", "__fp16", "__bf16",
   "__m64", "__m128", "__m128i", "__m128d",
   "__m256", "__m256i", "__m256d",
   "__m512", "__m512i", "__m512d",
   "__v2df", "__v2di", "__v4df", "__v4di",
   "__v4sf", "__v4si", "__v8sf", "__v8si",
   "__atomic_int", "__atomic_uint", "__atomic_long",
   "__atomic_ulong", "__atomic_llong", "__atomic_ullong",
   "__off_t", "__off64_t", "__mbstate_t", "__fpos_t",
   "__fpos64_t", "__u_char", "__u_short", "__u_int",
   "__u_long", "__quad_t", "__u_quad_t", "__dev_t",
   "__uid_t", "__gid_t", "__ino_t", "__ino64_t",
   "__mode_t", "__nlink_t", "__pid_t", "__fsid_t",
   "__clock_t", "__rlim_t", "__rlim64_t", "__id_t",
   "__time_t", "__useconds_t", "__suseconds_t", "__suseconds64_t",
   "__daddr_t", "__key_t", "__clockid_t", "__timer_t",
   "__blksize_t", "__blkcnt_t", "__blkcnt64_t",
   "__fsblkcnt_t", "__fsblkcnt64_t", "__fsfilcnt_t", "__fsfilcnt64_t",
   "__fsword_t", "__ssize_t", "__syscall_slong_t", "__syscall_ulong_t",
   "__loff_t", "__caddr_t", "__socklen_t", "__sig_atomic_t",
   "__sigset_t", "__fd_mask", "__fd_set",
   "__pthread_t", "__pthread_attr_t", "__pthread_mutex_t",
   "__pthread_mutexattr_t", "__pthread_cond_t", "__pthread_condattr_t",
   "__pthread_key_t", "__pthread_once_t", "__pthread_rwlock_t",
   "__pthread_rwlockattr_t", "__pthread_spinlock_t", "__pthread_barrier_t",
   "__pthread_barrierattr_t",
   "__sigval_t", "__siginfo_t", "__sigevent_t",
   "__locale_t", "__locale_data",
   "__regex_t", "__regmatch_t",
   "__DIR", "__dirstream",
   "__time64_t", "__timespec", "__timeval", "__itimerspec",
   "__timezone",
   "__FILE", "__cookie_io_functions_t",
   "__jmp_buf", "__sigjmp_buf", "__rlimit", "__rlimit64",
   "__rusage", "__timex", "__iovec", "__sockaddr",
   "__msghdr", "__cmsghdr", "__stat", "__stat64",
   "__statfs", "__statfs64", "__statvfs", "__statvfs64",
   "__dirent", "__dirent64", "__ucontext", "__mcontext_t",
   "__sigcontext", "__stack_t", "__sigaction",
   "FILE", "va_list", "off_t", "ssize_t",
   "size_t", "fpos_t", "ptrdiff_t", "wchar_t",
   "wint_t", "wctype_t", "mbstate_t",
   "int8_t", "int16_t", "int32_t", "int64_t",
   "uint8_t", "uint16_t", "uint32_t", "uint64_t",
   "intptr_t", "uintptr_t", "intmax_t", "uintmax_t",
   "pid_t", "uid_t", "gid_t", "dev_t",
   "ino_t", "mode_t", "nlink_t", "time_t",
   "clock_t", "clockid_t", "timer_t",
   "suseconds_t", "useconds_t", "blksize_t", "blkcnt_t",
   "fsblkcnt_t", "fsfilcnt_t", "id_t", "key_t",
   "pthread_t", "pthread_attr_t", "pthread_mutex_t",
   "pthread_mutexattr_t", "pthread_cond_t", "pthread_condattr_t",
   "pthread_key_t", "pthread_once_t", "pthread_rwlock_t",
   "pthread_rwlockattr_t", "pthread_spinlock_t", "pthread_barrier_t",
   "pthread_barrierattr_t", "sigset_t", "sig_atomic_t",
   "socklen_t", "sa_family_t", "in_addr_t", "in_port_t",
   "locale_t", "DIR", "regex_t", "regmatch_t",
   "regoff_t", "div_t", "ldiv_t", "lldiv_t",
   "imaxdiv_t", "jmp_buf", "sigjmp_buf", "fenv_t",
   "fexcept_t"]

/-- `is_builtin_type`: membership in the builtin-types hash table. -/
def is_builtin_type (name : String) : Bool :=
  builtin_type_names.contains name

/-- `c_is_type_name`: a registered typedef name, a `__builtin_`-prefixed
name, or a known builtin type. -/
def c_is_type_name (p : CParser) (name : String) : Bool :=
  symbol_table_contains p.typedef_names name ||
  name.startsWith "__builtin_" || is_builtin_type name

/-- The token types `c_is_type_specifier` accepts by their code alone. -/
def c_type_specifier_tokens : List Nat :=
  [TOKEN_VOID, TOKEN_CHAR, TOKEN_SHORT, TOKEN_INT, TOKEN_LONG, TOKEN_FLOAT,
   TOKEN_DOUBLE, TOKEN__FLOAT32, TOKEN__FLOAT64, TOKEN__FLOAT128,
   TOKEN_SIGNED, TOKEN_UNSIGNED, TOKEN__BOOL, TOKEN_BOOL, TOKEN_SIZE_T,
   TOKEN_SSIZE_T, TOKEN_PTRDIFF_T, TOKEN_TVALUE, TOKEN__COMPLEX,
   TOKEN__IMAGINARY, TOKEN_STRUCT, TOKEN_UNION, TOKEN_ENUM,
   TOKEN___TYPEOF__, TOKEN_TYPEOF, TOKEN__ATOMIC,
   TOKEN___UINT8_T, TOKEN___UINT16_T, TOKEN___UINT32_T, TOKEN___UINT64_T,
   TOKEN___INT8_T, TOKEN___INT16_T, TOKEN___INT32_T, TOKEN___INT64_T,
   TOKEN___INT128, TOKEN___UINT128_T, TOKEN___SIZE_T, TOKEN___SSIZE_T,
   TOKEN___PTRDIFF_T, TOKEN___INTPTR_T, TOKEN___UINTPTR_T,
   TOKEN___WCHAR_T, TOKEN___WINT_T, TOKEN___INTMAX_T, TOKEN___UINTMAX_T]

/-- `c_is_type_specifier`. -/
def c_is_type_specifier (p : CParser) : Bool :=
  let t := parser_current p
  if c_type_specifier_tokens.contains t.type then true
  else if t.type == TOKEN_IDENTIFIER then c_is_type_name p t.lexeme
  else false

/-- `c_is_type_qualifier`. -/
def c_is_type_qualifier (p : CParser) : Bool :=
  let t := parser_current p
  if [TOKEN_CONST, TOKEN_VOLATILE, TOKEN_RESTRICT, TOKEN__ATOMIC,
      TOKEN___CONST__, TOKEN___VOLATILE__, TOKEN___RESTRICT__].contains t.type
  then true
  else if t.type == TOKEN_IDENTIFIER then
    t.lexeme == "__restrict" || t.lexeme == "__const" || t.lexeme == "__volatile"
  else false

/-- `c_is_storage_class_specifier`. -/
def c_is_storage_class_specifier (p : CParser) : Bool :=
  [TOKEN_AUTO, TOKEN_REGISTER, TOKEN_STATIC, TOKEN_EXTERN, TOKEN_TYPEDEF,
   TOKEN__THREAD_LOCAL].contains (parser_current p).type

/-- `c_is_function_specifier`. -/
def c_is_function_specifier (p : CParser) : Bool :=
  [TOKEN_INLINE, TOKEN__NORETURN, TOKEN___INLINE__].contains (parser_current p).type

/-- `c_is_declaration_specifier`. -/
def c_is_declaration_specifier (p : CParser) : Bool :=
  c_is_storage_class_specifier p || c_is_type_specifier p ||
  c_is_type_qualifier p || c_is_function_specifier p


/-! ### A restricted, faithful fragment of the declaration parser

`c_parse_declaration` and its callees span the whole C grammar; the scope
claims only need the path that registers typedef names and the
compound-statement wrapper around it.  The functions below model that path
exactly, and return `none` the moment the input leaves the modelled
fragment (GNU attribute syntax, struct/union/enum and typeof specifiers,
pointer/array/function declarators, initializers, statements, and the
missing-semicolon recovery scans are outside it).  Every theorem about
them therefore speaks only of runs the fragment covers. -/

/-- True when the current token opens a GNU extension
(`c_parse_gcc_extensions` would consume it); such inputs are outside the
fragment. -/
def c_gcc_extension_ahead (p : CParser) : Bool :=
  parser_check p TOKEN___ATTRIBUTE__ || parser_check p TOKEN___ASM__ ||
  parser_check p TOKEN___EXTENSION__

/-- The one-token cases of `c_parse_type_specifier` (simple `ADVANCE` plus
a type node); reaching any other case leaves the fragment. -/
def c_parse_type_specifier_frag (p : CParser) : Option CParser :=
  let t := parser_current p
  if ([TOKEN_VOID, TOKEN_CHAR, TOKEN_SHORT, TOKEN_INT, TOKEN_LONG,
       TOKEN_FLOAT, TOKEN_DOUBLE, TOKEN__FLOAT32, TOKEN__FLOAT64,
       TOKEN__FLOAT128, TOKEN___UINT8_T, TOKEN___UINT16_T, TOKEN___UINT32_T,
       TOKEN___UINT64_T, TOKEN___INT8_T, TOKEN___INT16_T, TOKEN___INT32_T,
       TOKEN___INT64_T, TOKEN___INT128, TOKEN___UINT128_T, TOKEN___SIZE_T,
       TOKEN___SSIZE_T, TOKEN___PTRDIFF_T, TOKEN___INTPTR_T,
       TOKEN___UINTPTR_T, TOKEN___WCHAR_T, TOKEN___WINT_T, TOKEN___INTMAX_T,
       TOKEN___UINTMAX_T, TOKEN_SIGNED, TOKEN_UNSIGNED, TOKEN__BOOL,
       TOKEN_BOOL, TOKEN_SIZE_T, TOKEN_SSIZE_T, TOKEN_PTRDIFF_T,
       TOKEN_TVALUE, TOKEN__COMPLEX, TOKEN__IMAGINARY].contains t.type)
  then some (parser_advance p)
  else if t.type == TOKEN_IDENTIFIER && c_is_type_name p t.lexeme then
    some (parser_advance p)
  else none

/-- The loop of `c_parse_declaration_specifiers`: consume specifiers while
`c_is_declaration_specifier` holds, in the source's branch order.  Every
iteration advances one token, so the wrapper's fuel is exact. -/
def c_parse_specifiers_go : Nat → CParser → Option CParser
  | 0, _ => none
  | fuel + 1, p =>
    if c_is_declaration_specifier p then
      if c_is_storage_class_specifier p then
        c_parse_specifiers_go fuel (parser_advance p)
      else if c_is_type_specifier p then
        match c_parse_type_specifier_frag p with
        | some p1 => c_parse_specifiers_go fuel p1
        | none => none
      else if c_is_type_qualifier p then
        c_parse_specifiers_go fuel (parser_advance p)
      else if c_is_function_specifier p then
        c_parse_specifiers_go fuel (parser_advance p)
      else some p
    else some p

/-- `c_parse_declaration_specifiers`, over the fragment. -/
def c_parse_declaration_specifiers_frag (p : CParser) : Option CParser :=
  c_parse_specifiers_go (p.tokens.length - p.position + 1) p

/-- `c_parse_declarator` restricted to a plain identifier: no pointer, and
no array/function postfix ahead; `c_extract_declarator_name` then yields
the identifier's lexeme. -/
def c_parse_declarator_frag (p : CParser) : Option (CParser × String) :=
  if parser_check p TOKEN_STAR then none
  else if parser_check p TOKEN_IDENTIFIER then
    let name := (parser_current p).lexeme
    let p1 := parser_advance p
    if parser_check p1 TOKEN_LBRACKET || parser_check p1 TOKEN_LPAREN then none
    else some (p1, name)
  else none

/-- The comma-separated additional declarators of `c_parse_declaration`,
ending at the declaration's semicolon; typedef declarations register every
declarator's name.  Initializers, compound literals and the
missing-semicolon recovery are outside the fragment.  Each iteration
consumes at least one token. -/
def c_parse_init_declarators_go : Nat → Bool → CParser → Option CParser
  | 0, _, _ => none
  | fuel + 1, is_typedef, p =>
    let m := parser_match p TOKEN_COMMA
    if m.1 then
      match c_parse_declarator_frag m.2 with
      | none => none
      | some (p2, name) =>
        if c_gcc_extension_ahead p2 then none
        else
          let p3 := if is_typedef then c_parser_add_typedef p2 name else p2
          if parser_check p3 TOKEN_EQUAL || parser_check p3 TOKEN_LBRACE then none
          else c_parse_init_declarators_go fuel is_typedef p3
    else
      let m2 := parser_match p TOKEN_SEMICOLON
      if m2.1 then some m2.2 else none

/-- `c_parse_declaration`, over the fragment: specifiers, declarator,
typedef registration (before the function-definition check, as in the
source), further declarators, semicolon.  Function definitions and
initializers leave the fragment. -/
def c_parse_declaration_frag (p : CParser) : Option CParser :=
  if c_gcc_extension_ahead p then none
  else
    let is_typedef := parser_check p TOKEN_TYPEDEF
    match c_parse_declaration_specifiers_frag p with
    | none => none
    | some p1 =>
      if c_gcc_extension_ahead p1 then none
      else
        let m := parser_match p1 TOKEN_SEMICOLON
        if m.1 then some m.2
        else
          match c_parse_declarator_frag p1 with
          | none => none
          | some (p2, name) =>
            if c_gcc_extension_ahead p2 then none
            else
              let p3 := if is_typedef then c_parser_add_typedef p2 name else p2
              if parser_check p3 TOKEN_LBRACE then none
              else if parser_check p3 TOKEN_EQUAL then none
              else c_parse_init_declarators_go
                     (p3.tokens.length - p3.position + 1) is_typedef p3

/-- The body loop of `c_parse_compound_statement`, over the fragment: only
declarations may stand in the block (statements leave the fragment); after
each item, panic mode runs the synchronizer.  The fuel counts loop
iterations and is caller-supplied. -/
def c_parse_compound_items_go : Nat → CParser → Option CParser
  | 0, _ => none
  | fuel + 1, p =>
    if ¬ parser_check p TOKEN_RBRACE ∧ ¬ parser_at_end p then
      if c_is_declaration_specifier p then
        match c_parse_declaration_frag p with
        | none => none
        | some p1 =>
          let p2 := if p1.panic_mode then parser_synchronize p1 else p1
          c_parse_compound_items_go fuel p2
      else none
    else some p

/-- `c_parse_compound_statement`, over the fragment: expect the opening
brace, enter a scope, parse the items, expect the closing brace, exit the
scope. -/
def c_parse_compound_statement_frag (fuel : Nat) (p : CParser) : Option CParser :=
  let p1 := parser_expect p TOKEN_LBRACE "expected '\x7b'"
  let p2 := c_parser_enter_scope p1
  match c_parse_compound_items_go fuel p2 with
  | none => none
  | some p3 =>
    let p4 := parser_expect p3 TOKEN_RBRACE "expected '\x7d'"
    some (c_parser_exit_scope p4)


/-! ### Frame lemmas for the parser state -/

theorem parser_advance_typedefs (p : CParser) :
    (parser_advance p).typedef_names = p.typedef_names := by
  unfold parser_advance; split <;> rfl

theorem parser_advance_tokens (p : CParser) :
    (parser_advance p).tokens = p.tokens := by
  unfold parser_advance; split <;> rfl

theorem parser_advance_position (p : CParser) :
    p.position ≤ (parser_advance p).position := by
  unfold parser_advance; split
  · exact le_refl _
  · exact Nat.le_succ _

theorem parser_error_typedefs (p : CParser) (msg : String) :
    (parser_error p msg).typedef_names = p.typedef_names := by
  unfold parser_error; split <;> rfl

theorem parser_error_tokens (p : CParser) (msg : String) :
    (parser_error p msg).tokens = p.tokens := by
  unfold parser_error; split <;> rfl

theorem parser_error_position (p : CParser) (msg : String) :
    (parser_error p msg).position = p.position := by
  unfold parser_error; split <;> rfl

theorem parser_match_typedefs (p : CParser) (ty : Nat) :
    ((parser_match p ty).2).typedef_names = p.typedef_names := by
  unfold parser_match; split
  · exact parser_advance_typedefs p
  · rfl

theorem parser_match_tokens (p : CParser) (ty : Nat) :
    ((parser_match p ty).2).tokens = p.tokens := by
  unfold parser_match; split
  · exact parser_advance_tokens p
  · rfl

theorem parser_expect_typedefs (p : CParser) (ty : Nat) (msg : String) :
    (parser_expect p ty msg).typedef_names = p.typedef_names := by
  unfold parser_expect; split
  · exact parser_advance_typedefs p
  · exact parser_error_typedefs p msg

theorem symbol_table_add_subset (tbl : List String) (name : String) :
    tbl ⊆ symbol_table_add tbl name := by
  unfold symbol_table_add; split
  · exact fun a ha => ha
  · exact fun a ha => List.mem_cons_of_mem _ ha

/-- The synchronizer loop: panic mode, the token stream and the typedef
table are untouched, the cursor never moves backward, and the exit state is
at the end of the stream. -/
theorem parser_synchronize_go_spec :
    ∀ (fuel : Nat) (p : CParser), p.tokens.length - p.position < fuel →
      (parser_synchronize_go fuel p).panic_mode = p.panic_mode ∧
      (parser_synchronize_go fuel p).tokens = p.tokens ∧
      p.position ≤ (parser_synchronize_go fuel p).position ∧
      parser_at_end (parser_synchronize_go fuel p) = true ∧
      (parser_synchronize_go fuel p).typedef_names = p.typedef_names := by
  intro fuel
  induction fuel with
  | zero => intro p h; omega
  | succ m ih =>
    intro p h
    rw [parser_synchronize_go]
    by_cases hend : parser_at_end p = true
    · rw [if_pos hend]
      exact ⟨rfl, rfl, le_refl _, hend, rfl⟩
    · rw [if_neg hend]
      have hnot := hend
      simp only [parser_at_end, Bool.or_eq_true, decide_eq_true_eq, beq_iff_eq,
        not_or] at hnot
      have hadv : parser_advance p = { p with position := p.position + 1 } := by
        rw [parser_advance, if_neg hend]
      obtain ⟨hn1, hn2⟩ := hnot
      dsimp only
      by_cases hret : (parser_advance p).position < (parser_advance p).tokens.length ∧
          (parser_current (parser_advance p)).type = 0
      · rw [if_pos hret]
        refine ⟨by rw [hadv], by rw [hadv], by rw [hadv]; exact Nat.le_succ _, ?_, by rw [hadv]⟩
        simp [parser_at_end, hret.2, TOKEN_EOF]
      · rw [if_neg hret]
        have hm : (parser_advance p).tokens.length - (parser_advance p).position < m := by
          rw [hadv]
          show p.tokens.length - (p.position + 1) < m
          omega
        obtain ⟨i1, i2, i3, i4, i5⟩ := ih (parser_advance p) hm
        have e1 : (parser_advance p).panic_mode = p.panic_mode := by rw [hadv]
        have e2 : (parser_advance p).tokens = p.tokens := by rw [hadv]
        have e3 : (parser_advance p).position = p.position + 1 := by rw [hadv]
        have e5 : (parser_advance p).typedef_names = p.typedef_names := by rw [hadv]
        refine ⟨i1.trans e1, i2.trans e2, ?_, i4, i5.trans e5⟩
        rw [e3] at i3
        omega

/-- C5 is refuted by the token stream `* ; int x ; EOF` with the parser
panicking at position 0: a synchronizer that stops at a
statement-terminating semicolon would halt at position 2 (just past the
`;` at index 1), but the stub runs the cursor all the way to the EOF token
at index 5, consuming the entire following declaration. -/
theorem C5_counterexample_sync_overshoots :
    (parser_synchronize
      ⟨[⟨TOKEN_STAR, "*"⟩, ⟨TOKEN_SEMICOLON, ";"⟩, ⟨TOKEN_INT, "int"⟩,
        ⟨TOKEN_IDENTIFIER, "x"⟩, ⟨TOKEN_SEMICOLON, ";"⟩, ⟨TOKEN_EOF, ""⟩],
       0, true, 1, [], [], 0⟩).position = 5 ∧
    ([⟨TOKEN_STAR, "*"⟩, ⟨TOKEN_SEMICOLON, ";"⟩, ⟨TOKEN_INT, "int"⟩,
      ⟨TOKEN_IDENTIFIER, "x"⟩, ⟨TOKEN_SEMICOLON, ";"⟩,
      (⟨TOKEN_EOF, ""⟩ : PToken)].getD 1 ⟨TOKEN_EOF, ""⟩).type = TOKEN_SEMICOLON :=
  ⟨rfl, rfl⟩

/-- C5 (amended): `parser_synchronize` clears panic mode and advances the
cursor monotonically until the token stream is exhausted — it stops only
at the EOF token (or past the list), never at a semicolon, a
declaration-starter keyword or a brace boundary, because the
synchronization-point logic of the stub is an unimplemented TODO. -/
theorem C5_synchronize_runs_to_eof (p : CParser) :
    (parser_synchronize p).panic_mode = false ∧
    (parser_synchronize p).tokens = p.tokens ∧
    p.position ≤ (parser_synchronize p).position ∧
    parser_at_end (parser_synchronize p) = true := by
  obtain ⟨i1, i2, i3, i4, _⟩ := parser_synchronize_go_spec
    (p.tokens.length - p.position + 1) { p with panic_mode := false }
    (by simp only; omega)
  exact ⟨i1, i2, i3, i4⟩

/-! ### C4: typedef names survive block exit -/

theorem parser_synchronize_typedefs (p : CParser) :
    (parser_synchronize p).typedef_names = p.typedef_names :=
  (parser_synchronize_go_spec (p.tokens.length - p.position + 1)
    { p with panic_mode := false } (by simp only; omega)).2.2.2.2

theorem c_parse_type_specifier_frag_typedefs {p r : CParser}
    (h : c_parse_type_specifier_frag p = some r) :
    r.typedef_names = p.typedef_names := by
  unfold c_parse_type_specifier_frag at h
  dsimp only at h
  split at h
  · simp only [Option.some.injEq] at h
    subst h; exact parser_advance_typedefs p
  · split at h
    · simp only [Option.some.injEq] at h
      subst h; exact parser_advance_typedefs p
    · exact absurd h (by simp)

theorem c_parse_specifiers_go_typedefs :
    ∀ {fuel : Nat} {p r : CParser}, c_parse_specifiers_go fuel p = some r →
      r.typedef_names = p.typedef_names := by
  intro fuel
  induction fuel with
  | zero => intro p r h; exact absurd h (by simp [c_parse_specifiers_go])
  | succ m ih =>
    intro p r h
    rw [c_parse_specifiers_go] at h
    split at h
    · split at h
      · exact (ih h).trans (parser_advance_typedefs p)
      · split at h
        · next p1 hp1 =>
          split at h
          · next heq =>
            exact (ih h).trans (c_parse_type_specifier_frag_typedefs heq)
          · exact absurd h (by simp)
        · split at h
          · exact (ih h).trans (parser_advance_typedefs p)
          · split at h
            · exact (ih h).trans (parser_advance_typedefs p)
            · simp only [Option.some.injEq] at h; subst h; rfl
    · simp only [Option.some.injEq] at h; subst h; rfl

theorem c_parse_declarator_frag_typedefs {p : CParser} {r : CParser × String}
    (h : c_parse_declarator_frag p = some r) :
    r.1.typedef_names = p.typedef_names := by
  unfold c_parse_declarator_frag at h
  split at h
  · exact absurd h (by simp)
  · split at h
    · dsimp only at h
      split at h
      · exact absurd h (by simp)
      · simp only [Option.some.injEq] at h
        subst h; exact parser_advance_typedefs p
    · exact absurd h (by simp)

theorem c_parse_init_declarators_go_subset :
    ∀ {fuel : Nat} {is_typedef : Bool} {p r : CParser},
      c_parse_init_declarators_go fuel is_typedef p = some r →
      p.typedef_names ⊆ r.typedef_names := by
  intro fuel
  induction fuel with
  | zero => intro t p r h; exact absurd h (by simp [c_parse_init_declarators_go])
  | succ m ih =>
    intro t p r h
    rw [c_parse_init_declarators_go] at h
    split at h
    · split at h
      · exact absurd h (by simp)
      · next p2 nm heq =>
        split at h
        · exact absurd h (by simp)
        · have h1 : p2.typedef_names = p.typedef_names :=
            (c_parse_declarator_frag_typedefs heq).trans
              (parser_match_typedefs p TOKEN_COMMA)
          by_cases ht : t = true
          · rw [if_pos ht] at h
            dsimp only at h
            split at h
            · exact absurd h (by simp)
            · have h2 := ih h
              intro a ha
              refine h2 ?_
              show a ∈ (c_parser_add_typedef p2 nm).typedef_names
              simp only [c_parser_add_typedef]
              exact symbol_table_add_subset _ _ (h1 ▸ ha)
          · rw [if_neg ht] at h
            dsimp only at h
            split at h
            · exact absurd h (by simp)
            · have h2 := ih h
              intro a ha
              exact h2 (h1 ▸ ha)
    · dsimp only at h
      split at h
      · simp only [Option.some.injEq] at h
        subst h
        intro a ha
        rw [parser_match_typedefs]
        exact ha
      · exact absurd h (by simp)

theorem c_parse_declaration_frag_subset {p r : CParser}
    (h : c_parse_declaration_frag p = some r) :
    p.typedef_names ⊆ r.typedef_names := by
  unfold c_parse_declaration_frag at h
  split at h
  · exact absurd h (by simp)
  · dsimp only at h
    split at h
    · exact absurd h (by simp)
    · next p1 hp1 =>
      split at h
      · exact absurd h (by simp)
      · split at h
        · simp only [Option.some.injEq] at h
          subst h
          intro a ha
          rw [parser_match_typedefs, c_parse_specifiers_go_typedefs hp1]
          exact ha
        · split at h
          · exact absurd h (by simp)
          · next p2 nm heq =>
            split at h
            · exact absurd h (by simp)
            · have h1 : p2.typedef_names = p.typedef_names :=
                (c_parse_declarator_frag_typedefs heq).trans
                  (c_parse_specifiers_go_typedefs hp1)
              by_cases ht : parser_check p TOKEN_TYPEDEF = true
              · rw [if_pos ht] at h
                split at h
                · exact absurd h (by simp)
                · split at h
                  · exact absurd h (by simp)
                  · have h2 := c_parse_init_declarators_go_subset h
                    intro a ha
                    refine h2 ?_
                    show a ∈ (c_parser_add_typedef p2 nm).typedef_names
                    simp only [c_parser_add_typedef]
                    exact symbol_table_add_subset _ _ (h1 ▸ ha)
              · rw [if_neg ht] at h
                split at h
                · exact absurd h (by simp)
                · split at h
                  · exact absurd h (by simp)
                  · have h2 := c_parse_init_declarators_go_subset h
                    intro a ha
                    exact h2 (h1 ▸ ha)

theorem c_parse_compound_items_go_subset :
    ∀ {fuel : Nat} {p r : CParser}, c_parse_compound_items_go fuel p = some r →
      p.typedef_names ⊆ r.typedef_names := by
  intro fuel
  induction fuel with
  | zero => intro p r h; exact absurd h (by simp [c_parse_compound_items_go])
  | succ m ih =>
    intro p r h
    rw [c_parse_compound_items_go] at h
    split at h
    · split at h
      · split at h
        · exact absurd h (by simp)
        · next p1 hp1 =>
          have h1 := c_parse_declaration_frag_subset hp1
          have h2 := ih h
          intro a ha
          apply h2
          by_cases hp : p1.panic_mode = true
          · rw [if_pos hp, parser_synchronize_typedefs]
            exact h1 ha
          · rw [if_neg hp]
            exact h1 ha
      · exact absurd h (by simp)
    · simp only [Option.some.injEq] at h; subst h
      exact fun a ha => ha

/-- C4 is refuted on the block `{ typedef int T ; }`: the parse succeeds
with no diagnostics, yet after the closing brace the typedef table holds
`T` — the name registered inside the block is still visible. -/
theorem C4_counterexample_typedef_escapes_block :
    (c_parse_compound_statement_frag 3
      ⟨[⟨TOKEN_LBRACE, "\x7b"⟩, ⟨TOKEN_TYPEDEF, "typedef"⟩, ⟨TOKEN_INT, "int"⟩,
        ⟨TOKEN_IDENTIFIER, "T"⟩, ⟨TOKEN_SEMICOLON, ";"⟩, ⟨TOKEN_RBRACE, "\x7d"⟩,
        ⟨TOKEN_EOF, ""⟩],
       0, false, 0, [], [], 0⟩).map CParser.typedef_names = some ["T"] ∧
    (c_parse_compound_statement_frag 3
      ⟨[⟨TOKEN_LBRACE, "\x7b"⟩, ⟨TOKEN_TYPEDEF, "typedef"⟩, ⟨TOKEN_INT, "int"⟩,
        ⟨TOKEN_IDENTIFIER, "T"⟩, ⟨TOKEN_SEMICOLON, ";"⟩, ⟨TOKEN_RBRACE, "\x7d"⟩,
        ⟨TOKEN_EOF, ""⟩],
       0, false, 0, [], [], 0⟩).map CParser.error_count = some 0 :=
  ⟨rfl, rfl⟩

/-- C4 (amended): the scope brackets only move the scope-depth counter —
`c_parser_enter_scope` and `c_parser_exit_scope` never touch the typedef
table (per-scope symbol tables are deferred in the source) — and across
any compound statement the typedef table only grows: every name visible at
block entry is still visible after the closing brace, and names registered
inside the block (as the counterexample shows) remain visible as well,
contradicting the claimed bit-identical restoration. -/
theorem C4_typedef_table_only_grows :
    (∀ p : CParser, (c_parser_enter_scope p).typedef_names = p.typedef_names) ∧
    (∀ p : CParser, (c_parser_exit_scope p).typedef_names = p.typedef_names) ∧
    (∀ (fuel : Nat) (p r : CParser), c_parse_compound_statement_frag fuel p = some r →
      p.typedef_names ⊆ r.typedef_names) := by
  refine ⟨fun p => rfl, fun p => rfl, fun fuel p r h => ?_⟩
  unfold c_parse_compound_statement_frag at h
  dsimp only at h
  split at h
  · exact absurd h (by simp)
  · next p3 hp3 =>
    simp only [Option.some.injEq] at h
    subst h
    intro a ha
    show a ∈ (c_parser_exit_scope _).typedef_names
    simp only [c_parser_exit_scope]
    rw [parser_expect_typedefs]
    refine c_parse_compound_items_go_subset hp3 ?_
    show a ∈ (c_parser_enter_scope _).typedef_names
    simp only [c_parser_enter_scope]
    rw [parser_expect_typedefs]
    exact ha

/-- Witness for the compound-statement part of C4 at the concrete block
`{ typedef int T ; }` started with `["U"]` registered: `U` is still in the
table after the block. -/
theorem C4_typedef_table_only_grows_witness :
    (c_parse_compound_statement_frag 3
      ⟨[⟨TOKEN_LBRACE, "\x7b"⟩, ⟨TOKEN_TYPEDEF, "typedef"⟩, ⟨TOKEN_INT, "int"⟩,
        ⟨TOKEN_IDENTIFIER, "T"⟩, ⟨TOKEN_SEMICOLON, ";"⟩, ⟨TOKEN_RBRACE, "\x7d"⟩,
        ⟨TOKEN_EOF, ""⟩],
       0, false, 0, [], ["U"], 0⟩).map
      (fun r => decide ("U" ∈ r.typedef_names)) = some true := by
  obtain ⟨r, hr⟩ : ∃ r, c_parse_compound_statement_frag 3
      ⟨[⟨TOKEN_LBRACE, "\x7b"⟩, ⟨TOKEN_TYPEDEF, "typedef"⟩, ⟨TOKEN_INT, "int"⟩,
        ⟨TOKEN_IDENTIFIER, "T"⟩, ⟨TOKEN_SEMICOLON, ";"⟩, ⟨TOKEN_RBRACE, "\x7d"⟩,
        ⟨TOKEN_EOF, ""⟩],
       0, false, 0, [], ["U"], 0⟩ = some r := ⟨_, rfl⟩
  have hm : "U" ∈ r.typedef_names :=
    C4_typedef_table_only_grows.2.2 3
      ⟨[⟨TOKEN_LBRACE, "\x7b"⟩, ⟨TOKEN_TYPEDEF, "typedef"⟩, ⟨TOKEN_INT, "int"⟩,
        ⟨TOKEN_IDENTIFIER, "T"⟩, ⟨TOKEN_SEMICOLON, ";"⟩, ⟨TOKEN_RBRACE, "\x7d"⟩,
        ⟨TOKEN_EOF, ""⟩],
       0, false, 0, [], ["U"], 0⟩ r hr (by simp)
  rw [hr]
  simp [hm]


/-! ### The translation-unit driver loop, and the specifier loop it calls into

`c_parse_external_declaration` ranges over the whole grammar; the driver
loop of `c_parse_translation_unit` is modelled against an arbitrary
external-declaration step `ext` (returning the new parser state and
whether a node was produced, i.e. the C result was non-NULL) that
never moves the cursor backward and never modifies the token stream.
The loop's own safety nets — the forced advance after a no-progress
iteration and the aggressive skip after more than ten consecutive failed
items — make it terminate and return a translation-unit node for every
such step function that *returns* (`tu_parse_total_of_monotone_step`
below).  That hypothesis is where the claim fails: the concrete
`c_parse_external_declaration` is not total.  Dispatching into
`c_parse_declaration` on a declaration-specifier token, it reaches the
specifier loop of `c_parse_declaration_specifiers`, which can spin
forever without returning control to the driver and its safety nets;
the `_Atomic` model at the end of this section exhibits the hang. -/

/-- The AST shape the driver returns: a translation-unit node holding one
child per non-NULL external declaration (`ast_add_child`). -/
inductive CAst where
  | translationUnit (decls : List Unit)
deriving Repr

/-- Whether a node is a translation unit (`node->type ==
AST_TRANSLATION_UNIT`). -/
def CAst.isUnit : CAst → Bool
  | .translationUnit _ => true

/-- The token types of the aggressive skip's stop set in
`c_parse_translation_unit` ("skip to next likely declaration start"). -/
def tu_skip_starters : List Nat :=
  [TOKEN_TYPEDEF, TOKEN_STRUCT, TOKEN_UNION, TOKEN_ENUM, TOKEN_STATIC,
   TOKEN_EXTERN, TOKEN_INLINE, TOKEN___UINT16_T, TOKEN___UINT32_T,
   TOKEN___UINT64_T, TOKEN_INT, TOKEN_CHAR, TOKEN_VOID, TOKEN_BOOL]

/-- The aggressive skip loop: advance while not at the end and the current
token starts no declaration.  Each iteration consumes one token, so the
wrapper's fuel is exact. -/
def tu_skip_go : Nat → CParser → CParser
  | 0, p => p
  | fuel + 1, p =>
    if ¬ parser_at_end p ∧ ¬ tu_skip_starters.contains (parser_current p).type then
      tu_skip_go fuel (parser_advance p)
    else p

/-- The aggressive skip of `c_parse_translation_unit`. -/
def tu_skip (p : CParser) : CParser :=
  tu_skip_go (p.tokens.length - p.position + 1) p

/-- The driver loop of `c_parse_translation_unit`: remember the cursor,
run one external declaration, collect its node, synchronize on panic,
force an advance when the iteration made no progress (`before == after`
compares token pointers, i.e. cursor positions), and count consecutive
NULL results, skipping aggressively past ten (the counter is a C
`static int`, modelled as the loop-carried `consec` argument, `0` at
program start).  The fuel counts loop iterations; `none` means it ran
out. -/
def c_parse_translation_unit_loop (ext : CParser → CParser × Bool) :
    Nat → Nat → List Unit → CParser → Option (CParser × CAst)
  | 0, _, _, _ => none
  | fuel + 1, consec, acc, p =>
    if parser_at_end p then some (p, CAst.translationUnit acc)
    else
      let before := p.position
      let r := ext p
      let acc1 := if r.2 then acc ++ [()] else acc
      let p2 := if r.1.panic_mode then parser_synchronize r.1 else r.1
      let p3 := if before = r.1.position ∧ ¬ parser_at_end p2 then
                  parser_advance (parser_error p2 "parser stuck - forcing advance")
                else p2
      if r.2 then
        c_parse_translation_unit_loop ext fuel 0 acc1 p3
      else if consec + 1 > 10 then
        c_parse_translation_unit_loop ext fuel 0 acc1 (tu_skip p3)
      else
        c_parse_translation_unit_loop ext fuel (consec + 1) acc1 p3

/-- `c_parser_parse` / `c_parse_translation_unit`: run the driver loop from
a fresh unit node and a zero consecutive-error counter. -/
def c_parser_parse (ext : CParser → CParser × Bool) (fuel : Nat) (p : CParser) :
    Option (CParser × CAst) :=
  c_parse_translation_unit_loop ext fuel 0 [] p

theorem tu_skip_go_spec :
    ∀ (fuel : Nat) (p : CParser),
      (tu_skip_go fuel p).tokens = p.tokens ∧
      p.position ≤ (tu_skip_go fuel p).position ∧
      (parser_at_end p = true → tu_skip_go fuel p = p) := by
  intro fuel
  induction fuel with
  | zero => intro p; exact ⟨rfl, le_refl _, fun _ => rfl⟩
  | succ m ih =>
    intro p
    rw [tu_skip_go]
    by_cases hc : ¬ parser_at_end p = true ∧
        ¬ tu_skip_starters.contains (parser_current p).type = true
    · rw [if_pos hc]
      obtain ⟨i1, i2, _⟩ := ih (parser_advance p)
      exact ⟨i1.trans (parser_advance_tokens p),
        le_trans (parser_advance_position p) i2,
        fun hend => absurd hend hc.1⟩
    · rw [if_neg hc]
      exact ⟨rfl, le_refl _, fun _ => rfl⟩

theorem parser_synchronize_tokens (p : CParser) :
    (parser_synchronize p).tokens = p.tokens :=
  (parser_synchronize_go_spec (p.tokens.length - p.position + 1)
    { p with panic_mode := false } (by simp only; omega)).2.1

theorem parser_synchronize_position (p : CParser) :
    p.position ≤ (parser_synchronize p).position :=
  (parser_synchronize_go_spec (p.tokens.length - p.position + 1)
    { p with panic_mode := false } (by simp only; omega)).2.2.1

/-- One driver iteration's end state: the token stream is unchanged, and
the cursor moved strictly forward unless the end of the stream was
reached. -/
theorem tu_loop_total (ext : CParser → CParser × Bool)
    (hext : ∀ q : CParser, q.position ≤ (ext q).1.position ∧ (ext q).1.tokens = q.tokens) :
    ∀ (fuel : Nat) (consec : Nat) (acc : List Unit) (p : CParser),
      p.tokens.length - p.position + 2 ≤ fuel →
      ∃ q decls, c_parse_translation_unit_loop ext fuel consec acc p =
        some (q, CAst.translationUnit decls) := by
  intro fuel
  induction fuel with
  | zero => intro consec acc p h; omega
  | succ m ih =>
    intro consec acc p h
    rw [c_parse_translation_unit_loop]
    by_cases hend : parser_at_end p = true
    · rw [if_pos hend]
      exact ⟨p, acc, rfl⟩
    · rw [if_neg hend]
      dsimp only
      have hnot := hend
      simp only [parser_at_end, Bool.or_eq_true, decide_eq_true_eq, beq_iff_eq,
        not_or] at hnot
      obtain ⟨hn1, hn2⟩ := hnot
      obtain ⟨he1, he2⟩ := hext p
      set p1 := (ext p).1 with hp1
      set p2 := if p1.panic_mode then parser_synchronize p1 else p1 with hp2
      set p3 := if p.position = p1.position ∧ ¬ parser_at_end p2 = true then
                  parser_advance (parser_error p2 "parser stuck - forcing advance")
                else p2 with hp3
      have h2tok : p2.tokens = p.tokens := by
        rw [hp2]; split
        · rw [parser_synchronize_tokens]; exact he2
        · exact he2
      have h2pos : p.position ≤ p2.position := by
        rw [hp2]; split
        · exact le_trans he1 (parser_synchronize_position p1)
        · exact he1
      have h12 : p1.position ≤ p2.position := by
        rw [hp2]; split
        · exact parser_synchronize_position p1
        · exact le_refl _
      have h3 : (p3.tokens = p.tokens ∧ p.position < p3.position) ∨
          (p3 = p2 ∧ parser_at_end p2 = true) ∨
          (p3 = p2 ∧ p.position < p2.position) := by
        rw [hp3]
        split
        · next hcond =>
          refine Or.inl ⟨?_, ?_⟩
          · rw [parser_advance_tokens, parser_error_tokens]
            exact h2tok
          · have ha : parser_advance (parser_error p2 "parser stuck - forcing advance") =
                { parser_error p2 "parser stuck - forcing advance" with
                  position := (parser_error p2 "parser stuck - forcing advance").position + 1 } := by
              rw [parser_advance, if_neg]
              intro hh
              refine hcond.2 ?_
              simp only [parser_at_end, Bool.or_eq_true, decide_eq_true_eq,
                beq_iff_eq] at hh ⊢
              rcases hh with hh | hh
              · exact Or.inl (by rw [parser_error_tokens, parser_error_position] at hh; exact hh)
              · refine Or.inr ?_
                simp only [parser_current] at hh ⊢
                rw [parser_error_tokens, parser_error_position] at hh
                exact hh
            rw [ha]
            simp only
            rw [parser_error_position]
            omega
        · next hcond =>
          rw [not_and_or] at hcond
          rcases hcond with hcond | hcond
          · refine Or.inr (Or.inr ⟨rfl, ?_⟩)
            omega
          · simp only [Bool.not_eq_true, Bool.not_eq_false] at hcond
            exact Or.inr (Or.inl ⟨rfl, hcond⟩)
      have hstep : ∀ (c : Nat) (a : List Unit) (q : CParser),
          (q.tokens = p.tokens ∧ p.position < q.position) ∨ parser_at_end q = true →
          ∃ s decls, c_parse_translation_unit_loop ext m c a q =
            some (s, CAst.translationUnit decls) := by
        intro c a q hq
        rcases hq with ⟨hq1, hq2⟩ | hq
        · refine ih c a q ?_
          rw [hq1]
          omega
        · match m, h with
          | m + 1, _ =>
            rw [c_parse_translation_unit_loop, if_pos hq]
            exact ⟨q, a, rfl⟩
      have h3' : (p3.tokens = p.tokens ∧ p.position < p3.position) ∨
          parser_at_end p3 = true := by
        rcases h3 with ⟨ha, hb⟩ | ⟨ha, hb⟩ | ⟨ha, hb⟩
        · exact Or.inl ⟨ha, hb⟩
        · exact Or.inr (ha ▸ hb)
        · exact Or.inl ⟨ha ▸ h2tok, ha ▸ hb⟩
      split
      · exact hstep 0 _ p3 h3'
      · split
        · -- the aggressive skip runs: it keeps the tokens, never moves the
          -- cursor back, and is the identity on end states
          obtain ⟨s1, s2, s3⟩ := tu_skip_go_spec (p3.tokens.length - p3.position + 1) p3
          rcases h3' with ⟨ha, hb⟩ | hq
          · exact hstep 0 _ (tu_skip p3) (Or.inl ⟨by rw [tu_skip, s1, ha], by
              have := s2
              rw [tu_skip]
              omega⟩)
          · exact hstep 0 _ (tu_skip p3) (by rw [tu_skip, s3 hq]; exact Or.inr hq)
        · exact hstep (consec + 1) _ p3 h3'

/-- The driver loop in isolation: for every external-declaration step that
returns, never moves the cursor backward, and never edits the token
stream, `c_parser_parse` run with fuel two more than the number of
unconsumed tokens terminates and returns a (non-NULL)
`AST_TRANSLATION_UNIT` node.  The loop's safety nets are thus sound —
the claim's failure (`C9_atomic_specifier_loop_diverges`) lies below
them, inside one external declaration. -/
theorem tu_parse_total_of_monotone_step (ext : CParser → CParser × Bool)
    (hext : ∀ q : CParser, q.position ≤ (ext q).1.position ∧ (ext q).1.tokens = q.tokens)
    (fuel : Nat) (p : CParser) (hfuel : p.tokens.length - p.position + 2 ≤ fuel) :
    ((c_parser_parse ext fuel p).map fun r => (r.2).isUnit) = some true := by
  obtain ⟨q, decls, hq⟩ := tu_loop_total ext hext fuel 0 [] p hfuel
  rw [c_parser_parse, hq]
  rfl

/-- A trivial external-declaration step: consume one token and report a
node. -/
def ext_step_advance (p : CParser) : CParser × Bool := (parser_advance p, true)

theorem ext_step_advance_ok (q : CParser) :
    q.position ≤ (ext_step_advance q).1.position ∧
    (ext_step_advance q).1.tokens = q.tokens :=
  ⟨parser_advance_position q, parser_advance_tokens q⟩

/-- The driver-loop lemma at a concrete input: on the token stream
`int x ; EOF` the driver, stepped by the one-token consumer, returns a
translation-unit node. -/
theorem tu_parse_total_example :
    ((c_parser_parse ext_step_advance 6
        ⟨[⟨TOKEN_INT, "int"⟩, ⟨TOKEN_IDENTIFIER, "x"⟩, ⟨TOKEN_SEMICOLON, ";"⟩,
          ⟨TOKEN_EOF, ""⟩], 0, false, 0, [], [], 0⟩).map fun r => (r.2).isUnit) =
      some true :=
  tu_parse_total_of_monotone_step ext_step_advance ext_step_advance_ok 6
    ⟨[⟨TOKEN_INT, "int"⟩, ⟨TOKEN_IDENTIFIER, "x"⟩, ⟨TOKEN_SEMICOLON, ";"⟩,
      ⟨TOKEN_EOF, ""⟩], 0, false, 0, [], [], 0⟩ (by decide)

/-! #### The `_Atomic` hang inside `c_parse_declaration_specifiers`

Every call site creates the parser with `C_STD_C99`
(`c_parser_create(tokens, C_STD_C99)` in `main.c`).  `c_is_type_specifier`
accepts `TOKEN__ATOMIC`, but `c_parse_type_specifier`'s `TOKEN__ATOMIC`
case is gated on `parser->standard >= C_STD_C11` and otherwise falls
through to `return NULL` **without an `ADVANCE`**; the specifier loop of
`c_parse_declaration_specifiers` uses the returned node only to decide
`ast_add_child` and re-tests the same token, with no progress guard.  The
definitions below model that path with the standard explicit. -/

/-- `CStandard` (`syntax.h`), by enum value. -/
def C_STD_C89 : Nat := 0

def C_STD_C90 : Nat := 1

def C_STD_C99 : Nat := 2

def C_STD_C11 : Nat := 3

/-- `c_parse_type_specifier` as it moves the cursor, with the parser's
standard explicit.  `some (some p1)`: a type node was returned after an
`ADVANCE` (the one-token cases and a registered typedef name).
`some none`: the function returned `NULL` with the cursor untouched — a
non-type-name identifier, `_Atomic` below C11, or any other token falling
to `default`.  `none`: the token enters a sub-parser outside this model
(struct/union/enum, typeof, `_Atomic` at C11 and above). -/
def c_parse_type_specifier_std (std : Nat) (p : CParser) :
    Option (Option CParser) :=
  let t := parser_current p
  if ([TOKEN_VOID, TOKEN_CHAR, TOKEN_SHORT, TOKEN_INT, TOKEN_LONG,
       TOKEN_FLOAT, TOKEN_DOUBLE, TOKEN__FLOAT32, TOKEN__FLOAT64,
       TOKEN__FLOAT128, TOKEN___UINT8_T, TOKEN___UINT16_T, TOKEN___UINT32_T,
       TOKEN___UINT64_T, TOKEN___INT8_T, TOKEN___INT16_T, TOKEN___INT32_T,
       TOKEN___INT64_T, TOKEN___INT128, TOKEN___UINT128_T, TOKEN___SIZE_T,
       TOKEN___SSIZE_T, TOKEN___PTRDIFF_T, TOKEN___INTPTR_T,
       TOKEN___UINTPTR_T, TOKEN___WCHAR_T, TOKEN___WINT_T, TOKEN___INTMAX_T,
       TOKEN___UINTMAX_T, TOKEN_SIGNED, TOKEN_UNSIGNED, TOKEN__BOOL,
       TOKEN_BOOL, TOKEN_SIZE_T, TOKEN_SSIZE_T, TOKEN_PTRDIFF_T,
       TOKEN_TVALUE, TOKEN__COMPLEX, TOKEN__IMAGINARY].contains t.type)
  then some (some (parser_advance p))
  else if [TOKEN_STRUCT, TOKEN_UNION, TOKEN_ENUM, TOKEN___TYPEOF__,
           TOKEN_TYPEOF].contains t.type then none
  else if t.type == TOKEN_IDENTIFIER then
    if c_is_type_name p t.lexeme then some (some (parser_advance p))
    else some none
  else if t.type == TOKEN__ATOMIC then
    if C_STD_C11 ≤ std then none else some none
  else some none

/-- The specifier loop of `c_parse_declaration_specifiers`, with the
standard explicit and a `NULL` type specifier handled as the source does:
`if (type)` guards only the `ast_add_child`, and the loop re-tests the
same token.  Fuel counts loop iterations; when no branch ever leaves the
model, `none` at every fuel is the C loop running forever. -/
def c_parse_specifiers_std_go (std : Nat) : Nat → CParser → Option CParser
  | 0, _ => none
  | fuel + 1, p =>
    if c_is_declaration_specifier p then
      if c_is_storage_class_specifier p then
        c_parse_specifiers_std_go std fuel (parser_advance p)
      else if c_is_type_specifier p then
        match c_parse_type_specifier_std std p with
        | none => none
        | some none => c_parse_specifiers_std_go std fuel p
        | some (some p1) => c_parse_specifiers_std_go std fuel p1
      else if c_is_type_qualifier p then
        c_parse_specifiers_std_go std fuel (parser_advance p)
      else if c_is_function_specifier p then
        c_parse_specifiers_std_go std fuel (parser_advance p)
      else some p
    else some p

/-- A fresh parser on the token stream `_Atomic EOF`. -/
def atomic_c99_state : CParser :=
  ⟨[⟨TOKEN__ATOMIC, "_Atomic"⟩, ⟨TOKEN_EOF, ""⟩], 0, false, 0, [], [], 0⟩

/-- C9: the claim's universal termination is false of the program.  On a
token stream beginning with `_Atomic`, under the `C_STD_C99` standard
every call site uses, (1) `c_is_declaration_specifier` holds, so
`c_parse_external_declaration` dispatches into `c_parse_declaration` and
its specifier loop rather than any recovery path; (2) one iteration of
that loop returns the state to itself — `_Atomic` is a type specifier,
`c_parse_type_specifier` yields `NULL` without advancing, and the loop
only re-tests; and (3) consequently the loop produces no result at any
fuel: the C loop never terminates, `c_parser_parse` never returns, and
the driver's no-progress safety check one frame up is never reached. -/
theorem C9_atomic_specifier_loop_diverges :
    c_is_declaration_specifier atomic_c99_state = true ∧
    (∀ fuel : Nat,
      c_parse_specifiers_std_go C_STD_C99 (fuel + 1) atomic_c99_state =
        c_parse_specifiers_std_go C_STD_C99 fuel atomic_c99_state) ∧
    (∀ fuel : Nat,
      c_parse_specifiers_std_go C_STD_C99 fuel atomic_c99_state = none) := by
  refine ⟨by decide, fun fuel => rfl, ?_⟩
  intro fuel
  induction fuel with
  | zero => rfl
  | succ m ih => exact (rfl : c_parse_specifiers_std_go C_STD_C99 (m + 1)
      atomic_c99_state = c_parse_specifiers_std_go C_STD_C99 m
      atomic_c99_state).trans ih


/-! ## The LLVM backend (src/codegen/llvm_backend_impl.c)

### C8: operand coercion for binary expressions

`coerce_binary_operands` dispatches on the LLVM type kinds of the two
lowered operand values: the model keeps exactly what the dispatch reads
(the kind, the integer width, the pointer identity — LLVM pointer types
are distinguished by their pointee, kept here as a tag). The result
records, per operand, which conversion instruction was built. -/

/-- An LLVM first-class type as the coercion code observes it. -/
inductive LLVMTy where
  | void
  | int (bits : Nat)
  | flt (bits : Nat)
  | ptr (pointee : Nat)
  | other (tag : Nat)
deriving DecidableEq, Repr

def LLVMTy.isIntKind : LLVMTy → Bool
  | .int _ => true
  | _ => false

def LLVMTy.isPtrKind : LLVMTy → Bool
  | .ptr _ => true
  | _ => false

def LLVMTy.intWidth : LLVMTy → Nat
  | .int w => w
  | _ => 0

/-- What happened to one operand: left as is, widened by `LLVMBuildZExt`, or
converted by `LLVMBuildIntToPtr` to the given type. -/
inductive Coerced where
  | unchanged
  | zext (target : LLVMTy)
  | inttoptr (target : LLVMTy)
deriving DecidableEq, Repr

/-- `coerce_binary_operands`, with the C function's exact decision
structure: equal types first, then integer/integer by width, then the two
pointer/integer cases, else nothing. -/
def coerce_binary_operands (lt rt : LLVMTy) : Coerced × Coerced :=
  if lt = rt then (.unchanged, .unchanged)
  else if lt.isIntKind && rt.isIntKind then
    if lt.intWidth < rt.intWidth then (.zext rt, .unchanged)
    else if rt.intWidth < lt.intWidth then (.unchanged, .zext lt)
    else (.unchanged, .unchanged)
  else if lt.isPtrKind && rt.isIntKind then (.unchanged, .inttoptr lt)
  else if lt.isIntKind && rt.isPtrKind then (.inttoptr rt, .unchanged)
  else (.unchanged, .unchanged)

/-- The specification's wording of the same policy, written independently
of the code's control flow: both integers → zero-extend the narrower to
the wider; pointer against integer → convert the integer to the pointer
type; anything else → both unchanged. -/
def coerce_binary_operands_spec : LLVMTy → LLVMTy → Coerced × Coerced
  | .int lw, .int rw =>
    if lw < rw then (.zext (.int rw), .unchanged)
    else if rw < lw then (.unchanged, .zext (.int lw))
    else (.unchanged, .unchanged)
  | .ptr p, .int _ => (.unchanged, .inttoptr (.ptr p))
  | .int _, .ptr p => (.inttoptr (.ptr p), .unchanged)
  | _, _ => (.unchanged, .unchanged)

/-- C8: the implemented coercion agrees with the specified policy on every
pair of operand types.  (In particular the `lt = rt` early return and the
kind dispatch of the code change nothing against the spec's reading.) -/
theorem C8_coerce_binary_operands_correct (lt rt : LLVMTy) :
    coerce_binary_operands lt rt = coerce_binary_operands_spec lt rt := by
  cases lt <;> cases rt <;>
    simp only [coerce_binary_operands, coerce_binary_operands_spec,
      LLVMTy.isIntKind, LLVMTy.isPtrKind, LLVMTy.intWidth, Bool.and_self,
      Bool.and_true, Bool.true_and, Bool.and_false, Bool.false_and] <;>
    first
      | rfl
      | (split <;> simp_all <;> omega)
      | (split <;> simp_all)

/-! ### C3: the backend symbol table across functions

`symbol_table_add` prepends unconditionally (no deduplication in the
backend), `symbol_table_lookup` returns the first match, and
`symbol_table_clear` empties the table — but `symbol_table_clear` is
called in exactly one place, `llvm_backend_destroy`, i.e. only when the
whole backend is torn down, never between functions.  A local's entry
keeps the function that owns its alloca (`LLVMGetBasicBlockParent` of the
instruction), which is what the `AST_IDENTIFIER` validation compares with
`ctx->current_function`. -/

/-- One symbol-table entry: the name, the global flag, and — for a local,
whose value is an alloca instruction — the function owning it. -/
structure SymEntry where
  name : String
  is_global : Bool
  owner : Nat
deriving DecidableEq, Repr

/-- `symbol_table_add`: prepend, without checking for duplicates. -/
def codegen_symbol_table_add (tbl : List SymEntry) (name : String)
    (is_global : Bool) (owner : Nat) : List SymEntry :=
  ⟨name, is_global, owner⟩ :: tbl

/-- `symbol_table_lookup`: first entry with the name. -/
def codegen_symbol_table_lookup (tbl : List SymEntry) (name : String) :
    Option SymEntry :=
  tbl.find? (fun e => e.name == name)

/-- `symbol_table_clear`: empties the table (called only from
`llvm_backend_destroy`). -/
def codegen_symbol_table_clear (_tbl : List SymEntry) : List SymEntry := []

/-- The `AST_IDENTIFIER` lowering path, restricted to what it does with the
symbol table: a local owned by a different function is rejected with the
scope error; a found entry's value is loaded; on a symbol-table miss the
name is tried against the module's functions (`LLVMGetNamedFunction`,
`module_fns` holding their names) before the undefined-identifier error.
The result is the error message set by `set_error` (if any) and whether a
value was produced (the C result being non-NULL). -/
def llvm_codegen_identifier (tbl : List SymEntry) (module_fns : List String)
    (current_function : Nat) (name : String) : Option String × Bool :=
  match codegen_symbol_table_lookup tbl name with
  | some entry =>
    if ¬ entry.is_global ∧ entry.owner ≠ current_function then
      (some ("Variable '" ++ name ++ "' from another function scope"), false)
    else (none, true)
  | none =>
    if module_fns.contains name then (none, true)
    else (some ("Undefined identifier: " ++ name), false)

/-- Lowering one function's local declarations, as far as the symbol table
is concerned: each local-variable declaration adds its alloca under the
current function (`llvm_codegen_stmt`, AST_VAR_DECL case). -/
def lower_function_locals (tbl : List SymEntry) (fid : Nat)
    (locals : List String) : List SymEntry :=
  locals.foldl (fun t n => codegen_symbol_table_add t n false fid) tbl

/-- Lowering a translation unit's functions in order: no call to
`symbol_table_clear` stands anywhere in this path (its only caller is
`llvm_backend_destroy`), so the table is carried from one function to the
next. -/
def lower_module_symbols (fns : List (Nat × List String))
    (tbl : List SymEntry) : List SymEntry :=
  fns.foldl (fun t f => lower_function_locals t f.1 f.2) tbl

theorem lower_function_locals_mem (tbl : List SymEntry) (fid : Nat)
    (locals : List String) :
    ∀ x ∈ tbl, x ∈ lower_function_locals tbl fid locals := by
  induction locals generalizing tbl with
  | nil => intro x hx; exact hx
  | cons n rest ih =>
    intro x hx
    exact ih (codegen_symbol_table_add tbl n false fid) x
      (List.mem_cons_of_mem _ hx)

/-- C3 is refuted on the two-function module `f() { int x; ... }  g() {
... x ... }`: while lowering `g` (current function 1), the table still
holds the entry for `f`'s local `x` (owner 0) — it was not cleared between
functions — and looking `x` up during `g` finds that stale entry, which
the validation rejects with the scope error. -/
theorem C3_counterexample_stale_local :
    codegen_symbol_table_lookup (lower_function_locals [] 0 ["x"]) "x" =
      some ⟨"x", false, 0⟩ ∧
    llvm_codegen_identifier (lower_function_locals [] 0 ["x"]) ["f", "g"] 1 "x" =
      (some "Variable 'x' from another function scope", false) :=
  ⟨rfl, rfl⟩

/-- C3 (amended): the symbol table is **not** cleared between functions —
during module lowering entries are only ever added, so every entry
(including another function's locals) persists into later functions; what
prevents cross-function use is the lookup-site validation, which rejects a
non-global entry owned by a different function with the "from another
function scope" error and produces no value. -/
theorem C3_symbol_table_persists :
    (∀ (fns : List (Nat × List String)) (tbl : List SymEntry),
      ∀ x ∈ tbl, x ∈ lower_module_symbols fns tbl) ∧
    (∀ (tbl : List SymEntry) (module_fns : List String) (fid : Nat)
        (name : String) (entry : SymEntry),
      codegen_symbol_table_lookup tbl name = some entry →
      entry.is_global = false → entry.owner ≠ fid →
      llvm_codegen_identifier tbl module_fns fid name =
        (some ("Variable '" ++ name ++ "' from another function scope"), false)) := by
  constructor
  · intro fns
    induction fns with
    | nil => intro tbl x hx; exact hx
    | cons f rest ih =>
      intro tbl x hx
      exact ih (lower_function_locals tbl f.1 f.2) x
        (lower_function_locals_mem tbl f.1 f.2 x hx)
  · intro tbl module_fns fid name entry hf hg ho
    have hstep : llvm_codegen_identifier tbl module_fns fid name =
        (if ¬ entry.is_global ∧ entry.owner ≠ fid then
          (some ("Variable '" ++ name ++ "' from another function scope"), false)
        else (none, true)) := by
      unfold llvm_codegen_identifier
      rw [hf]
    rw [hstep, if_pos ⟨by simp [hg], ho⟩]

/-- Witness for C3 at a concrete table: the stale entry for `y` (owner 3)
is rejected while lowering function 7. -/
theorem C3_symbol_table_persists_witness :
    llvm_codegen_identifier [⟨"y", false, 3⟩] ["f"] 7 "y" =
      (some "Variable 'y' from another function scope", false) :=
  C3_symbol_table_persists.2 [⟨"y", false, 3⟩] ["f"] 7 "y" ⟨"y", false, 3⟩ rfl rfl
    (by decide)


/-! ### The statement-lowering model for C1 and C2

One function is lowered at a time; its basic blocks are a list indexed by
creation order (`LLVMAppendBasicBlockInContext` appends, and the
finalizer's `LLVMGetFirstBasicBlock`/`LLVMGetNextBasicBlock` walk is that
same order).  The builder is an optional insert-block index;
`LLVMBuild*` appends at the insert block.  `ctx->recursion_depth` and its
`> 500` guard are modelled by the fuel: each nested `llvm_codegen_stmt`
call runs with one unit less, and exhausted fuel returns the state
unchanged exactly as the guard does.  Expressions are restricted to a
fragment (integer literals and binary operations on them) whose lowering
appends only non-terminator instructions at the insert block and always
produces a value; the `current_function` checks are dropped since a
function is always current here. -/

/-- An instruction, kept only as far as C1/C2 observe it: the branch
targets of the terminators, and a single stand-in for every
non-terminator (`alloca`, `store`, arithmetic, `icmp`, ...). -/
inductive Instr where
  | br (target : Nat)
  | condBr (ifTrue ifFalse : Nat)
  | ret
  | retVoid
  | unreachable
  | nonterm
deriving DecidableEq, Repr

/-- `LLVMIsATerminatorInst`. -/
def Instr.isTerminator : Instr → Bool
  | .nonterm => false
  | _ => true

/-- A basic block: its instruction list. -/
structure BB where
  instrs : List Instr
deriving DecidableEq, Repr

/-- `LLVMGetBasicBlockTerminator` (non-null exactly when the block's last
instruction is a terminator). -/
def BB.hasTerm (bb : BB) : Bool :=
  match bb.instrs.getLast? with
  | some i => i.isTerminator
  | none => false

/-- The lowering state: the current function's blocks, the builder's
insert block, the loop context, and `last_error`. -/
structure Emitter where
  blocks : List BB
  insert : Option Nat
  loop_continue_block : Option Nat
  loop_break_block : Option Nat
  last_error : Option String
deriving Repr

/-- `LLVMAppendBasicBlockInContext`: a fresh empty block at the end;
returns its index. -/
def appendBB (e : Emitter) : Emitter × Nat :=
  ({ e with blocks := e.blocks ++ [⟨[]⟩] }, e.blocks.length)

/-- `LLVMPositionBuilderAtEnd`. -/
def positionAtEnd (e : Emitter) (b : Nat) : Emitter :=
  { e with insert := some b }

/-- `LLVMGetBasicBlockTerminator` through the state. -/
def blockHasTerm (e : Emitter) (b : Nat) : Bool :=
  (e.blocks.getD b ⟨[]⟩).hasTerm

/-- `LLVMBuild*`: append the instruction at the insert block (no insert
block: nothing happens, as when the C code skips for a missing
`current_bb`). -/
def buildInstr (e : Emitter) (i : Instr) : Emitter :=
  match e.insert with
  | none => e
  | some b =>
    { e with blocks := e.blocks.set b ⟨(e.blocks.getD b ⟨[]⟩).instrs ++ [i]⟩ }

/-- `set_error`. -/
def codegen_set_error (e : Emitter) (msg : String) : Emitter :=
  { e with last_error := some msg }

/-- The expression fragment: an integer literal lowers to a constant (no
instruction), a binary operation lowers both sides and then appends one
arithmetic instruction (`codegen_binary_expr`). -/
inductive CExpr where
  | lit (n : Int)
  | binary (a b : CExpr)
deriving Repr

/-- `llvm_codegen_expr` on the fragment. -/
def llvm_codegen_expr : CExpr → Emitter → Emitter
  | .lit _, e => e
  | .binary a b, e => buildInstr (llvm_codegen_expr b (llvm_codegen_expr a e)) .nonterm

/-- A lowered condition: the expression followed by the `LLVMBuildICmp`
against zero that converts it to `i1` (the fragment's values are `i32`,
never already `i1`). -/
def llvm_codegen_cond (x : CExpr) (e : Emitter) : Emitter :=
  buildInstr (llvm_codegen_expr x e) .nonterm

/-- The `if (init)` / `if (increment)` ladders of the `for` lowering: an
optional fragment expression, lowered at the current insert block. -/
def codegen_opt_expr : Option CExpr → Emitter → Emitter
  | some x, e => llvm_codegen_expr x e
  | none, e => e

/-- The `for` condition: present → lower it and branch conditionally into
body or end; absent → an unconditional branch into the body. -/
def codegen_for_cond : Option CExpr → Emitter → Nat → Nat → Emitter
  | some x, e, loopIdx, endIdx =>
    buildInstr (llvm_codegen_cond x e) (.condBr loopIdx endIdx)
  | none, e, loopIdx, _ => buildInstr e (.br loopIdx)

/-- The statement fragment: the `llvm_codegen_stmt` cases whose lowering
C1 and C2 speak about, with expressions from the fragment.  `for`
initializers are fragment expressions;  `switch`, `goto` and labels are
outside. -/
inductive CStmt where
  | compound (ss : List CStmt)
  | exprStmt (x : CExpr)
  | retStmt (x : Option CExpr)
  | varDecl (init : Option CExpr)
  | ifStmt (cond : CExpr) (thenS : CStmt) (elseS : Option CStmt)
  | whileStmt (cond : CExpr) (body : CStmt)
  | forStmt (init : Option CExpr) (cond : Option CExpr) (inc : Option CExpr) (body : CStmt)
  | doWhileStmt (body : CStmt) (cond : CExpr)
  | breakStmt
  | continueStmt
deriving Repr

/-- `llvm_codegen_stmt`.  Fuel stands for `500 - recursion_depth`: every
nested statement runs with one unit less and exhaustion returns the state
unchanged, exactly like the depth guard.  The first `if` is the source's
skip when the current block already has a terminator. -/
def llvm_codegen_stmt : Nat → CStmt → Emitter → Emitter
  | 0, _, e => e
  | fuel + 1, s, e =>
    if (match e.insert with | some b => blockHasTerm e b | none => false) then e
    else
      match s with
      | .compound ss => ss.foldl (fun acc s1 => llvm_codegen_stmt fuel s1 acc) e
      | .exprStmt x => llvm_codegen_expr x e
      | .retStmt (some x) => buildInstr (llvm_codegen_expr x e) .ret
      | .retStmt none => buildInstr e .retVoid
      | .varDecl init =>
        let e1 := buildInstr e .nonterm
        match init with
        | some x => buildInstr (llvm_codegen_expr x e1) .nonterm
        | none => e1
      | .ifStmt cond thenS elseS =>
        let e1 := llvm_codegen_cond cond e
        match elseS with
        | none =>
          let r2 := appendBB e1
          let r3 := appendBB r2.1
          let e4 := buildInstr r3.1 (.condBr r2.2 r3.2)
          let e5 := llvm_codegen_stmt fuel thenS (positionAtEnd e4 r2.2)
          let e6 := if blockHasTerm e5 r2.2 then e5 else buildInstr e5 (.br r3.2)
          positionAtEnd e6 r3.2
        | some els =>
          let r2 := appendBB e1
          let r3 := appendBB r2.1
          let r4 := appendBB r3.1
          let e5 := buildInstr r4.1 (.condBr r2.2 r3.2)
          let e6 := llvm_codegen_stmt fuel thenS (positionAtEnd e5 r2.2)
          let e7 := if blockHasTerm e6 r2.2 then e6 else buildInstr e6 (.br r4.2)
          let e8 := llvm_codegen_stmt fuel els (positionAtEnd e7 r3.2)
          let e9 := if blockHasTerm e8 r3.2 then e8 else buildInstr e8 (.br r4.2)
          positionAtEnd e9 r4.2
      | .whileStmt cond body =>
        let r1 := appendBB e
        let r2 := appendBB r1.1
        let r3 := appendBB r2.1
        let e4 := buildInstr r3.1 (.br r1.2)
        let e5 := llvm_codegen_cond cond (positionAtEnd e4 r1.2)
        let e6 := buildInstr e5 (.condBr r2.2 r3.2)
        let e7 := { positionAtEnd e6 r2.2 with
                    loop_continue_block := some r1.2, loop_break_block := some r3.2 }
        let e8 := llvm_codegen_stmt fuel body e7
        let e9 := { e8 with loop_continue_block := e.loop_continue_block,
                            loop_break_block := e.loop_break_block }
        let e10 := if blockHasTerm e9 r2.2 then e9 else buildInstr e9 (.br r1.2)
        positionAtEnd e10 r3.2
      | .forStmt init cond inc body =>
        let e0 := codegen_opt_expr init e
        let r1 := appendBB e0
        let r2 := appendBB r1.1
        let r3 := appendBB r2.1
        let r4 := appendBB r3.1
        let e5 := buildInstr r4.1 (.br r1.2)
        let e6 := codegen_for_cond cond (positionAtEnd e5 r1.2) r2.2 r4.2
        let e7 := { positionAtEnd e6 r2.2 with
                    loop_continue_block := some r3.2, loop_break_block := some r4.2 }
        let e8 := llvm_codegen_stmt fuel body e7
        let e9 := { e8 with loop_continue_block := e.loop_continue_block,
                            loop_break_block := e.loop_break_block }
        let e10 := if blockHasTerm e9 r2.2 then e9 else buildInstr e9 (.br r3.2)
        let e11 := codegen_opt_expr inc (positionAtEnd e10 r3.2)
        let e12 := buildInstr e11 (.br r1.2)
        positionAtEnd e12 r4.2
      | .doWhileStmt body cond =>
        let r1 := appendBB e
        let r2 := appendBB r1.1
        let r3 := appendBB r2.1
        let e4 := buildInstr r3.1 (.br r1.2)
        let e5 := llvm_codegen_stmt fuel body (positionAtEnd e4 r1.2)
        let e6 := if blockHasTerm e5 r1.2 then e5 else buildInstr e5 (.br r2.2)
        let e7 := llvm_codegen_cond cond (positionAtEnd e6 r2.2)
        let e8 := buildInstr e7 (.condBr r1.2 r3.2)
        positionAtEnd e8 r3.2
      | .breakStmt =>
        match e.loop_break_block with
        | some t => buildInstr e (.br t)
        | none => buildInstr (codegen_set_error e "break statement outside of loop") .unreachable
      | .continueStmt =>
        match e.loop_continue_block with
        | some t => buildInstr e (.br t)
        | none => buildInstr (codegen_set_error e "continue statement outside of loop") .unreachable

/-- The post-body finalizer of `codegen_function_decl`: walk every basic
block and append a `ret void` (void functions) or a `ret` of the return
type's zero value to any block without a terminator. -/
def finalize_function (isVoid : Bool) (blocks : List BB) : List BB :=
  blocks.map fun bb =>
    if bb.hasTerm then bb
    else ⟨bb.instrs ++ [if isVoid then .retVoid else .ret]⟩

/-- `codegen_function_decl` for a definition: append the `entry` block,
position the builder there, lower the body (the loop context starts
empty: every loop restores it, so no context leaks in from elsewhere),
then run the finalizer. -/
def codegen_function_decl (fuel : Nat) (isVoid : Bool) (body : CStmt) : List BB :=
  let e0 : Emitter := ⟨[⟨[]⟩], some 0, none, none, none⟩
  let e1 := llvm_codegen_stmt fuel body e0
  finalize_function isVoid e1.blocks


/-! ### List-indexing helper lemmas -/

theorem getD_set_ne {α : Type} (l : List α) (b j : Nat) (v d : α) (h : j ≠ b) :
    (l.set b v).getD j d = l.getD j d := by
  induction l generalizing b j with
  | nil => rfl
  | cons a tl ih =>
    cases b with
    | zero =>
      cases j with
      | zero => exact absurd rfl h
      | succ jj => rfl
    | succ bb =>
      cases j with
      | zero => rfl
      | succ jj =>
        show (tl.set bb v).getD jj d = tl.getD jj d
        exact ih bb jj (fun hh => h (by rw [hh]))

theorem getD_set_self {α : Type} (l : List α) (b : Nat) (v d : α)
    (h : b < l.length) :
    (l.set b v).getD b d = v := by
  induction l generalizing b with
  | nil => simp at h
  | cons a tl ih =>
    cases b with
    | zero => rfl
    | succ bb =>
      show (tl.set bb v).getD bb d = v
      exact ih bb (by simp at h; omega)

theorem set_oob {α : Type} (l : List α) (b : Nat) (v : α)
    (h : l.length ≤ b) : l.set b v = l := by
  induction l generalizing b with
  | nil => rfl
  | cons a tl ih =>
    cases b with
    | zero => simp at h
    | succ bb =>
      show a :: tl.set bb v = a :: tl
      rw [ih bb (by simp at h; omega)]

theorem getD_append_left {α : Type} (l m : List α) (j : Nat) (d : α)
    (h : j < l.length) :
    (l ++ m).getD j d = l.getD j d := by
  induction l generalizing j with
  | nil => simp at h
  | cons a tl ih =>
    cases j with
    | zero => rfl
    | succ jj =>
      show (tl ++ m).getD jj d = tl.getD jj d
      exact ih jj (by simp at h; omega)

theorem getD_append_add {α : Type} (l m : List α) (k : Nat) (d : α) :
    (l ++ m).getD (l.length + k) d = m.getD k d := by
  induction l with
  | nil =>
    show m.getD (0 + k) d = m.getD k d
    rw [Nat.zero_add]
  | cons a tl ih =>
    have hidx : (a :: tl).length + k = (tl.length + k) + 1 := by
      simp only [List.length_cons]
      omega
    rw [hidx]
    show (tl ++ m).getD (tl.length + k) d = m.getD k d
    exact ih

theorem getD_oob {α : Type} (l : List α) (j : Nat) (d : α)
    (h : l.length ≤ j) : l.getD j d = d := by
  induction l generalizing j with
  | nil => rfl
  | cons a tl ih =>
    cases j with
    | zero => simp at h
    | succ jj => exact ih jj (by simp at h; omega)

/-! ### The block invariant and the primitive-operation lemmas -/

/-- Terminators may stand only at a block's last position. -/
def TermOnlyInside (bb : BB) : Prop :=
  ∀ i, i + 1 < bb.instrs.length → (bb.instrs.getD i .nonterm).isTerminator = false

/-- Every block of the state satisfies `TermOnlyInside`. -/
def EmitInv (e : Emitter) : Prop := ∀ bb ∈ e.blocks, TermOnlyInside bb

theorem termOnlyInside_nil : TermOnlyInside ⟨[]⟩ := by
  intro i h
  simp [BB.instrs] at h

theorem getLast_getD (l : List Instr) (d : Instr) (h : l ≠ []) :
    l.getLast? = some (l.getD (l.length - 1) d) := by
  induction l with
  | nil => exact absurd rfl h
  | cons a tl ih =>
    cases tl with
    | nil => rfl
    | cons b tl2 =>
      rw [List.getLast?_cons_cons, ih (by simp)]
      rfl

/-- Appending any instruction to a block without a terminator keeps
terminators at the end only. -/
theorem termOnlyInside_append (bb : BB) (i : Instr)
    (hterm : bb.hasTerm = false) (hinv : TermOnlyInside bb) :
    TermOnlyInside ⟨bb.instrs ++ [i]⟩ := by
  intro idx hlt
  simp only [BB.instrs, List.length_append, List.length_cons, List.length_nil] at hlt
  have hidx : idx < bb.instrs.length := by omega
  rw [show (⟨bb.instrs ++ [i]⟩ : BB).instrs = bb.instrs ++ [i] from rfl,
    getD_append_left _ _ _ _ hidx]
  by_cases hlast : idx + 1 < bb.instrs.length
  · exact hinv idx hlast
  · have hne : bb.instrs ≠ [] := by
      intro hh
      rw [hh] at hidx
      simp at hidx
    have := getLast_getD bb.instrs .nonterm hne
    unfold BB.hasTerm at hterm
    rw [this] at hterm
    have hidx1 : idx = bb.instrs.length - 1 := by omega
    rw [hidx1]
    simpa using hterm

theorem emitInv_appendBB {e : Emitter} (h : EmitInv e) :
    EmitInv (appendBB e).1 := by
  intro bb hbb
  simp only [appendBB, List.mem_append, List.mem_singleton] at hbb
  rcases hbb with hbb | hbb
  · exact h bb hbb
  · subst hbb; exact termOnlyInside_nil

theorem emitInv_positionAtEnd {e : Emitter} (h : EmitInv e) (b : Nat) :
    EmitInv (positionAtEnd e b) := h

theorem getD_mem_or_default (l : List BB) (b : Nat) :
    l.getD b ⟨[]⟩ ∈ l ∨ l.getD b ⟨[]⟩ = ⟨[]⟩ := by
  by_cases hb : b < l.length
  · left
    have : l.getD b ⟨[]⟩ = l.get ⟨b, hb⟩ := by
      simp [List.getD_eq_getElem, hb]
    rw [this]
    exact List.get_mem l b hb
  · right
    exact getD_oob l b ⟨[]⟩ (by omega)

/-- Appending an instruction at an unterminated insert block preserves the
invariant. -/
theorem emitInv_buildInstr {e : Emitter} {b : Nat} (i : Instr)
    (hins : e.insert = some b) (hterm : blockHasTerm e b = false)
    (h : EmitInv e) : EmitInv (buildInstr e i) := by
  unfold buildInstr
  rw [hins]
  intro bb hbb
  rcases List.mem_or_eq_of_mem_set hbb with hmem | heq
  · exact h bb hmem
  · subst heq
    refine termOnlyInside_append _ i hterm ?_
    rcases getD_mem_or_default e.blocks b with hm | hd
    · exact h _ hm
    · rw [hd]; exact termOnlyInside_nil

theorem buildInstr_fields (e : Emitter) (i : Instr) :
    (buildInstr e i).insert = e.insert ∧
    (buildInstr e i).loop_continue_block = e.loop_continue_block ∧
    (buildInstr e i).loop_break_block = e.loop_break_block ∧
    (buildInstr e i).last_error = e.last_error ∧
    (buildInstr e i).blocks.length = e.blocks.length := by
  unfold buildInstr
  split
  · exact ⟨rfl, rfl, rfl, rfl, rfl⟩
  · exact ⟨rfl, rfl, rfl, rfl, by simp⟩

theorem buildInstr_frame {e : Emitter} {b : Nat} (i : Instr) (j : Nat)
    (hins : e.insert = some b) (hj : j ≠ b) :
    (buildInstr e i).blocks.getD j ⟨[]⟩ = e.blocks.getD j ⟨[]⟩ := by
  unfold buildInstr
  rw [hins]
  exact getD_set_ne _ _ _ _ _ hj

theorem buildInstr_getD_self {e : Emitter} {b : Nat} (i : Instr)
    (hins : e.insert = some b) (hb : b < e.blocks.length) :
    (buildInstr e i).blocks.getD b ⟨[]⟩ = ⟨(e.blocks.getD b ⟨[]⟩).instrs ++ [i]⟩ := by
  unfold buildInstr
  rw [hins]
  exact getD_set_self _ _ _ _ hb

theorem hasTerm_append (bb : BB) (i : Instr) :
    BB.hasTerm ⟨bb.instrs ++ [i]⟩ = i.isTerminator := by
  unfold BB.hasTerm
  simp

theorem blockHasTerm_buildInstr_self {e : Emitter} {b : Nat} (i : Instr)
    (hins : e.insert = some b) (hb : b < e.blocks.length) :
    blockHasTerm (buildInstr e i) b = i.isTerminator := by
  unfold blockHasTerm
  rw [buildInstr_getD_self i hins hb, hasTerm_append]

/-- Expression lowering: only non-terminator instructions are appended, at
the insert block, which afterwards still has no terminator; everything
else about the state is unchanged. -/
theorem llvm_codegen_expr_ok (x : CExpr) :
    ∀ (e : Emitter) (b : Nat), e.insert = some b → b < e.blocks.length →
      blockHasTerm e b = false → EmitInv e →
      EmitInv (llvm_codegen_expr x e) ∧
      (llvm_codegen_expr x e).insert = some b ∧
      (llvm_codegen_expr x e).blocks.length = e.blocks.length ∧
      blockHasTerm (llvm_codegen_expr x e) b = false ∧
      (∀ j, j ≠ b → (llvm_codegen_expr x e).blocks.getD j ⟨[]⟩ =
        e.blocks.getD j ⟨[]⟩) ∧
      (llvm_codegen_expr x e).loop_continue_block = e.loop_continue_block ∧
      (llvm_codegen_expr x e).loop_break_block = e.loop_break_block ∧
      (llvm_codegen_expr x e).last_error = e.last_error := by
  induction x with
  | lit n =>
    intro e b hins hb hterm hinv
    exact ⟨hinv, hins, rfl, hterm, fun j _ => rfl, rfl, rfl, rfl⟩
  | binary a c iha ihc =>
    intro e b hins hb hterm hinv
    obtain ⟨a1, a2, a3, a4, a5, a6, a7, a8⟩ := iha e b hins hb hterm hinv
    obtain ⟨c1, c2, c3, c4, c5, c6, c7, c8⟩ :=
      ihc (llvm_codegen_expr a e) b a2 (by omega) a4 a1
    have hunf : llvm_codegen_expr (.binary a c) e =
        buildInstr (llvm_codegen_expr c (llvm_codegen_expr a e)) .nonterm := rfl
    rw [hunf]
    have hlen : (llvm_codegen_expr c (llvm_codegen_expr a e)).blocks.length =
        e.blocks.length := by omega
    refine ⟨emitInv_buildInstr .nonterm c2 c4 c1, ?_, ?_, ?_, ?_, ?_, ?_, ?_⟩
    · rw [(buildInstr_fields _ .nonterm).1, c2]
    · rw [(buildInstr_fields _ .nonterm).2.2.2.2, hlen]
    · rw [blockHasTerm_buildInstr_self .nonterm c2 (by omega)]
      rfl
    · intro j hj
      rw [buildInstr_frame .nonterm j c2 hj, c5 j hj, a5 j hj]
    · rw [(buildInstr_fields _ .nonterm).2.1, c6, a6]
    · rw [(buildInstr_fields _ .nonterm).2.2.1, c7, a7]
    · rw [(buildInstr_fields _ .nonterm).2.2.2.1, c8, a8]

/-- Condition lowering has the same shape as expression lowering. -/
theorem llvm_codegen_cond_ok (x : CExpr) (e : Emitter) (b : Nat)
    (hins : e.insert = some b) (hb : b < e.blocks.length)
    (hterm : blockHasTerm e b = false) (hinv : EmitInv e) :
    EmitInv (llvm_codegen_cond x e) ∧
    (llvm_codegen_cond x e).insert = some b ∧
    (llvm_codegen_cond x e).blocks.length = e.blocks.length ∧
    blockHasTerm (llvm_codegen_cond x e) b = false ∧
    (∀ j, j ≠ b → (llvm_codegen_cond x e).blocks.getD j ⟨[]⟩ =
      e.blocks.getD j ⟨[]⟩) ∧
    (llvm_codegen_cond x e).loop_continue_block = e.loop_continue_block ∧
    (llvm_codegen_cond x e).loop_break_block = e.loop_break_block ∧
    (llvm_codegen_cond x e).last_error = e.last_error := by
  obtain ⟨a1, a2, a3, a4, a5, a6, a7, a8⟩ := llvm_codegen_expr_ok x e b hins hb hterm hinv
  unfold llvm_codegen_cond
  refine ⟨emitInv_buildInstr .nonterm a2 a4 a1, ?_, ?_, ?_, ?_, ?_, ?_, ?_⟩
  · rw [(buildInstr_fields _ .nonterm).1, a2]
  · rw [(buildInstr_fields _ .nonterm).2.2.2.2, a3]
  · rw [blockHasTerm_buildInstr_self .nonterm a2 (by omega)]
    rfl
  · intro j hj
    rw [buildInstr_frame .nonterm j a2 hj, a5 j hj]
  · rw [(buildInstr_fields _ .nonterm).2.1, a6]
  · rw [(buildInstr_fields _ .nonterm).2.2.1, a7]
  · rw [(buildInstr_fields _ .nonterm).2.2.2.1, a8]


/-! ### The statement-lowering bundle -/

/-- What one statement lowering guarantees, relative to the state `e` it
started from with insert block `b`: the invariant is kept; blocks are only
added; the builder ends on `b` itself or on a newly created block; old
blocks other than `b` are untouched; a `b` that already had its terminator
is untouched; and if `b` still has no terminator, the builder still points
at `b`. -/
def StmtBundle (e : Emitter) (b : Nat) (e1 : Emitter) : Prop :=
  EmitInv e1 ∧
  e.blocks.length ≤ e1.blocks.length ∧
  (∃ b1, e1.insert = some b1 ∧ (b1 = b ∨ e.blocks.length ≤ b1) ∧
    b1 < e1.blocks.length) ∧
  (∀ j, j < e.blocks.length → j ≠ b →
    e1.blocks.getD j ⟨[]⟩ = e.blocks.getD j ⟨[]⟩) ∧
  (blockHasTerm e b = true → e1.blocks.getD b ⟨[]⟩ = e.blocks.getD b ⟨[]⟩) ∧
  (blockHasTerm e1 b = false → e1.insert = some b)

theorem blockHasTerm_congr {e e1 : Emitter} {b : Nat}
    (h : e1.blocks.getD b ⟨[]⟩ = e.blocks.getD b ⟨[]⟩) :
    blockHasTerm e1 b = blockHasTerm e b := by
  unfold blockHasTerm
  rw [h]

theorem stmtBundle_id (e : Emitter) (b : Nat) (hins : e.insert = some b)
    (hb : b < e.blocks.length) (hinv : EmitInv e) : StmtBundle e b e :=
  ⟨hinv, le_refl _, ⟨b, hins, Or.inl rfl, hb⟩, fun _ _ _ => rfl,
    fun _ => rfl, fun _ => hins⟩

theorem stmtBundle_comp {e e1 e2 : Emitter} {b b1 : Nat}
    (hb : b < e.blocks.length)
    (h1 : StmtBundle e b e1)
    (hins1 : e1.insert = some b1)
    (h2 : StmtBundle e1 b1 e2) : StmtBundle e b e2 := by
  obtain ⟨inv1, len1, ⟨c1, hc1, hor1, hlt1⟩, frame1, frozen1, insb1⟩ := h1
  obtain ⟨inv2, len2, ⟨c2, hc2, hor2, hlt2⟩, frame2, frozen2, insb2⟩ := h2
  have hcb1 : c1 = b1 := Option.some.inj (hc1.symm.trans hins1)
  subst hcb1
  refine ⟨inv2, le_trans len1 len2, ⟨c2, hc2, ?_, hlt2⟩, ?_, ?_, ?_⟩
  · rcases hor2 with h | h
    · subst h; exact hor1
    · exact Or.inr (le_trans len1 h)
  · intro j hjl hjb
    rcases hor1 with hcb | hcb
    · rw [frame2 j (by omega) (by omega), frame1 j hjl hjb]
    · rw [frame2 j (by omega) (by omega), frame1 j hjl hjb]
  · intro hct
    have hf1 := frozen1 hct
    have hct1 : blockHasTerm e1 b = true := by
      rw [blockHasTerm_congr hf1]; exact hct
    rcases hor1 with hcb | hcb
    · subst hcb
      rw [frozen2 hct1, hf1]
    · rw [frame2 b (by omega) (by omega), hf1]
  · intro hct2
    rcases hor1 with hcb | hcb
    · subst hcb
      exact insb2 hct2
    · exfalso
      have hfr : e2.blocks.getD b ⟨[]⟩ = e1.blocks.getD b ⟨[]⟩ :=
        frame2 b (by omega) (by omega)
      have hct1 : blockHasTerm e1 b = false := by
        rw [← blockHasTerm_congr hfr]; exact hct2
      have := insb1 hct1
      rw [hc1] at this
      injection this with hh
      omega

/-- The compound-statement loop: fold the per-statement bundle. -/
theorem llvm_codegen_stmt_list_ok (fuel : Nat)
    (IH : ∀ (s : CStmt) (e : Emitter) (b : Nat), e.insert = some b →
      b < e.blocks.length → EmitInv e →
      StmtBundle e b (llvm_codegen_stmt fuel s e)) :
    ∀ (ss : List CStmt) (e : Emitter) (b : Nat),
      e.insert = some b → b < e.blocks.length → EmitInv e →
      StmtBundle e b (ss.foldl (fun acc s1 => llvm_codegen_stmt fuel s1 acc) e) := by
  intro ss
  induction ss with
  | nil => intro e b hins hb hinv; exact stmtBundle_id e b hins hb hinv
  | cons s rest ih =>
    intro e b hins hb hinv
    have B1 := IH s e b hins hb hinv
    obtain ⟨b1, hins1, _, hlt1⟩ := B1.2.2.1
    have B2 := ih (llvm_codegen_stmt fuel s e) b1 hins1 hlt1 B1.1
    exact stmtBundle_comp hb B1 hins1 B2

/-! ### appendBB / positionAtEnd helper facts -/

theorem appendBB_insert (e : Emitter) : (appendBB e).1.insert = e.insert := rfl

theorem appendBB_len (e : Emitter) :
    (appendBB e).1.blocks.length = e.blocks.length + 1 := by
  unfold appendBB; simp

theorem appendBB_idx (e : Emitter) : (appendBB e).2 = e.blocks.length := rfl

theorem appendBB_getD_lt (e : Emitter) (j : Nat) (hj : j < e.blocks.length) :
    (appendBB e).1.blocks.getD j ⟨[]⟩ = e.blocks.getD j ⟨[]⟩ :=
  getD_append_left _ _ _ _ hj

theorem appendBB_getD_new (e : Emitter) :
    (appendBB e).1.blocks.getD e.blocks.length ⟨[]⟩ = ⟨[]⟩ := by
  have h := getD_append_add e.blocks [⟨[]⟩] 0 (⟨[]⟩ : BB)
  unfold appendBB
  simpa using h

theorem appendBB_term_lt (e : Emitter) (j : Nat) (hj : j < e.blocks.length) :
    blockHasTerm (appendBB e).1 j = blockHasTerm e j :=
  blockHasTerm_congr (appendBB_getD_lt e j hj)

theorem appendBB_term_new (e : Emitter) :
    blockHasTerm (appendBB e).1 e.blocks.length = false := by
  unfold blockHasTerm
  rw [appendBB_getD_new]
  rfl

theorem positionAtEnd_blocks (e : Emitter) (b : Nat) :
    (positionAtEnd e b).blocks = e.blocks := rfl

theorem positionAtEnd_insert (e : Emitter) (b : Nat) :
    (positionAtEnd e b).insert = some b := rfl


theorem loopRestore_blocks (e1 : Emitter) (c k : Option Nat) :
    ({ e1 with loop_continue_block := c, loop_break_block := k } : Emitter).blocks
      = e1.blocks := rfl

/-- The `AST_WHILE_STMT` case of the bundle. -/
theorem while_case_ok (m : Nat)
    (IH : ∀ (s : CStmt) (e : Emitter) (b : Nat), e.insert = some b →
      b < e.blocks.length → EmitInv e → StmtBundle e b (llvm_codegen_stmt m s e))
    (cond : CExpr) (body : CStmt) (e : Emitter) (b : Nat)
    (hins : e.insert = some b) (hb : b < e.blocks.length)
    (hterm : blockHasTerm e b = false) (hinv : EmitInv e) :
    StmtBundle e b (llvm_codegen_stmt (m + 1) (.whileStmt cond body) e) := by
  have hne : ¬ ((match e.insert with
      | some bb => blockHasTerm e bb | none => false) = true) := by
    rw [hins]
    simp [hterm]
  rw [llvm_codegen_stmt, if_neg hne]
  dsimp only
  -- stage E3: three fresh blocks (while.cond, while.body, while.end)
  set E3 := (appendBB (appendBB (appendBB e).1).1).1 with hE3
  have hE3len : E3.blocks.length = e.blocks.length + 3 := by
    rw [hE3, appendBB_len, appendBB_len, appendBB_len]
  have hE3ins : E3.insert = some b := hins
  have hE3inv : EmitInv E3 :=
    emitInv_appendBB (emitInv_appendBB (emitInv_appendBB hinv))
  have hcondidx : (appendBB e).2 = e.blocks.length := rfl
  have hbodyidx : (appendBB (appendBB e).1).2 = e.blocks.length + 1 := by
    rw [appendBB_idx, appendBB_len]
  have hendidx : (appendBB (appendBB (appendBB e).1).1).2 = e.blocks.length + 2 := by
    rw [appendBB_idx, appendBB_len, appendBB_len]
  rw [hcondidx, hbodyidx, hendidx]
  have hE3getD : ∀ j, j < e.blocks.length →
      E3.blocks.getD j ⟨[]⟩ = e.blocks.getD j ⟨[]⟩ := by
    intro j hj
    rw [hE3, appendBB_getD_lt, appendBB_getD_lt, appendBB_getD_lt e j hj]
    · rw [appendBB_len]; omega
    · rw [appendBB_len, appendBB_len]; omega
  have hE3term : blockHasTerm E3 b = false := by
    rw [blockHasTerm_congr (hE3getD b hb)]
    exact hterm
  have hE3fresh : ∀ k, e.blocks.length ≤ k → k < e.blocks.length + 3 →
      E3.blocks.getD k ⟨[]⟩ = ⟨[]⟩ := by
    intro k hk1 hk2
    rw [hE3]
    unfold appendBB
    simp only
    have : e.blocks ++ [⟨[]⟩] ++ [⟨[]⟩] ++ [(⟨[]⟩ : BB)] =
        e.blocks ++ ([⟨[]⟩, ⟨[]⟩, ⟨[]⟩] : List BB) := by simp
    rw [this]
    have hk3 : k = e.blocks.length + (k - e.blocks.length) := by omega
    rw [hk3, getD_append_add]
    have : k - e.blocks.length < 3 := by omega
    interval_cases h : (k - e.blocks.length) <;> rfl
  -- E4: the branch into while.cond, emitted at b
  set E4 := buildInstr E3 (.br e.blocks.length) with hE4
  have hE4inv : EmitInv E4 := emitInv_buildInstr _ hE3ins hE3term hE3inv
  have hE4len : E4.blocks.length = e.blocks.length + 3 := by
    rw [hE4, (buildInstr_fields _ _).2.2.2.2, hE3len]
  have hE4getD : ∀ j, j < E4.blocks.length → j ≠ b →
      E4.blocks.getD j ⟨[]⟩ = E3.blocks.getD j ⟨[]⟩ := by
    intro j _ hj
    rw [hE4]
    exact buildInstr_frame _ j hE3ins hj
  have hE4b : blockHasTerm E4 b = true := by
    rw [hE4, blockHasTerm_buildInstr_self _ hE3ins (by omega)]
    rfl
  -- E5: the condition lowered in while.cond
  have hposins : (positionAtEnd E4 e.blocks.length).insert = some e.blocks.length := rfl
  have hposterm : blockHasTerm (positionAtEnd E4 e.blocks.length) e.blocks.length = false := by
    show blockHasTerm E4 e.blocks.length = false
    rw [blockHasTerm_congr (hE4getD e.blocks.length (by omega) (by omega))]
    unfold blockHasTerm
    rw [hE3fresh e.blocks.length (le_refl _) (by omega)]
    rfl
  obtain ⟨c1, c2, c3, c4, c5, c6, c7, c8⟩ :=
    llvm_codegen_cond_ok cond (positionAtEnd E4 e.blocks.length) e.blocks.length
      hposins (by show e.blocks.length < E4.blocks.length; omega) hposterm hE4inv
  set E5 := llvm_codegen_cond cond (positionAtEnd E4 e.blocks.length) with hE5
  have hE5len : E5.blocks.length = e.blocks.length + 3 := by
    rw [hE5, c3]; show E4.blocks.length = _; omega
  -- E6: the conditional branch out of while.cond
  set E6 := buildInstr E5 (.condBr (e.blocks.length + 1) (e.blocks.length + 2)) with hE6
  have hE6inv : EmitInv E6 := emitInv_buildInstr _ c2 c4 c1
  have hE6len : E6.blocks.length = e.blocks.length + 3 := by
    rw [hE6, (buildInstr_fields _ _).2.2.2.2, hE5len]
  have hE6getD : ∀ j, j ≠ e.blocks.length →
      E6.blocks.getD j ⟨[]⟩ = E4.blocks.getD j ⟨[]⟩ := by
    intro j hj
    rw [hE6, buildInstr_frame _ j c2 hj, hE5, c5 j hj]
    rfl
  -- E7: builder on while.body, loop context set
  set E7 := { positionAtEnd E6 (e.blocks.length + 1) with
              loop_continue_block := some e.blocks.length,
              loop_break_block := some (e.blocks.length + 2) } with hE7
  have hE7blocks : E7.blocks = E6.blocks := rfl
  have hE7ins : E7.insert = some (e.blocks.length + 1) := rfl
  have hE7len : E7.blocks.length = e.blocks.length + 3 := by
    show E6.blocks.length = e.blocks.length + 3
    exact hE6len
  have hE7inv : EmitInv E7 := by
    intro bb hbb
    exact hE6inv bb hbb
  -- E8: the body, lowered by the induction hypothesis
  have B8 := IH body E7 (e.blocks.length + 1) hE7ins (by omega) hE7inv
  set E8 := llvm_codegen_stmt m body E7 with hE8
  obtain ⟨inv8, len8, ⟨b8, hins8, hor8, hlt8⟩, frame8, frozen8, insb8⟩ := B8
  -- E9: loop context restored
  set E9 := { E8 with loop_continue_block := e.loop_continue_block,
                      loop_break_block := e.loop_break_block } with hE9
  have hE9blocks : E9.blocks = E8.blocks := rfl
  have hE9ins : E9.insert = E8.insert := rfl
  have hE9inv : EmitInv E9 := by intro bb hbb; exact inv8 bb hbb
  have hE9getD : ∀ j, E9.blocks.getD j ⟨[]⟩ = E8.blocks.getD j ⟨[]⟩ := by
    intro j; rw [hE9blocks]
  have hE9term : ∀ j, blockHasTerm E9 j = blockHasTerm E8 j := by
    intro j
    exact blockHasTerm_congr (hE9getD j)
  -- old blocks other than b are untouched end to end
  have holdframe : ∀ j, j < e.blocks.length → j ≠ b →
      E9.blocks.getD j ⟨[]⟩ = e.blocks.getD j ⟨[]⟩ := by
    intro j hjl hjb
    rw [hE9getD j, frame8 j (by omega) (by omega)]
    show E6.blocks.getD j ⟨[]⟩ = e.blocks.getD j ⟨[]⟩
    rw [hE6getD j (by omega), hE4getD j (by omega) hjb, hE3getD j hjl]
  -- block b ends terminated (the br into while.cond)
  have hbterm9 : blockHasTerm E9 b = true := by
    rw [hE9term b]
    have hfr : E8.blocks.getD b ⟨[]⟩ = E7.blocks.getD b ⟨[]⟩ :=
      frame8 b (by omega) (by omega)
    rw [blockHasTerm_congr hfr]
    show blockHasTerm E7 b = true
    have hq : E7.blocks.getD b ⟨[]⟩ = E4.blocks.getD b ⟨[]⟩ := by
      show E6.blocks.getD b ⟨[]⟩ = E4.blocks.getD b ⟨[]⟩
      exact hE6getD b (by omega)
    rw [blockHasTerm_congr hq]
    exact hE4b
  -- E10: the back branch if while.body fell through
  set E10 := if blockHasTerm E9 (e.blocks.length + 1) then E9
             else buildInstr E9 (.br e.blocks.length) with hE10
  have hE10facts : EmitInv E10 ∧ E10.blocks.length = E9.blocks.length ∧
      (∀ j, j < e.blocks.length → j ≠ b →
        E10.blocks.getD j ⟨[]⟩ = e.blocks.getD j ⟨[]⟩) ∧
      blockHasTerm E10 b = true := by
    rw [hE10]
    by_cases hbt : blockHasTerm E9 (e.blocks.length + 1) = true
    · rw [if_pos hbt]
      exact ⟨hE9inv, rfl, holdframe, hbterm9⟩
    · rw [if_neg hbt]
      have hbt9 : blockHasTerm E9 (e.blocks.length + 1) = false := by
        simpa using hbt
      have hinsb : E9.insert = some (e.blocks.length + 1) := by
        rw [hE9ins]
        refine insb8 ?_
        rw [← hE9term]
        exact hbt9
      refine ⟨emitInv_buildInstr _ hinsb hbt9 hE9inv, ?_, ?_, ?_⟩
      · exact (buildInstr_fields _ _).2.2.2.2
      · intro j hjl hjb
        rw [buildInstr_frame _ j hinsb (by omega), holdframe j hjl hjb]
      · rw [blockHasTerm_congr (buildInstr_frame _ b hinsb (by omega))]
        exact hbterm9
  obtain ⟨inv10, len10, frame10, bterm10⟩ := hE10facts
  have hE9len : E9.blocks.length = E8.blocks.length := by rw [hE9blocks]
  have hlen10' : e.blocks.length + 3 ≤ E10.blocks.length := by
    rw [len10, hE9len]
    rw [hE7len] at len8
    omega
  -- the final state: builder on while.end
  refine ⟨emitInv_positionAtEnd inv10 _, ?_, ?_, ?_, ?_, ?_⟩
  · show e.blocks.length ≤ (positionAtEnd E10 (e.blocks.length + 2)).blocks.length
    rw [positionAtEnd_blocks]
    omega
  · refine ⟨e.blocks.length + 2, positionAtEnd_insert _ _, Or.inr (by omega), ?_⟩
    rw [positionAtEnd_blocks]
    omega
  · intro j hjl hjb
    show E10.blocks.getD j ⟨[]⟩ = e.blocks.getD j ⟨[]⟩
    exact frame10 j hjl hjb
  · intro hct
    rw [hct] at hterm
    exact absurd hterm (by simp)
  · intro hct
    exfalso
    have : blockHasTerm (positionAtEnd E10 (e.blocks.length + 2)) b
        = blockHasTerm E10 b := by
      exact blockHasTerm_congr rfl
    rw [this, bterm10] at hct
    exact absurd hct (by simp)


theorem codegen_opt_expr_ok (x? : Option CExpr) (e : Emitter) (b : Nat)
    (hins : e.insert = some b) (hb : b < e.blocks.length)
    (hterm : blockHasTerm e b = false) (hinv : EmitInv e) :
    EmitInv (codegen_opt_expr x? e) ∧
    (codegen_opt_expr x? e).insert = some b ∧
    (codegen_opt_expr x? e).blocks.length = e.blocks.length ∧
    blockHasTerm (codegen_opt_expr x? e) b = false ∧
    (∀ j, j ≠ b → (codegen_opt_expr x? e).blocks.getD j ⟨[]⟩ =
      e.blocks.getD j ⟨[]⟩) := by
  cases x? with
  | none => exact ⟨hinv, hins, rfl, hterm, fun _ _ => rfl⟩
  | some x =>
    obtain ⟨a1, a2, a3, a4, a5, _, _, _⟩ :=
      llvm_codegen_expr_ok x e b hins hb hterm hinv
    exact ⟨a1, a2, a3, a4, a5⟩

theorem codegen_for_cond_ok (x? : Option CExpr) (e : Emitter)
    (loopIdx endIdx b : Nat)
    (hins : e.insert = some b) (hb : b < e.blocks.length)
    (hterm : blockHasTerm e b = false) (hinv : EmitInv e) :
    EmitInv (codegen_for_cond x? e loopIdx endIdx) ∧
    (codegen_for_cond x? e loopIdx endIdx).insert = some b ∧
    (codegen_for_cond x? e loopIdx endIdx).blocks.length = e.blocks.length ∧
    blockHasTerm (codegen_for_cond x? e loopIdx endIdx) b = true ∧
    (∀ j, j ≠ b → (codegen_for_cond x? e loopIdx endIdx).blocks.getD j ⟨[]⟩ =
      e.blocks.getD j ⟨[]⟩) := by
  cases x? with
  | none =>
    simp only [codegen_for_cond]
    refine ⟨emitInv_buildInstr _ hins hterm hinv, ?_, ?_, ?_, ?_⟩
    · rw [(buildInstr_fields _ _).1, hins]
    · exact (buildInstr_fields _ _).2.2.2.2
    · rw [blockHasTerm_buildInstr_self _ hins hb]
      rfl
    · intro j hj
      exact buildInstr_frame _ j hins hj
  | some x =>
    simp only [codegen_for_cond]
    obtain ⟨a1, a2, a3, a4, a5, _, _, _⟩ :=
      llvm_codegen_cond_ok x e b hins hb hterm hinv
    refine ⟨emitInv_buildInstr _ a2 a4 a1, ?_, ?_, ?_, ?_⟩
    · rw [(buildInstr_fields _ _).1, a2]
    · rw [(buildInstr_fields _ _).2.2.2.2, a3]
    · rw [blockHasTerm_buildInstr_self _ a2 (by omega)]
      rfl
    · intro j hj
      rw [buildInstr_frame _ j a2 hj, a5 j hj]


/-- The `AST_DO_WHILE_STMT` case: the body is lowered with the *enclosing*
loop context (the source saves and sets nothing here). -/
theorem dowhile_case_ok (m : Nat)
    (IH : ∀ (s : CStmt) (e : Emitter) (b : Nat), e.insert = some b →
      b < e.blocks.length → EmitInv e → StmtBundle e b (llvm_codegen_stmt m s e))
    (body : CStmt) (cond : CExpr) (e : Emitter) (b : Nat)
    (hins : e.insert = some b) (hb : b < e.blocks.length)
    (hterm : blockHasTerm e b = false) (hinv : EmitInv e) :
    StmtBundle e b (llvm_codegen_stmt (m + 1) (.doWhileStmt body cond) e) := by
  have hne : ¬ ((match e.insert with
      | some bb => blockHasTerm e bb | none => false) = true) := by
    rw [hins]
    simp [hterm]
  rw [llvm_codegen_stmt, if_neg hne]
  dsimp only
  have hbodyidx : (appendBB e).2 = e.blocks.length := rfl
  have hcondidx : (appendBB (appendBB e).1).2 = e.blocks.length + 1 := by
    rw [appendBB_idx, appendBB_len]
  have hendidx : (appendBB (appendBB (appendBB e).1).1).2 = e.blocks.length + 2 := by
    rw [appendBB_idx, appendBB_len, appendBB_len]
  rw [hbodyidx, hcondidx, hendidx]
  set E3 := (appendBB (appendBB (appendBB e).1).1).1 with hE3
  have hE3len : E3.blocks.length = e.blocks.length + 3 := by
    rw [hE3, appendBB_len, appendBB_len, appendBB_len]
  have hE3ins : E3.insert = some b := hins
  have hE3inv : EmitInv E3 :=
    emitInv_appendBB (emitInv_appendBB (emitInv_appendBB hinv))
  have hE3getD : ∀ j, j < e.blocks.length →
      E3.blocks.getD j ⟨[]⟩ = e.blocks.getD j ⟨[]⟩ := by
    intro j hj
    rw [hE3, appendBB_getD_lt, appendBB_getD_lt, appendBB_getD_lt e j hj]
    · rw [appendBB_len]; omega
    · rw [appendBB_len, appendBB_len]; omega
  have hE3term : blockHasTerm E3 b = false := by
    rw [blockHasTerm_congr (hE3getD b hb)]
    exact hterm
  have hE3fresh : ∀ k, e.blocks.length ≤ k → k < e.blocks.length + 3 →
      E3.blocks.getD k ⟨[]⟩ = ⟨[]⟩ := by
    intro k hk1 hk2
    rw [hE3]
    unfold appendBB
    simp only
    have heq : e.blocks ++ [⟨[]⟩] ++ [⟨[]⟩] ++ [(⟨[]⟩ : BB)] =
        e.blocks ++ ([⟨[]⟩, ⟨[]⟩, ⟨[]⟩] : List BB) := by simp
    rw [heq]
    have hk3 : k = e.blocks.length + (k - e.blocks.length) := by omega
    rw [hk3, getD_append_add]
    have : k - e.blocks.length < 3 := by omega
    interval_cases h : (k - e.blocks.length) <;> rfl
  set E4 := buildInstr E3 (.br e.blocks.length) with hE4
  have hE4inv : EmitInv E4 := emitInv_buildInstr _ hE3ins hE3term hE3inv
  have hE4len : E4.blocks.length = e.blocks.length + 3 := by
    rw [hE4, (buildInstr_fields _ _).2.2.2.2, hE3len]
  have hE4getD : ∀ j, j ≠ b →
      E4.blocks.getD j ⟨[]⟩ = E3.blocks.getD j ⟨[]⟩ := by
    intro j hj
    rw [hE4]
    exact buildInstr_frame _ j hE3ins hj
  have hE4b : blockHasTerm E4 b = true := by
    rw [hE4, blockHasTerm_buildInstr_self _ hE3ins (by omega)]
    rfl
  have hposins4 : (positionAtEnd E4 e.blocks.length).insert =
      some e.blocks.length := rfl
  have B5 := IH body (positionAtEnd E4 e.blocks.length) e.blocks.length hposins4
    (by show e.blocks.length < E4.blocks.length; omega) hE4inv
  set E5 := llvm_codegen_stmt m body (positionAtEnd E4 e.blocks.length) with hE5
  obtain ⟨inv5, len5, ⟨b5, hins5, hor5, hlt5⟩, frame5, frozen5, insb5⟩ := B5
  have hlen5' : e.blocks.length + 3 ≤ E5.blocks.length := by
    have hpb : (positionAtEnd E4 e.blocks.length).blocks.length =
        e.blocks.length + 3 := by
      show E4.blocks.length = _
      omega
    omega
  have frame5' : ∀ j, j < e.blocks.length + 3 → j ≠ e.blocks.length →
      E5.blocks.getD j ⟨[]⟩ = E4.blocks.getD j ⟨[]⟩ := by
    intro j hj1 hj2
    exact frame5 j (by show j < E4.blocks.length; omega) hj2
  have hbterm5 : blockHasTerm E5 b = true := by
    rw [blockHasTerm_congr (frame5' b (by omega) (by omega))]
    exact hE4b
  set E6 := if blockHasTerm E5 e.blocks.length then E5
            else buildInstr E5 (.br (e.blocks.length + 1)) with hE6
  have hE6facts : EmitInv E6 ∧ E6.blocks.length = E5.blocks.length ∧
      (∀ j, j < e.blocks.length + 3 → j ≠ e.blocks.length →
        E6.blocks.getD j ⟨[]⟩ = E4.blocks.getD j ⟨[]⟩) ∧
      blockHasTerm E6 b = true := by
    rw [hE6]
    by_cases hbt : blockHasTerm E5 e.blocks.length = true
    · rw [if_pos hbt]
      exact ⟨inv5, rfl, frame5', hbterm5⟩
    · rw [if_neg hbt]
      have hbt5 : blockHasTerm E5 e.blocks.length = false := by simpa using hbt
      have hinsb : E5.insert = some e.blocks.length := insb5 hbt5
      refine ⟨emitInv_buildInstr _ hinsb hbt5 inv5,
        (buildInstr_fields _ _).2.2.2.2, ?_, ?_⟩
      · intro j hj1 hj2
        rw [buildInstr_frame _ j hinsb hj2, frame5' j hj1 hj2]
      · rw [blockHasTerm_congr (buildInstr_frame _ b hinsb (by omega))]
        exact hbterm5
  obtain ⟨inv6, len6, frame6, bterm6⟩ := hE6facts
  have hposins6 : (positionAtEnd E6 (e.blocks.length + 1)).insert =
      some (e.blocks.length + 1) := rfl
  have hcondfresh : blockHasTerm (positionAtEnd E6 (e.blocks.length + 1))
      (e.blocks.length + 1) = false := by
    show blockHasTerm E6 (e.blocks.length + 1) = false
    rw [blockHasTerm_congr (frame6 (e.blocks.length + 1) (by omega) (by omega))]
    rw [blockHasTerm_congr (hE4getD (e.blocks.length + 1) (by omega))]
    unfold blockHasTerm
    rw [hE3fresh (e.blocks.length + 1) (by omega) (by omega)]
    rfl
  obtain ⟨c1, c2, c3, c4, c5, _, _, _⟩ := llvm_codegen_cond_ok cond
    (positionAtEnd E6 (e.blocks.length + 1)) (e.blocks.length + 1) hposins6
    (by show e.blocks.length + 1 < E6.blocks.length; omega) hcondfresh inv6
  set E7 := llvm_codegen_cond cond (positionAtEnd E6 (e.blocks.length + 1)) with hE7
  set E8 := buildInstr E7 (.condBr e.blocks.length (e.blocks.length + 2)) with hE8
  have hE8inv : EmitInv E8 := emitInv_buildInstr _ c2 c4 c1
  have hE7len : E7.blocks.length = E6.blocks.length := by
    rw [hE7, c3]
    rfl
  have hE8len : e.blocks.length + 3 ≤ E8.blocks.length := by
    rw [hE8, (buildInstr_fields _ _).2.2.2.2, hE7len]
    omega
  have hE8frame : ∀ j, j < e.blocks.length → j ≠ b →
      E8.blocks.getD j ⟨[]⟩ = e.blocks.getD j ⟨[]⟩ := by
    intro j hjl hjb
    rw [hE8, buildInstr_frame _ j c2 (by omega), hE7, c5 j (by omega)]
    show E6.blocks.getD j ⟨[]⟩ = e.blocks.getD j ⟨[]⟩
    rw [frame6 j (by omega) (by omega), hE4getD j hjb, hE3getD j hjl]
  have hE8b : blockHasTerm E8 b = true := by
    rw [hE8, blockHasTerm_congr (buildInstr_frame _ b c2 (by omega)),
      hE7, blockHasTerm_congr (c5 b (by omega))]
    show blockHasTerm E6 b = true
    exact bterm6
  refine ⟨emitInv_positionAtEnd hE8inv _, ?_, ?_, ?_, ?_, ?_⟩
  · show e.blocks.length ≤ (positionAtEnd E8 (e.blocks.length + 2)).blocks.length
    rw [positionAtEnd_blocks]
    omega
  · refine ⟨e.blocks.length + 2, positionAtEnd_insert _ _, Or.inr (by omega), ?_⟩
    rw [positionAtEnd_blocks]
    omega
  · intro j hjl hjb
    show E8.blocks.getD j ⟨[]⟩ = e.blocks.getD j ⟨[]⟩
    exact hE8frame j hjl hjb
  · intro hct
    rw [hct] at hterm
    exact absurd hterm (by simp)
  · intro hct
    exfalso
    have heq : blockHasTerm (positionAtEnd E8 (e.blocks.length + 2)) b
        = blockHasTerm E8 b := blockHasTerm_congr rfl
    rw [heq, hE8b] at hct
    exact absurd hct (by simp)


/-- The `AST_IF_STMT` case without an else branch. -/
theorem if_none_case_ok (m : Nat)
    (IH : ∀ (s : CStmt) (e : Emitter) (b : Nat), e.insert = some b →
      b < e.blocks.length → EmitInv e → StmtBundle e b (llvm_codegen_stmt m s e))
    (cond : CExpr) (thenS : CStmt) (e : Emitter) (b : Nat)
    (hins : e.insert = some b) (hb : b < e.blocks.length)
    (hterm : blockHasTerm e b = false) (hinv : EmitInv e) :
    StmtBundle e b (llvm_codegen_stmt (m + 1) (.ifStmt cond thenS none) e) := by
  have hne : ¬ ((match e.insert with
      | some bb => blockHasTerm e bb | none => false) = true) := by
    rw [hins]
    simp [hterm]
  rw [llvm_codegen_stmt, if_neg hne]
  dsimp only
  obtain ⟨a1, a2, a3, a4, a5, _, _, _⟩ := llvm_codegen_cond_ok cond e b hins hb hterm hinv
  set E1 := llvm_codegen_cond cond e with hE1
  have hthenidx : (appendBB E1).2 = e.blocks.length := by
    rw [appendBB_idx, a3]
  have hmergeidx : (appendBB (appendBB E1).1).2 = e.blocks.length + 1 := by
    rw [appendBB_idx, appendBB_len, a3]
  rw [hthenidx, hmergeidx]
  set E3 := (appendBB (appendBB E1).1).1 with hE3
  have hE3len : E3.blocks.length = e.blocks.length + 2 := by
    rw [hE3, appendBB_len, appendBB_len, a3]
  have hE3ins : E3.insert = some b := a2
  have hE3inv : EmitInv E3 := emitInv_appendBB (emitInv_appendBB a1)
  have hE3getD : ∀ j, j < e.blocks.length → j ≠ b →
      E3.blocks.getD j ⟨[]⟩ = e.blocks.getD j ⟨[]⟩ := by
    intro j hjl hjb
    rw [hE3, appendBB_getD_lt _ j (by rw [appendBB_len, a3]; omega),
      appendBB_getD_lt _ j (by rw [a3]; omega)]
    exact a5 j hjb
  have hE3termb : blockHasTerm E3 b = false := by
    have heq : E3.blocks.getD b ⟨[]⟩ = E1.blocks.getD b ⟨[]⟩ := by
      rw [hE3, appendBB_getD_lt _ b (by rw [appendBB_len, a3]; omega),
        appendBB_getD_lt _ b (by rw [a3]; omega)]
    rw [blockHasTerm_congr heq]
    exact a4
  have hE3fresh : ∀ k, e.blocks.length ≤ k → k < e.blocks.length + 2 →
      E3.blocks.getD k ⟨[]⟩ = ⟨[]⟩ := by
    intro k hk1 hk2
    rw [hE3]
    unfold appendBB
    simp only
    have heq : E1.blocks ++ [⟨[]⟩] ++ [(⟨[]⟩ : BB)] =
        E1.blocks ++ ([⟨[]⟩, ⟨[]⟩] : List BB) := by simp
    rw [heq]
    have hk3 : k = E1.blocks.length + (k - e.blocks.length) := by rw [a3]; omega
    rw [hk3, getD_append_add]
    have : k - e.blocks.length < 2 := by omega
    interval_cases h : (k - e.blocks.length) <;> rfl
  set E4 := buildInstr E3 (.condBr e.blocks.length (e.blocks.length + 1)) with hE4
  have hE4inv : EmitInv E4 := emitInv_buildInstr _ hE3ins hE3termb hE3inv
  have hE4len : E4.blocks.length = e.blocks.length + 2 := by
    rw [hE4, (buildInstr_fields _ _).2.2.2.2, hE3len]
  have hE4getD : ∀ j, j ≠ b →
      E4.blocks.getD j ⟨[]⟩ = E3.blocks.getD j ⟨[]⟩ := by
    intro j hj
    rw [hE4]
    exact buildInstr_frame _ j hE3ins hj
  have hE4b : blockHasTerm E4 b = true := by
    rw [hE4, blockHasTerm_buildInstr_self _ hE3ins (by omega)]
    rfl
  have hposins : (positionAtEnd E4 e.blocks.length).insert =
      some e.blocks.length := rfl
  have B5 := IH thenS (positionAtEnd E4 e.blocks.length) e.blocks.length hposins
    (by show e.blocks.length < E4.blocks.length; omega) hE4inv
  set E5 := llvm_codegen_stmt m thenS (positionAtEnd E4 e.blocks.length) with hE5
  obtain ⟨inv5, len5, ⟨b5, hins5, hor5, hlt5⟩, frame5, frozen5, insb5⟩ := B5
  have hlen5' : e.blocks.length + 2 ≤ E5.blocks.length := by
    have hpb : (positionAtEnd E4 e.blocks.length).blocks.length =
        e.blocks.length + 2 := by
      show E4.blocks.length = _
      omega
    omega
  have frame5' : ∀ j, j < e.blocks.length + 2 → j ≠ e.blocks.length →
      E5.blocks.getD j ⟨[]⟩ = E4.blocks.getD j ⟨[]⟩ := by
    intro j hj1 hj2
    exact frame5 j (by show j < E4.blocks.length; omega) hj2
  have hbterm5 : blockHasTerm E5 b = true := by
    rw [blockHasTerm_congr (frame5' b (by omega) (by omega))]
    exact hE4b
  set E6 := if blockHasTerm E5 e.blocks.length then E5
            else buildInstr E5 (.br (e.blocks.length + 1)) with hE6
  have hE6facts : EmitInv E6 ∧ E6.blocks.length = E5.blocks.length ∧
      (∀ j, j < e.blocks.length + 2 → j ≠ e.blocks.length →
        E6.blocks.getD j ⟨[]⟩ = E4.blocks.getD j ⟨[]⟩) ∧
      blockHasTerm E6 b = true := by
    rw [hE6]
    by_cases hbt : blockHasTerm E5 e.blocks.length = true
    · rw [if_pos hbt]
      exact ⟨inv5, rfl, frame5', hbterm5⟩
    · rw [if_neg hbt]
      have hbt5 : blockHasTerm E5 e.blocks.length = false := by simpa using hbt
      have hinsb : E5.insert = some e.blocks.length := insb5 hbt5
      refine ⟨emitInv_buildInstr _ hinsb hbt5 inv5,
        (buildInstr_fields _ _).2.2.2.2, ?_, ?_⟩
      · intro j hj1 hj2
        rw [buildInstr_frame _ j hinsb hj2, frame5' j hj1 hj2]
      · rw [blockHasTerm_congr (buildInstr_frame _ b hinsb (by omega))]
        exact hbterm5
  obtain ⟨inv6, len6, frame6, bterm6⟩ := hE6facts
  refine ⟨emitInv_positionAtEnd inv6 _, ?_, ?_, ?_, ?_, ?_⟩
  · show e.blocks.length ≤ (positionAtEnd E6 (e.blocks.length + 1)).blocks.length
    rw [positionAtEnd_blocks]
    omega
  · refine ⟨e.blocks.length + 1, positionAtEnd_insert _ _, Or.inr (by omega), ?_⟩
    rw [positionAtEnd_blocks]
    omega
  · intro j hjl hjb
    show E6.blocks.getD j ⟨[]⟩ = e.blocks.getD j ⟨[]⟩
    rw [frame6 j (by omega) (by omega), hE4getD j hjb, hE3getD j hjl hjb]
  · intro hct
    rw [hct] at hterm
    exact absurd hterm (by simp)
  · intro hct
    exfalso
    have heq : blockHasTerm (positionAtEnd E6 (e.blocks.length + 1)) b
        = blockHasTerm E6 b := blockHasTerm_congr rfl
    rw [heq, bterm6] at hct
    exact absurd hct (by simp)


/-- The `AST_IF_STMT` case with an else branch. -/
theorem if_some_case_ok (m : Nat)
    (IH : ∀ (s : CStmt) (e : Emitter) (b : Nat), e.insert = some b →
      b < e.blocks.length → EmitInv e → StmtBundle e b (llvm_codegen_stmt m s e))
    (cond : CExpr) (thenS els : CStmt) (e : Emitter) (b : Nat)
    (hins : e.insert = some b) (hb : b < e.blocks.length)
    (hterm : blockHasTerm e b = false) (hinv : EmitInv e) :
    StmtBundle e b (llvm_codegen_stmt (m + 1) (.ifStmt cond thenS (some els)) e) := by
  have hne : ¬ ((match e.insert with
      | some bb => blockHasTerm e bb | none => false) = true) := by
    rw [hins]
    simp [hterm]
  rw [llvm_codegen_stmt, if_neg hne]
  dsimp only
  obtain ⟨a1, a2, a3, a4, a5, _, _, _⟩ := llvm_codegen_cond_ok cond e b hins hb hterm hinv
  set E1 := llvm_codegen_cond cond e with hE1
  have hthenidx : (appendBB E1).2 = e.blocks.length := by
    rw [appendBB_idx, a3]
  have helseidx : (appendBB (appendBB E1).1).2 = e.blocks.length + 1 := by
    rw [appendBB_idx, appendBB_len, a3]
  have hmergeidx : (appendBB (appendBB (appendBB E1).1).1).2 = e.blocks.length + 2 := by
    rw [appendBB_idx, appendBB_len, appendBB_len, a3]
  rw [hthenidx, helseidx, hmergeidx]
  set E3 := (appendBB (appendBB (appendBB E1).1).1).1 with hE3
  have hE3len : E3.blocks.length = e.blocks.length + 3 := by
    rw [hE3, appendBB_len, appendBB_len, appendBB_len, a3]
  have hE3ins : E3.insert = some b := a2
  have hE3inv : EmitInv E3 := emitInv_appendBB (emitInv_appendBB (emitInv_appendBB a1))
  have hE3getD : ∀ j, j < e.blocks.length → j ≠ b →
      E3.blocks.getD j ⟨[]⟩ = e.blocks.getD j ⟨[]⟩ := by
    intro j hjl hjb
    rw [hE3, appendBB_getD_lt _ j (by rw [appendBB_len, appendBB_len, a3]; omega),
      appendBB_getD_lt _ j (by rw [appendBB_len, a3]; omega),
      appendBB_getD_lt _ j (by rw [a3]; omega)]
    exact a5 j hjb
  have hE3termb : blockHasTerm E3 b = false := by
    have heq : E3.blocks.getD b ⟨[]⟩ = E1.blocks.getD b ⟨[]⟩ := by
      rw [hE3, appendBB_getD_lt _ b (by rw [appendBB_len, appendBB_len, a3]; omega),
        appendBB_getD_lt _ b (by rw [appendBB_len, a3]; omega),
        appendBB_getD_lt _ b (by rw [a3]; omega)]
    rw [blockHasTerm_congr heq]
    exact a4
  have hE3fresh : ∀ k, e.blocks.length ≤ k → k < e.blocks.length + 3 →
      E3.blocks.getD k ⟨[]⟩ = ⟨[]⟩ := by
    intro k hk1 hk2
    rw [hE3]
    unfold appendBB
    simp only
    have heq : E1.blocks ++ [⟨[]⟩] ++ [⟨[]⟩] ++ [(⟨[]⟩ : BB)] =
        E1.blocks ++ ([⟨[]⟩, ⟨[]⟩, ⟨[]⟩] : List BB) := by simp
    rw [heq]
    have hk3 : k = E1.blocks.length + (k - e.blocks.length) := by rw [a3]; omega
    rw [hk3, getD_append_add]
    have : k - e.blocks.length < 3 := by omega
    interval_cases h : (k - e.blocks.length) <;> rfl
  set E4 := buildInstr E3 (.condBr e.blocks.length (e.blocks.length + 1)) with hE4
  have hE4inv : EmitInv E4 := emitInv_buildInstr _ hE3ins hE3termb hE3inv
  have hE4len : E4.blocks.length = e.blocks.length + 3 := by
    rw [hE4, (buildInstr_fields _ _).2.2.2.2, hE3len]
  have hE4getD : ∀ j, j ≠ b →
      E4.blocks.getD j ⟨[]⟩ = E3.blocks.getD j ⟨[]⟩ := by
    intro j hj
    rw [hE4]
    exact buildInstr_frame _ j hE3ins hj
  have hE4b : blockHasTerm E4 b = true := by
    rw [hE4, blockHasTerm_buildInstr_self _ hE3ins (by omega)]
    rfl
  -- the then branch
  have hposins : (positionAtEnd E4 e.blocks.length).insert =
      some e.blocks.length := rfl
  have B6 := IH thenS (positionAtEnd E4 e.blocks.length) e.blocks.length hposins
    (by show e.blocks.length < E4.blocks.length; omega) hE4inv
  set E6 := llvm_codegen_stmt m thenS (positionAtEnd E4 e.blocks.length) with hE6
  obtain ⟨inv6, len6, ⟨b6, hins6, hor6, hlt6⟩, frame6, frozen6, insb6⟩ := B6
  have hlen6' : e.blocks.length + 3 ≤ E6.blocks.length := by
    have hpb : (positionAtEnd E4 e.blocks.length).blocks.length =
        e.blocks.length + 3 := by
      show E4.blocks.length = _
      omega
    omega
  have frame6' : ∀ j, j < e.blocks.length + 3 → j ≠ e.blocks.length →
      E6.blocks.getD j ⟨[]⟩ = E4.blocks.getD j ⟨[]⟩ := by
    intro j hj1 hj2
    exact frame6 j (by show j < E4.blocks.length; omega) hj2
  have hbterm6 : blockHasTerm E6 b = true := by
    rw [blockHasTerm_congr (frame6' b (by omega) (by omega))]
    exact hE4b
  -- the fall-through branch to merge after then
  set E7 := if blockHasTerm E6 e.blocks.length then E6
            else buildInstr E6 (.br (e.blocks.length + 2)) with hE7
  have hE7facts : EmitInv E7 ∧ E7.blocks.length = E6.blocks.length ∧
      (∀ j, j < e.blocks.length + 3 → j ≠ e.blocks.length →
        E7.blocks.getD j ⟨[]⟩ = E4.blocks.getD j ⟨[]⟩) ∧
      blockHasTerm E7 b = true := by
    rw [hE7]
    by_cases hbt : blockHasTerm E6 e.blocks.length = true
    · rw [if_pos hbt]
      exact ⟨inv6, rfl, frame6', hbterm6⟩
    · rw [if_neg hbt]
      have hbt6 : blockHasTerm E6 e.blocks.length = false := by simpa using hbt
      have hinsb : E6.insert = some e.blocks.length := insb6 hbt6
      refine ⟨emitInv_buildInstr _ hinsb hbt6 inv6,
        (buildInstr_fields _ _).2.2.2.2, ?_, ?_⟩
      · intro j hj1 hj2
        rw [buildInstr_frame _ j hinsb hj2, frame6' j hj1 hj2]
      · rw [blockHasTerm_congr (buildInstr_frame _ b hinsb (by omega))]
        exact hbterm6
  obtain ⟨inv7, len7, frame7, bterm7⟩ := hE7facts
  -- the else branch, lowered from the untouched else block
  have hposins7 : (positionAtEnd E7 (e.blocks.length + 1)).insert =
      some (e.blocks.length + 1) := rfl
  have B8 := IH els (positionAtEnd E7 (e.blocks.length + 1)) (e.blocks.length + 1)
    hposins7 (by show e.blocks.length + 1 < E7.blocks.length; omega) inv7
  set E8 := llvm_codegen_stmt m els (positionAtEnd E7 (e.blocks.length + 1)) with hE8
  obtain ⟨inv8, len8, ⟨b8, hins8, hor8, hlt8⟩, frame8, frozen8, insb8⟩ := B8
  have hlen8' : e.blocks.length + 3 ≤ E8.blocks.length := by
    have hpb : (positionAtEnd E7 (e.blocks.length + 1)).blocks.length =
        E7.blocks.length := rfl
    omega
  have frame8' : ∀ j, j < e.blocks.length + 3 → j ≠ e.blocks.length + 1 →
      E8.blocks.getD j ⟨[]⟩ = E7.blocks.getD j ⟨[]⟩ := by
    intro j hj1 hj2
    exact frame8 j (by show j < E7.blocks.length; omega) hj2
  have hbterm8 : blockHasTerm E8 b = true := by
    rw [blockHasTerm_congr (frame8' b (by omega) (by omega))]
    exact bterm7
  have helseterm8 : blockHasTerm E8 (e.blocks.length + 1) = false →
      E8.insert = some (e.blocks.length + 1) := insb8
  set E9 := if blockHasTerm E8 (e.blocks.length + 1) then E8
            else buildInstr E8 (.br (e.blocks.length + 2)) with hE9
  have hE9facts : EmitInv E9 ∧ E9.blocks.length = E8.blocks.length ∧
      (∀ j, j < e.blocks.length + 3 → j ≠ e.blocks.length →
        j ≠ e.blocks.length + 1 → E9.blocks.getD j ⟨[]⟩ = E4.blocks.getD j ⟨[]⟩) ∧
      blockHasTerm E9 b = true := by
    rw [hE9]
    by_cases hbt : blockHasTerm E8 (e.blocks.length + 1) = true
    · rw [if_pos hbt]
      refine ⟨inv8, rfl, ?_, hbterm8⟩
      intro j hj1 hj2 hj3
      rw [frame8' j hj1 hj3, frame7 j hj1 hj2]
    · rw [if_neg hbt]
      have hbt8 : blockHasTerm E8 (e.blocks.length + 1) = false := by simpa using hbt
      have hinsb : E8.insert = some (e.blocks.length + 1) := insb8 hbt8
      refine ⟨emitInv_buildInstr _ hinsb hbt8 inv8,
        (buildInstr_fields _ _).2.2.2.2, ?_, ?_⟩
      · intro j hj1 hj2 hj3
        rw [buildInstr_frame _ j hinsb hj3, frame8' j hj1 hj3, frame7 j hj1 hj2]
      · rw [blockHasTerm_congr (buildInstr_frame _ b hinsb (by omega))]
        exact hbterm8
  obtain ⟨inv9, len9, frame9, bterm9⟩ := hE9facts
  refine ⟨emitInv_positionAtEnd inv9 _, ?_, ?_, ?_, ?_, ?_⟩
  · show e.blocks.length ≤ (positionAtEnd E9 (e.blocks.length + 2)).blocks.length
    rw [positionAtEnd_blocks]
    omega
  · refine ⟨e.blocks.length + 2, positionAtEnd_insert _ _, Or.inr (by omega), ?_⟩
    rw [positionAtEnd_blocks]
    omega
  · intro j hjl hjb
    show E9.blocks.getD j ⟨[]⟩ = e.blocks.getD j ⟨[]⟩
    rw [frame9 j (by omega) (by omega) (by omega), hE4getD j hjb, hE3getD j hjl hjb]
  · intro hct
    rw [hct] at hterm
    exact absurd hterm (by simp)
  · intro hct
    exfalso
    have heq : blockHasTerm (positionAtEnd E9 (e.blocks.length + 2)) b
        = blockHasTerm E9 b := blockHasTerm_congr rfl
    rw [heq, bterm9] at hct
    exact absurd hct (by simp)


/-- The `AST_FOR_STMT` case. -/
theorem for_case_ok (m : Nat)
    (IH : ∀ (s : CStmt) (e : Emitter) (b : Nat), e.insert = some b →
      b < e.blocks.length → EmitInv e → StmtBundle e b (llvm_codegen_stmt m s e))
    (init cond inc : Option CExpr) (body : CStmt) (e : Emitter) (b : Nat)
    (hins : e.insert = some b) (hb : b < e.blocks.length)
    (hterm : blockHasTerm e b = false) (hinv : EmitInv e) :
    StmtBundle e b (llvm_codegen_stmt (m + 1) (.forStmt init cond inc body) e) := by
  have hne : ¬ ((match e.insert with
      | some bb => blockHasTerm e bb | none => false) = true) := by
    rw [hins]
    simp [hterm]
  rw [llvm_codegen_stmt, if_neg hne]
  dsimp only
  obtain ⟨o1, o2, o3, o4, o5⟩ := codegen_opt_expr_ok init e b hins hb hterm hinv
  set E0 := codegen_opt_expr init e with hE0
  have hcondidx : (appendBB E0).2 = e.blocks.length := by
    rw [appendBB_idx, o3]
  have hbodyidx : (appendBB (appendBB E0).1).2 = e.blocks.length + 1 := by
    rw [appendBB_idx, appendBB_len, o3]
  have hincidx : (appendBB (appendBB (appendBB E0).1).1).2 = e.blocks.length + 2 := by
    rw [appendBB_idx, appendBB_len, appendBB_len, o3]
  have hendidx : (appendBB (appendBB (appendBB (appendBB E0).1).1).1).2 =
      e.blocks.length + 3 := by
    rw [appendBB_idx, appendBB_len, appendBB_len, appendBB_len, o3]
  rw [hcondidx, hbodyidx, hincidx, hendidx]
  set E4 := (appendBB (appendBB (appendBB (appendBB E0).1).1).1).1 with hE4
  have hE4len : E4.blocks.length = e.blocks.length + 4 := by
    rw [hE4, appendBB_len, appendBB_len, appendBB_len, appendBB_len, o3]
  have hE4ins : E4.insert = some b := o2
  have hE4inv : EmitInv E4 :=
    emitInv_appendBB (emitInv_appendBB (emitInv_appendBB (emitInv_appendBB o1)))
  have hE4getD : ∀ j, j < e.blocks.length → j ≠ b →
      E4.blocks.getD j ⟨[]⟩ = e.blocks.getD j ⟨[]⟩ := by
    intro j hjl hjb
    rw [hE4,
      appendBB_getD_lt _ j (by rw [appendBB_len, appendBB_len, appendBB_len, o3]; omega),
      appendBB_getD_lt _ j (by rw [appendBB_len, appendBB_len, o3]; omega),
      appendBB_getD_lt _ j (by rw [appendBB_len, o3]; omega),
      appendBB_getD_lt _ j (by rw [o3]; omega)]
    exact o5 j hjb
  have hE4termb : blockHasTerm E4 b = false := by
    have heq : E4.blocks.getD b ⟨[]⟩ = E0.blocks.getD b ⟨[]⟩ := by
      rw [hE4,
        appendBB_getD_lt _ b (by rw [appendBB_len, appendBB_len, appendBB_len, o3]; omega),
        appendBB_getD_lt _ b (by rw [appendBB_len, appendBB_len, o3]; omega),
        appendBB_getD_lt _ b (by rw [appendBB_len, o3]; omega),
        appendBB_getD_lt _ b (by rw [o3]; omega)]
    rw [blockHasTerm_congr heq]
    exact o4
  have hE4fresh : ∀ k, e.blocks.length ≤ k → k < e.blocks.length + 4 →
      E4.blocks.getD k ⟨[]⟩ = ⟨[]⟩ := by
    intro k hk1 hk2
    rw [hE4]
    unfold appendBB
    simp only
    have heq : E0.blocks ++ [⟨[]⟩] ++ [⟨[]⟩] ++ [⟨[]⟩] ++ [(⟨[]⟩ : BB)] =
        E0.blocks ++ ([⟨[]⟩, ⟨[]⟩, ⟨[]⟩, ⟨[]⟩] : List BB) := by simp
    rw [heq]
    have hk3 : k = E0.blocks.length + (k - e.blocks.length) := by rw [o3]; omega
    rw [hk3, getD_append_add]
    have : k - e.blocks.length < 4 := by omega
    interval_cases h : (k - e.blocks.length) <;> rfl
  set E5 := buildInstr E4 (.br e.blocks.length) with hE5
  have hE5inv : EmitInv E5 := emitInv_buildInstr _ hE4ins hE4termb hE4inv
  have hE5len : E5.blocks.length = e.blocks.length + 4 := by
    rw [hE5, (buildInstr_fields _ _).2.2.2.2, hE4len]
  have hE5getD : ∀ j, j ≠ b →
      E5.blocks.getD j ⟨[]⟩ = E4.blocks.getD j ⟨[]⟩ := by
    intro j hj
    rw [hE5]
    exact buildInstr_frame _ j hE4ins hj
  have hE5b : blockHasTerm E5 b = true := by
    rw [hE5, blockHasTerm_buildInstr_self _ hE4ins (by omega)]
    rfl
  -- the condition stage in for.cond
  have hposins5 : (positionAtEnd E5 e.blocks.length).insert =
      some e.blocks.length := rfl
  have hcondfresh : blockHasTerm (positionAtEnd E5 e.blocks.length)
      e.blocks.length = false := by
    show blockHasTerm E5 e.blocks.length = false
    rw [blockHasTerm_congr (hE5getD e.blocks.length (by omega))]
    unfold blockHasTerm
    rw [hE4fresh e.blocks.length (le_refl _) (by omega)]
    rfl
  obtain ⟨c1, c2, c3, c4, c5⟩ := codegen_for_cond_ok cond
    (positionAtEnd E5 e.blocks.length) (e.blocks.length + 1) (e.blocks.length + 3)
    e.blocks.length hposins5
    (by show e.blocks.length < E5.blocks.length; omega) hcondfresh hE5inv
  set E6 := codegen_for_cond cond (positionAtEnd E5 e.blocks.length)
    (e.blocks.length + 1) (e.blocks.length + 3) with hE6
  have hE6len : E6.blocks.length = e.blocks.length + 4 := by
    rw [hE6, c3]
    show E5.blocks.length = _
    omega
  have hE6getD : ∀ j, j ≠ e.blocks.length →
      E6.blocks.getD j ⟨[]⟩ = E5.blocks.getD j ⟨[]⟩ := by
    intro j hj
    rw [hE6, c5 j hj]
    rfl
  -- the body, with the for loop context
  set E7 := { positionAtEnd E6 (e.blocks.length + 1) with
              loop_continue_block := some (e.blocks.length + 2),
              loop_break_block := some (e.blocks.length + 3) } with hE7
  have hE7ins : E7.insert = some (e.blocks.length + 1) := rfl
  have hE7len : E7.blocks.length = e.blocks.length + 4 := by
    show E6.blocks.length = _
    exact hE6len
  have hE7inv : EmitInv E7 := by
    intro bb hbb
    exact c1 bb hbb
  have B8 := IH body E7 (e.blocks.length + 1) hE7ins (by omega) hE7inv
  set E8 := llvm_codegen_stmt m body E7 with hE8
  obtain ⟨inv8, len8, ⟨b8, hins8, hor8, hlt8⟩, frame8, frozen8, insb8⟩ := B8
  have hlen8' : e.blocks.length + 4 ≤ E8.blocks.length := by omega
  have frame8' : ∀ j, j < e.blocks.length + 4 → j ≠ e.blocks.length + 1 →
      E8.blocks.getD j ⟨[]⟩ = E6.blocks.getD j ⟨[]⟩ := by
    intro j hj1 hj2
    have := frame8 j (by omega) hj2
    exact this
  set E9 := { E8 with loop_continue_block := e.loop_continue_block,
                      loop_break_block := e.loop_break_block } with hE9
  have hE9getD : ∀ j, E9.blocks.getD j ⟨[]⟩ = E8.blocks.getD j ⟨[]⟩ := fun _ => rfl
  have hE9ins : E9.insert = E8.insert := rfl
  have hE9inv : EmitInv E9 := by intro bb hbb; exact inv8 bb hbb
  have hE9len : E9.blocks.length = E8.blocks.length := rfl
  have hE9term : ∀ j, blockHasTerm E9 j = blockHasTerm E8 j := by
    intro j
    exact blockHasTerm_congr (hE9getD j)
  set E10 := if blockHasTerm E9 (e.blocks.length + 1) then E9
             else buildInstr E9 (.br (e.blocks.length + 2)) with hE10
  have hE10facts : EmitInv E10 ∧ E10.blocks.length = E9.blocks.length ∧
      (∀ j, j < e.blocks.length + 4 → j ≠ e.blocks.length + 1 →
        E10.blocks.getD j ⟨[]⟩ = E6.blocks.getD j ⟨[]⟩) := by
    rw [hE10]
    by_cases hbt : blockHasTerm E9 (e.blocks.length + 1) = true
    · rw [if_pos hbt]
      refine ⟨hE9inv, rfl, ?_⟩
      intro j hj1 hj2
      rw [hE9getD j, frame8' j hj1 hj2]
    · rw [if_neg hbt]
      have hbt9 : blockHasTerm E9 (e.blocks.length + 1) = false := by simpa using hbt
      have hinsb : E9.insert = some (e.blocks.length + 1) := by
        rw [hE9ins]
        refine insb8 ?_
        rw [← hE9term]
        exact hbt9
      refine ⟨emitInv_buildInstr _ hinsb hbt9 hE9inv,
        (buildInstr_fields _ _).2.2.2.2, ?_⟩
      intro j hj1 hj2
      rw [buildInstr_frame _ j hinsb hj2, hE9getD j, frame8' j hj1 hj2]
  obtain ⟨inv10, len10, frame10⟩ := hE10facts
  have hlen10 : e.blocks.length + 4 ≤ E10.blocks.length := by omega
  -- the increment stage in for.inc
  have hposins10 : (positionAtEnd E10 (e.blocks.length + 2)).insert =
      some (e.blocks.length + 2) := rfl
  have hincfresh : blockHasTerm (positionAtEnd E10 (e.blocks.length + 2))
      (e.blocks.length + 2) = false := by
    show blockHasTerm E10 (e.blocks.length + 2) = false
    rw [blockHasTerm_congr (frame10 (e.blocks.length + 2) (by omega) (by omega))]
    rw [blockHasTerm_congr (hE6getD (e.blocks.length + 2) (by omega))]
    rw [blockHasTerm_congr (hE5getD (e.blocks.length + 2) (by omega))]
    unfold blockHasTerm
    rw [hE4fresh (e.blocks.length + 2) (by omega) (by omega)]
    rfl
  obtain ⟨q1, q2, q3, q4, q5⟩ := codegen_opt_expr_ok inc
    (positionAtEnd E10 (e.blocks.length + 2)) (e.blocks.length + 2) hposins10
    (by show e.blocks.length + 2 < E10.blocks.length; omega) hincfresh inv10
  set E11 := codegen_opt_expr inc (positionAtEnd E10 (e.blocks.length + 2)) with hE11
  set E12 := buildInstr E11 (.br e.blocks.length) with hE12
  have hE12inv : EmitInv E12 := emitInv_buildInstr _ q2 q4 q1
  have hE11len : E11.blocks.length = E10.blocks.length := by
    rw [hE11, q3]
    rfl
  have hE12len : e.blocks.length + 4 ≤ E12.blocks.length := by
    rw [hE12, (buildInstr_fields _ _).2.2.2.2, hE11len]
    omega
  have hE12frame : ∀ j, j < e.blocks.length → j ≠ b →
      E12.blocks.getD j ⟨[]⟩ = e.blocks.getD j ⟨[]⟩ := by
    intro j hjl hjb
    rw [hE12, buildInstr_frame _ j q2 (by omega), hE11, q5 j (by omega)]
    show E10.blocks.getD j ⟨[]⟩ = e.blocks.getD j ⟨[]⟩
    rw [frame10 j (by omega) (by omega), hE6getD j (by omega), hE5getD j hjb,
      hE4getD j hjl hjb]
  have hE12b : blockHasTerm E12 b = true := by
    rw [hE12, blockHasTerm_congr (buildInstr_frame _ b q2 (by omega)),
      hE11, blockHasTerm_congr (q5 b (by omega))]
    show blockHasTerm E10 b = true
    rw [blockHasTerm_congr (frame10 b (by omega) (by omega))]
    rw [blockHasTerm_congr (hE6getD b (by omega))]
    exact hE5b
  refine ⟨emitInv_positionAtEnd hE12inv _, ?_, ?_, ?_, ?_, ?_⟩
  · show e.blocks.length ≤ (positionAtEnd E12 (e.blocks.length + 3)).blocks.length
    rw [positionAtEnd_blocks]
    omega
  · refine ⟨e.blocks.length + 3, positionAtEnd_insert _ _, Or.inr (by omega), ?_⟩
    rw [positionAtEnd_blocks]
    omega
  · intro j hjl hjb
    show E12.blocks.getD j ⟨[]⟩ = e.blocks.getD j ⟨[]⟩
    exact hE12frame j hjl hjb
  · intro hct
    rw [hct] at hterm
    exact absurd hterm (by simp)
  · intro hct
    exfalso
    have heq : blockHasTerm (positionAtEnd E12 (e.blocks.length + 3)) b
        = blockHasTerm E12 b := blockHasTerm_congr rfl
    rw [heq, hE12b] at hct
    exact absurd hct (by simp)


/-- The terminator entry guard: a statement starting on a block that
already has its terminator does nothing. -/
theorem llvm_codegen_stmt_guard (m : Nat) (s : CStmt) (e : Emitter) (b : Nat)
    (hins : e.insert = some b) (hguard : blockHasTerm e b = true) :
    llvm_codegen_stmt (m + 1) s e = e := by
  have hyes : (match e.insert with
      | some bb => blockHasTerm e bb | none => false) = true := by
    rw [hins]
    exact hguard
  cases s
  case retStmt xo =>
    cases xo <;> rw [llvm_codegen_stmt, if_pos hyes]
  all_goals rw [llvm_codegen_stmt, if_pos hyes]

/-- The statement-lowering bundle, for every statement of the fragment,
every fuel (i.e. every recursion depth), and every well-formed start
state. -/
theorem llvm_codegen_stmt_ok :
    ∀ (fuel : Nat) (s : CStmt) (e : Emitter) (b : Nat),
      e.insert = some b → b < e.blocks.length → EmitInv e →
      StmtBundle e b (llvm_codegen_stmt fuel s e) := by
  intro fuel
  induction fuel with
  | zero =>
    intro s e b hins hb hinv
    exact stmtBundle_id e b hins hb hinv
  | succ m ih =>
    intro s e b hins hb hinv
    by_cases hguard : blockHasTerm e b = true
    · rw [llvm_codegen_stmt_guard m s e b hins hguard]
      exact stmtBundle_id e b hins hb hinv
    · have hterm : blockHasTerm e b = false := by simpa using hguard
      have hne : ¬ ((match e.insert with
          | some bb => blockHasTerm e bb | none => false) = true) := by
        rw [hins]
        simp [hterm]
      cases s with
      | compound ss =>
        have hstep : llvm_codegen_stmt (m + 1) (.compound ss) e =
            ss.foldl (fun acc s1 => llvm_codegen_stmt m s1 acc) e := by
          rw [llvm_codegen_stmt, if_neg hne]
        rw [hstep]
        exact llvm_codegen_stmt_list_ok m ih ss e b hins hb hinv
      | exprStmt x =>
        have hstep : llvm_codegen_stmt (m + 1) (.exprStmt x) e =
            llvm_codegen_expr x e := by
          rw [llvm_codegen_stmt, if_neg hne]
        rw [hstep]
        obtain ⟨a1, a2, a3, a4, a5, _, _, _⟩ :=
          llvm_codegen_expr_ok x e b hins hb hterm hinv
        exact ⟨a1, le_of_eq a3.symm, ⟨b, a2, Or.inl rfl, by omega⟩,
          fun j _ hj => a5 j hj, fun hc => absurd hc (by simp [hterm]),
          fun _ => a2⟩
      | retStmt xo =>
        cases xo with
        | some x =>
          have hstep : llvm_codegen_stmt (m + 1) (.retStmt (some x)) e =
              buildInstr (llvm_codegen_expr x e) .ret := by
            rw [llvm_codegen_stmt, if_neg hne]
          rw [hstep]
          obtain ⟨a1, a2, a3, a4, a5, _, _, _⟩ :=
            llvm_codegen_expr_ok x e b hins hb hterm hinv
          refine ⟨emitInv_buildInstr _ a2 a4 a1, ?_, ?_, ?_, ?_, ?_⟩
          · rw [(buildInstr_fields _ _).2.2.2.2]
            omega
          · refine ⟨b, ?_, Or.inl rfl, ?_⟩
            · rw [(buildInstr_fields _ _).1, a2]
            · rw [(buildInstr_fields _ _).2.2.2.2]
              omega
          · intro j _ hj
            rw [buildInstr_frame _ j a2 hj, a5 j hj]
          · intro hc
            exact absurd hc (by simp [hterm])
          · intro _
            rw [(buildInstr_fields _ _).1, a2]
        | none =>
          have hstep : llvm_codegen_stmt (m + 1) (.retStmt none) e =
              buildInstr e .retVoid := by
            rw [llvm_codegen_stmt, if_neg hne]
          rw [hstep]
          refine ⟨emitInv_buildInstr _ hins hterm hinv, ?_, ?_, ?_, ?_, ?_⟩
          · rw [(buildInstr_fields _ _).2.2.2.2]
          · refine ⟨b, ?_, Or.inl rfl, ?_⟩
            · rw [(buildInstr_fields _ _).1, hins]
            · rw [(buildInstr_fields _ _).2.2.2.2]
              omega
          · intro j _ hj
            exact buildInstr_frame _ j hins hj
          · intro hc
            exact absurd hc (by simp [hterm])
          · intro _
            rw [(buildInstr_fields _ _).1, hins]
      | varDecl io =>
        cases io with
        | none =>
          have hstep : llvm_codegen_stmt (m + 1) (.varDecl none) e =
              buildInstr e .nonterm := by
            rw [llvm_codegen_stmt, if_neg hne]
          rw [hstep]
          refine ⟨emitInv_buildInstr _ hins hterm hinv, ?_, ?_, ?_, ?_, ?_⟩
          · rw [(buildInstr_fields _ _).2.2.2.2]
          · refine ⟨b, ?_, Or.inl rfl, ?_⟩
            · rw [(buildInstr_fields _ _).1, hins]
            · rw [(buildInstr_fields _ _).2.2.2.2]
              omega
          · intro j _ hj
            exact buildInstr_frame _ j hins hj
          · intro hc
            exact absurd hc (by simp [hterm])
          · intro _
            rw [(buildInstr_fields _ _).1, hins]
        | some x =>
          have hstep : llvm_codegen_stmt (m + 1) (.varDecl (some x)) e =
              buildInstr (llvm_codegen_expr x (buildInstr e .nonterm)) .nonterm := by
            rw [llvm_codegen_stmt, if_neg hne]
          rw [hstep]
          have h1inv : EmitInv (buildInstr e .nonterm) :=
            emitInv_buildInstr _ hins hterm hinv
          have h1ins : (buildInstr e .nonterm).insert = some b := by
            rw [(buildInstr_fields _ _).1, hins]
          have h1len : (buildInstr e .nonterm).blocks.length = e.blocks.length :=
            (buildInstr_fields _ _).2.2.2.2
          have h1term : blockHasTerm (buildInstr e .nonterm) b = false := by
            rw [blockHasTerm_buildInstr_self _ hins hb]
            rfl
          obtain ⟨a1, a2, a3, a4, a5, _, _, _⟩ :=
            llvm_codegen_expr_ok x (buildInstr e .nonterm) b h1ins (by omega)
              h1term h1inv
          refine ⟨emitInv_buildInstr _ a2 a4 a1, ?_, ?_, ?_, ?_, ?_⟩
          · rw [(buildInstr_fields _ _).2.2.2.2]
            omega
          · refine ⟨b, ?_, Or.inl rfl, ?_⟩
            · rw [(buildInstr_fields _ _).1, a2]
            · rw [(buildInstr_fields _ _).2.2.2.2]
              omega
          · intro j _ hj
            rw [buildInstr_frame _ j a2 hj, a5 j hj,
              buildInstr_frame _ j hins hj]
          · intro hc
            exact absurd hc (by simp [hterm])
          · intro _
            rw [(buildInstr_fields _ _).1, a2]
      | ifStmt cond thenS elseS =>
        cases elseS with
        | none => exact if_none_case_ok m ih cond thenS e b hins hb hterm hinv
        | some els => exact if_some_case_ok m ih cond thenS els e b hins hb hterm hinv
      | whileStmt cond body =>
        exact while_case_ok m ih cond body e b hins hb hterm hinv
      | forStmt init cond inc body =>
        exact for_case_ok m ih init cond inc body e b hins hb hterm hinv
      | doWhileStmt body cond =>
        exact dowhile_case_ok m ih body cond e b hins hb hterm hinv
      | breakStmt =>
        cases hlb : e.loop_break_block with
        | some t =>
          have hstep : llvm_codegen_stmt (m + 1) .breakStmt e =
              buildInstr e (.br t) := by
            rw [llvm_codegen_stmt, if_neg hne, hlb]
          rw [hstep]
          refine ⟨emitInv_buildInstr _ hins hterm hinv, ?_, ?_, ?_, ?_, ?_⟩
          · rw [(buildInstr_fields _ _).2.2.2.2]
          · refine ⟨b, ?_, Or.inl rfl, ?_⟩
            · rw [(buildInstr_fields _ _).1, hins]
            · rw [(buildInstr_fields _ _).2.2.2.2]
              omega
          · intro j _ hj
            exact buildInstr_frame _ j hins hj
          · intro hc
            exact absurd hc (by simp [hterm])
          · intro _
            rw [(buildInstr_fields _ _).1, hins]
        | none =>
          have hstep : llvm_codegen_stmt (m + 1) .breakStmt e =
              buildInstr (codegen_set_error e "break statement outside of loop")
                .unreachable := by
            rw [llvm_codegen_stmt, if_neg hne, hlb]
          rw [hstep]
          have hins1 : (codegen_set_error e "break statement outside of loop").insert
              = some b := hins
          have hterm1 : blockHasTerm
              (codegen_set_error e "break statement outside of loop") b = false := hterm
          have hinv1 : EmitInv (codegen_set_error e "break statement outside of loop") := by
            intro bb hbb
            exact hinv bb hbb
          refine ⟨emitInv_buildInstr _ hins1 hterm1 hinv1, ?_, ?_, ?_, ?_, ?_⟩
          · rw [(buildInstr_fields _ _).2.2.2.2]
            show e.blocks.length ≤ e.blocks.length
            omega
          · refine ⟨b, ?_, Or.inl rfl, ?_⟩
            · rw [(buildInstr_fields _ _).1, hins1]
            · rw [(buildInstr_fields _ _).2.2.2.2]
              show b < e.blocks.length
              omega
          · intro j _ hj
            rw [buildInstr_frame _ j hins1 hj]
            rfl
          · intro hc
            exact absurd hc (by simp [hterm])
          · intro _
            rw [(buildInstr_fields _ _).1, hins1]
      | continueStmt =>
        cases hlb : e.loop_continue_block with
        | some t =>
          have hstep : llvm_codegen_stmt (m + 1) .continueStmt e =
              buildInstr e (.br t) := by
            rw [llvm_codegen_stmt, if_neg hne, hlb]
          rw [hstep]
          refine ⟨emitInv_buildInstr _ hins hterm hinv, ?_, ?_, ?_, ?_, ?_⟩
          · rw [(buildInstr_fields _ _).2.2.2.2]
          · refine ⟨b, ?_, Or.inl rfl, ?_⟩
            · rw [(buildInstr_fields _ _).1, hins]
            · rw [(buildInstr_fields _ _).2.2.2.2]
              omega
          · intro j _ hj
            exact buildInstr_frame _ j hins hj
          · intro hc
            exact absurd hc (by simp [hterm])
          · intro _
            rw [(buildInstr_fields _ _).1, hins]
        | none =>
          have hstep : llvm_codegen_stmt (m + 1) .continueStmt e =
              buildInstr (codegen_set_error e "continue statement outside of loop")
                .unreachable := by
            rw [llvm_codegen_stmt, if_neg hne, hlb]
          rw [hstep]
          have hins1 : (codegen_set_error e "continue statement outside of loop").insert
              = some b := hins
          have hterm1 : blockHasTerm
              (codegen_set_error e "continue statement outside of loop") b = false := hterm
          have hinv1 : EmitInv (codegen_set_error e "continue statement outside of loop") := by
            intro bb hbb
            exact hinv bb hbb
          refine ⟨emitInv_buildInstr _ hins1 hterm1 hinv1, ?_, ?_, ?_, ?_, ?_⟩
          · rw [(buildInstr_fields _ _).2.2.2.2]
            show e.blocks.length ≤ e.blocks.length
            omega
          · refine ⟨b, ?_, Or.inl rfl, ?_⟩
            · rw [(buildInstr_fields _ _).1, hins1]
            · rw [(buildInstr_fields _ _).2.2.2.2]
              show b < e.blocks.length
              omega
          · intro j _ hj
            rw [buildInstr_frame _ j hins1 hj]
            rfl
          · intro hc
            exact absurd hc (by simp [hterm])
          · intro _
            rw [(buildInstr_fields _ _).1, hins1]


/-- What C1 claims of a block: non-empty, a terminator as the last
instruction, and no terminator anywhere earlier — i.e. exactly one
terminator, at the end. -/
def ExactlyOneTerminatorAtEnd (bb : BB) : Prop :=
  bb.instrs ≠ [] ∧ bb.hasTerm = true ∧ TermOnlyInside bb

/-- The finalizer establishes C1's block property from the lowering
invariant: untouched blocks already end in their only terminator, and the
appended `ret` becomes the only terminator of the others. -/
theorem finalize_function_ok (isVoid : Bool) (blocks : List BB)
    (hinv : ∀ bb ∈ blocks, TermOnlyInside bb) :
    ∀ bb ∈ finalize_function isVoid blocks, ExactlyOneTerminatorAtEnd bb := by
  intro bb hbb
  unfold finalize_function at hbb
  obtain ⟨bb0, hbb0, heq⟩ := List.mem_map.mp hbb
  subst heq
  by_cases hbt : bb0.hasTerm = true
  · rw [if_pos hbt]
    refine ⟨?_, hbt, hinv bb0 hbb0⟩
    intro hnil
    unfold BB.hasTerm at hbt
    rw [hnil] at hbt
    simp at hbt
  · rw [if_neg hbt]
    have hbf : bb0.hasTerm = false := by simpa using hbt
    refine ⟨by simp, ?_, termOnlyInside_append bb0 _ hbf (hinv bb0 hbb0)⟩
    rw [hasTerm_append]
    cases isVoid <;> rfl

/-- C1: after lowering any function definition with a body from the
fragment — at every recursion depth, i.e. for every fuel — every basic
block of the emitted function contains exactly one terminator instruction,
located at its end: statement lowering never puts an instruction after a
terminator (the entry guard skips statements whose block is already
terminated, and every guarded fall-through branch lands on an
unterminated block), and the post-body finalizer appends a `ret` to every
block that still has no terminator. -/
theorem C1_every_block_one_terminator (fuel : Nat) (isVoid : Bool) (body : CStmt) :
    ∀ bb ∈ codegen_function_decl fuel isVoid body, ExactlyOneTerminatorAtEnd bb := by
  intro bb hbb
  have hinv0 : EmitInv (⟨[⟨[]⟩], some 0, none, none, none⟩ : Emitter) := by
    intro b hbmem
    simp only [List.mem_singleton] at hbmem
    subst hbmem
    exact termOnlyInside_nil
  have B := llvm_codegen_stmt_ok fuel body ⟨[⟨[]⟩], some 0, none, none, none⟩ 0
    rfl (by simp) hinv0
  exact finalize_function_ok isVoid _ B.1 bb hbb


/-! ### C2: the loop context across statement lowering -/

theorem llvm_codegen_expr_loops (x : CExpr) : ∀ e : Emitter,
    (llvm_codegen_expr x e).loop_continue_block = e.loop_continue_block ∧
    (llvm_codegen_expr x e).loop_break_block = e.loop_break_block := by
  induction x with
  | lit n => exact fun e => ⟨rfl, rfl⟩
  | binary a c iha ihc =>
    intro e
    have hunf : llvm_codegen_expr (.binary a c) e =
        buildInstr (llvm_codegen_expr c (llvm_codegen_expr a e)) .nonterm := rfl
    rw [hunf]
    constructor
    · rw [(buildInstr_fields _ _).2.1, (ihc _).1, (iha e).1]
    · rw [(buildInstr_fields _ _).2.2.1, (ihc _).2, (iha e).2]

theorem llvm_codegen_cond_loops (x : CExpr) (e : Emitter) :
    (llvm_codegen_cond x e).loop_continue_block = e.loop_continue_block ∧
    (llvm_codegen_cond x e).loop_break_block = e.loop_break_block := by
  unfold llvm_codegen_cond
  constructor
  · rw [(buildInstr_fields _ _).2.1, (llvm_codegen_expr_loops x e).1]
  · rw [(buildInstr_fields _ _).2.2.1, (llvm_codegen_expr_loops x e).2]

theorem codegen_opt_expr_loops (x? : Option CExpr) (e : Emitter) :
    (codegen_opt_expr x? e).loop_continue_block = e.loop_continue_block ∧
    (codegen_opt_expr x? e).loop_break_block = e.loop_break_block := by
  cases x? with
  | none => exact ⟨rfl, rfl⟩
  | some x => exact llvm_codegen_expr_loops x e

theorem codegen_for_cond_loops (x? : Option CExpr) (e : Emitter) (l k : Nat) :
    (codegen_for_cond x? e l k).loop_continue_block = e.loop_continue_block ∧
    (codegen_for_cond x? e l k).loop_break_block = e.loop_break_block := by
  cases x? with
  | none =>
    simp only [codegen_for_cond]
    exact ⟨(buildInstr_fields _ _).2.1, (buildInstr_fields _ _).2.2.1⟩
  | some x =>
    simp only [codegen_for_cond]
    constructor
    · rw [(buildInstr_fields _ _).2.1, (llvm_codegen_cond_loops x e).1]
    · rw [(buildInstr_fields _ _).2.2.1, (llvm_codegen_cond_loops x e).2]

theorem stmt_list_loops (m : Nat)
    (IH : ∀ (s : CStmt) (e : Emitter),
      (llvm_codegen_stmt m s e).loop_continue_block = e.loop_continue_block ∧
      (llvm_codegen_stmt m s e).loop_break_block = e.loop_break_block) :
    ∀ (ss : List CStmt) (e : Emitter),
      (ss.foldl (fun acc s1 => llvm_codegen_stmt m s1 acc) e).loop_continue_block =
        e.loop_continue_block ∧
      (ss.foldl (fun acc s1 => llvm_codegen_stmt m s1 acc) e).loop_break_block =
        e.loop_break_block := by
  intro ss
  induction ss with
  | nil => exact fun e => ⟨rfl, rfl⟩
  | cons s1 rest ih =>
    intro e
    constructor
    · exact ((ih (llvm_codegen_stmt m s1 e)).1).trans (IH s1 e).1
    · exact ((ih (llvm_codegen_stmt m s1 e)).2).trans (IH s1 e).2

/-- Every statement lowering restores the loop context: `while` and `for`
save and restore it around their bodies, `do-while` never touches it, and
nothing else writes it. -/
theorem llvm_codegen_stmt_loops :
    ∀ (fuel : Nat) (s : CStmt) (e : Emitter),
      (llvm_codegen_stmt fuel s e).loop_continue_block = e.loop_continue_block ∧
      (llvm_codegen_stmt fuel s e).loop_break_block = e.loop_break_block := by
  intro fuel
  induction fuel with
  | zero => exact fun s e => ⟨rfl, rfl⟩
  | succ m ih =>
    intro s e
    by_cases hg : (match e.insert with
        | some bb => blockHasTerm e bb | none => false) = true
    · have hstep : llvm_codegen_stmt (m + 1) s e = e := by
        cases s
        case retStmt xo => cases xo <;> rw [llvm_codegen_stmt, if_pos hg]
        all_goals rw [llvm_codegen_stmt, if_pos hg]
      rw [hstep]
      exact ⟨rfl, rfl⟩
    · cases s with
      | compound ss =>
        have hstep : llvm_codegen_stmt (m + 1) (.compound ss) e =
            ss.foldl (fun acc s1 => llvm_codegen_stmt m s1 acc) e := by
          rw [llvm_codegen_stmt, if_neg hg]
        rw [hstep]
        exact stmt_list_loops m ih ss e
      | exprStmt x =>
        have hstep : llvm_codegen_stmt (m + 1) (.exprStmt x) e =
            llvm_codegen_expr x e := by
          rw [llvm_codegen_stmt, if_neg hg]
        rw [hstep]
        exact llvm_codegen_expr_loops x e
      | retStmt xo =>
        cases xo with
        | some x =>
          have hstep : llvm_codegen_stmt (m + 1) (.retStmt (some x)) e =
              buildInstr (llvm_codegen_expr x e) .ret := by
            rw [llvm_codegen_stmt, if_neg hg]
          rw [hstep]
          constructor
          · rw [(buildInstr_fields _ _).2.1, (llvm_codegen_expr_loops x e).1]
          · rw [(buildInstr_fields _ _).2.2.1, (llvm_codegen_expr_loops x e).2]
        | none =>
          have hstep : llvm_codegen_stmt (m + 1) (.retStmt none) e =
              buildInstr e .retVoid := by
            rw [llvm_codegen_stmt, if_neg hg]
          rw [hstep]
          exact ⟨(buildInstr_fields _ _).2.1, (buildInstr_fields _ _).2.2.1⟩
      | varDecl io =>
        cases io with
        | none =>
          have hstep : llvm_codegen_stmt (m + 1) (.varDecl none) e =
              buildInstr e .nonterm := by
            rw [llvm_codegen_stmt, if_neg hg]
          rw [hstep]
          exact ⟨(buildInstr_fields _ _).2.1, (buildInstr_fields _ _).2.2.1⟩
        | some x =>
          have hstep : llvm_codegen_stmt (m + 1) (.varDecl (some x)) e =
              buildInstr (llvm_codegen_expr x (buildInstr e .nonterm)) .nonterm := by
            rw [llvm_codegen_stmt, if_neg hg]
          rw [hstep]
          constructor
          · rw [(buildInstr_fields _ _).2.1, (llvm_codegen_expr_loops x _).1,
              (buildInstr_fields _ _).2.1]
          · rw [(buildInstr_fields _ _).2.2.1, (llvm_codegen_expr_loops x _).2,
              (buildInstr_fields _ _).2.2.1]
      | ifStmt cond thenS elseS =>
        cases elseS with
        | none =>
          rw [llvm_codegen_stmt, if_neg hg]
          dsimp only
          set E1 := llvm_codegen_cond cond e with hE1
          set E3 := (appendBB (appendBB E1).1).1 with hE3
          set E4 := buildInstr E3 (.condBr (appendBB E1).2 (appendBB (appendBB E1).1).2) with hE4
          set E5 := llvm_codegen_stmt m thenS
            (positionAtEnd E4 (appendBB E1).2) with hE5
          have h5 : E5.loop_continue_block = e.loop_continue_block ∧
              E5.loop_break_block = e.loop_break_block := by
            constructor
            · rw [hE5, (ih thenS _).1]
              show E4.loop_continue_block = _
              rw [hE4, (buildInstr_fields _ _).2.1]
              show E1.loop_continue_block = _
              rw [hE1, (llvm_codegen_cond_loops cond e).1]
            · rw [hE5, (ih thenS _).2]
              show E4.loop_break_block = _
              rw [hE4, (buildInstr_fields _ _).2.2.1]
              show E1.loop_break_block = _
              rw [hE1, (llvm_codegen_cond_loops cond e).2]
          by_cases hbt : blockHasTerm E5 (appendBB E1).2 = true
          · rw [if_pos hbt]
            exact h5
          · rw [if_neg hbt]
            constructor
            · show (buildInstr E5 _).loop_continue_block = _
              rw [(buildInstr_fields _ _).2.1, h5.1]
            · show (buildInstr E5 _).loop_break_block = _
              rw [(buildInstr_fields _ _).2.2.1, h5.2]
        | some els =>
          rw [llvm_codegen_stmt, if_neg hg]
          dsimp only
          set E1 := llvm_codegen_cond cond e with hE1
          set E3 := (appendBB (appendBB (appendBB E1).1).1).1 with hE3
          set E5 := buildInstr E3
            (.condBr (appendBB E1).2 (appendBB (appendBB E1).1).2) with hE5
          set E6 := llvm_codegen_stmt m thenS
            (positionAtEnd E5 (appendBB E1).2) with hE6
          have h6 : E6.loop_continue_block = e.loop_continue_block ∧
              E6.loop_break_block = e.loop_break_block := by
            constructor
            · rw [hE6, (ih thenS _).1]
              show E5.loop_continue_block = _
              rw [hE5, (buildInstr_fields _ _).2.1]
              show E1.loop_continue_block = _
              rw [hE1, (llvm_codegen_cond_loops cond e).1]
            · rw [hE6, (ih thenS _).2]
              show E5.loop_break_block = _
              rw [hE5, (buildInstr_fields _ _).2.2.1]
              show E1.loop_break_block = _
              rw [hE1, (llvm_codegen_cond_loops cond e).2]
          set E7 := if blockHasTerm E6 (appendBB E1).2 then E6
                    else buildInstr E6 (.br (appendBB (appendBB (appendBB E1).1).1).2) with hE7
          have h7 : E7.loop_continue_block = e.loop_continue_block ∧
              E7.loop_break_block = e.loop_break_block := by
            rw [hE7]
            by_cases hbt : blockHasTerm E6 (appendBB E1).2 = true
            · rw [if_pos hbt]
              exact h6
            · rw [if_neg hbt]
              constructor
              · rw [(buildInstr_fields _ _).2.1, h6.1]
              · rw [(buildInstr_fields _ _).2.2.1, h6.2]
          set E8 := llvm_codegen_stmt m els
            (positionAtEnd E7 (appendBB (appendBB E1).1).2) with hE8
          have h8 : E8.loop_continue_block = e.loop_continue_block ∧
              E8.loop_break_block = e.loop_break_block := by
            constructor
            · rw [hE8, (ih els _).1]
              show E7.loop_continue_block = _
              exact h7.1
            · rw [hE8, (ih els _).2]
              show E7.loop_break_block = _
              exact h7.2
          by_cases hbt : blockHasTerm E8 (appendBB (appendBB E1).1).2 = true
          · rw [if_pos hbt]
            exact h8
          · rw [if_neg hbt]
            constructor
            · show (buildInstr E8 _).loop_continue_block = _
              rw [(buildInstr_fields _ _).2.1, h8.1]
            · show (buildInstr E8 _).loop_break_block = _
              rw [(buildInstr_fields _ _).2.2.1, h8.2]
      | whileStmt cond body =>
        rw [llvm_codegen_stmt, if_neg hg]
        dsimp only
        set E9 := { llvm_codegen_stmt m body _ with
                    loop_continue_block := e.loop_continue_block,
                    loop_break_block := e.loop_break_block } with hE9
        by_cases hbt : blockHasTerm E9 (appendBB (appendBB e).1).2 = true
        · rw [if_pos hbt]
          exact ⟨rfl, rfl⟩
        · rw [if_neg hbt]
          constructor
          · show (buildInstr E9 _).loop_continue_block = _
            rw [(buildInstr_fields _ _).2.1]
          · show (buildInstr E9 _).loop_break_block = _
            rw [(buildInstr_fields _ _).2.2.1]
      | forStmt init cond inc body =>
        rw [llvm_codegen_stmt, if_neg hg]
        dsimp only
        set E9 := { llvm_codegen_stmt m body _ with
                    loop_continue_block := e.loop_continue_block,
                    loop_break_block := e.loop_break_block } with hE9
        set E10 := if blockHasTerm E9 (appendBB (appendBB (codegen_opt_expr init e)).1).2
                   then E9
                   else buildInstr E9
                     (.br (appendBB (appendBB (appendBB (codegen_opt_expr init e)).1).1).2) with hE10
        have h10 : E10.loop_continue_block = e.loop_continue_block ∧
            E10.loop_break_block = e.loop_break_block := by
          rw [hE10]
          by_cases hbt : blockHasTerm E9
              (appendBB (appendBB (codegen_opt_expr init e)).1).2 = true
          · rw [if_pos hbt]
            exact ⟨rfl, rfl⟩
          · rw [if_neg hbt]
            constructor
            · rw [(buildInstr_fields _ _).2.1]
            · rw [(buildInstr_fields _ _).2.2.1]
        set E11 := codegen_opt_expr inc (positionAtEnd E10
          (appendBB (appendBB (appendBB (codegen_opt_expr init e)).1).1).2) with hE11
        constructor
        · show (buildInstr E11 _).loop_continue_block = _
          rw [(buildInstr_fields _ _).2.1, hE11, (codegen_opt_expr_loops inc _).1]
          show E10.loop_continue_block = _
          exact h10.1
        · show (buildInstr E11 _).loop_break_block = _
          rw [(buildInstr_fields _ _).2.2.1, hE11, (codegen_opt_expr_loops inc _).2]
          show E10.loop_break_block = _
          exact h10.2
      | doWhileStmt body cond =>
        rw [llvm_codegen_stmt, if_neg hg]
        dsimp only
        set E4 := buildInstr (appendBB (appendBB (appendBB e).1).1).1
          (.br (appendBB e).2) with hE4
        set E5 := llvm_codegen_stmt m body (positionAtEnd E4 (appendBB e).2) with hE5
        have h5 : E5.loop_continue_block = e.loop_continue_block ∧
            E5.loop_break_block = e.loop_break_block := by
          constructor
          · rw [hE5, (ih body _).1]
            show E4.loop_continue_block = _
            rw [hE4, (buildInstr_fields _ _).2.1]
            rfl
          · rw [hE5, (ih body _).2]
            show E4.loop_break_block = _
            rw [hE4, (buildInstr_fields _ _).2.2.1]
            rfl
        set E6 := if blockHasTerm E5 (appendBB e).2 then E5
                  else buildInstr E5 (.br (appendBB (appendBB e).1).2) with hE6
        have h6 : E6.loop_continue_block = e.loop_continue_block ∧
            E6.loop_break_block = e.loop_break_block := by
          rw [hE6]
          by_cases hbt : blockHasTerm E5 (appendBB e).2 = true
          · rw [if_pos hbt]
            exact h5
          · rw [if_neg hbt]
            constructor
            · rw [(buildInstr_fields _ _).2.1, h5.1]
            · rw [(buildInstr_fields _ _).2.2.1, h5.2]
        set E7 := llvm_codegen_cond cond
          (positionAtEnd E6 (appendBB (appendBB e).1).2) with hE7
        constructor
        · show (buildInstr E7 _).loop_continue_block = _
          rw [(buildInstr_fields _ _).2.1, hE7, (llvm_codegen_cond_loops cond _).1]
          show E6.loop_continue_block = _
          exact h6.1
        · show (buildInstr E7 _).loop_break_block = _
          rw [(buildInstr_fields _ _).2.2.1, hE7, (llvm_codegen_cond_loops cond _).2]
          show E6.loop_break_block = _
          exact h6.2
      | breakStmt =>
        cases hlb : e.loop_break_block with
        | some t =>
          have hstep : llvm_codegen_stmt (m + 1) .breakStmt e =
              buildInstr e (.br t) := by
            rw [llvm_codegen_stmt, if_neg hg, hlb]
          rw [hstep]
          constructor
          · exact (buildInstr_fields _ _).2.1
          · rw [(buildInstr_fields _ _).2.2.1]
            exact hlb
        | none =>
          have hstep : llvm_codegen_stmt (m + 1) .breakStmt e =
              buildInstr (codegen_set_error e "break statement outside of loop")
                .unreachable := by
            rw [llvm_codegen_stmt, if_neg hg, hlb]
          rw [hstep]
          constructor
          · rw [(buildInstr_fields _ _).2.1]
            rfl
          · rw [(buildInstr_fields _ _).2.2.1]
            show e.loop_break_block = none
            exact hlb
      | continueStmt =>
        cases hlb : e.loop_continue_block with
        | some t =>
          have hstep : llvm_codegen_stmt (m + 1) .continueStmt e =
              buildInstr e (.br t) := by
            rw [llvm_codegen_stmt, if_neg hg, hlb]
          rw [hstep]
          constructor
          · rw [(buildInstr_fields _ _).2.1]
            exact hlb
          · exact (buildInstr_fields _ _).2.2.1
        | none =>
          have hstep : llvm_codegen_stmt (m + 1) .continueStmt e =
              buildInstr (codegen_set_error e "continue statement outside of loop")
                .unreachable := by
            rw [llvm_codegen_stmt, if_neg hg, hlb]
          rw [hstep]
          constructor
          · rw [(buildInstr_fields _ _).2.1]
            show e.loop_continue_block = none
            exact hlb
          · rw [(buildInstr_fields _ _).2.2.1]
            rfl


theorem C1_every_block_one_terminator_witness :
    (⟨[Instr.ret]⟩ : BB) ∈ codegen_function_decl 1 false (.retStmt (some (.lit 0))) ∧
    ExactlyOneTerminatorAtEnd ⟨[Instr.ret]⟩ :=
  ⟨by decide, C1_every_block_one_terminator 1 false (.retStmt (some (.lit 0)))
    ⟨[Instr.ret]⟩ (by decide)⟩

/-- C2 counterexample to "the per-loop continue/break blocks are saved on
loop entry and restored on loop exit so nesting is respected, including
inside do-while bodies": the do-while lowering never saves, sets or
restores the loop context, so a `break` in a do-while body nested in a
`while` branches to the OUTER while's end block instead of the do-while's
own end block.  Here blocks are 0 = entry, 1 = while.cond, 2 = while.body,
3 = while.end, 4 = do.body, 5 = do.cond, 6 = do.end: the do.cond block
`condBr 4 6` shows the do-while's end is block 6, yet do.body — holding
the lowered `break` — is `br 3`, the while's end. -/
theorem C2_counterexample_dowhile_context :
    codegen_function_decl 5 false
        (.whileStmt (.lit 1) (.doWhileStmt .breakStmt (.lit 0))) =
      [⟨[.br 1]⟩, ⟨[.nonterm, .condBr 2 3]⟩, ⟨[.br 4]⟩, ⟨[.ret]⟩,
       ⟨[.br 3]⟩, ⟨[.nonterm, .condBr 4 6]⟩, ⟨[.ret]⟩] := by
  rfl

/-- C2 (amended): `while` and `for` save the loop context on entry, set it
for their bodies, and restore it on exit, so inside them `break` branches
to that loop's end block and `continue` to its condition (while) or
increment (for) block; but the do-while lowering never touches the loop
context, so `break`/`continue` inside a do-while body target the nearest
enclosing `while`/`for` — in a nested example the break in the do-while
body branches to the outer while's end (block 3), not the do-while's end
(block 6) — and at top level a `break` inside a do-while body finds no
context at all: it emits `unreachable` and sets the error "break statement
outside of loop".  First conjunct: every statement lowering leaves the
loop-context fields unchanged (while/for restore, do-while never writes
them). -/
theorem C2_loop_context :
    (∀ (fuel : Nat) (s : CStmt) (e : Emitter),
      (llvm_codegen_stmt fuel s e).loop_continue_block = e.loop_continue_block ∧
      (llvm_codegen_stmt fuel s e).loop_break_block = e.loop_break_block) ∧
    codegen_function_decl 5 false (.whileStmt (.lit 1) .breakStmt) =
      [⟨[.br 1]⟩, ⟨[.nonterm, .condBr 2 3]⟩, ⟨[.br 3]⟩, ⟨[.ret]⟩] ∧
    codegen_function_decl 5 false (.whileStmt (.lit 1) .continueStmt) =
      [⟨[.br 1]⟩, ⟨[.nonterm, .condBr 2 3]⟩, ⟨[.br 1]⟩, ⟨[.ret]⟩] ∧
    codegen_function_decl 5 false (.forStmt none none none .breakStmt) =
      [⟨[.br 1]⟩, ⟨[.br 2]⟩, ⟨[.br 4]⟩, ⟨[.br 1]⟩, ⟨[.ret]⟩] ∧
    codegen_function_decl 5 false (.forStmt none none none .continueStmt) =
      [⟨[.br 1]⟩, ⟨[.br 2]⟩, ⟨[.br 3]⟩, ⟨[.br 1]⟩, ⟨[.ret]⟩] ∧
    codegen_function_decl 5 false
        (.whileStmt (.lit 1) (.doWhileStmt .breakStmt (.lit 0))) =
      [⟨[.br 1]⟩, ⟨[.nonterm, .condBr 2 3]⟩, ⟨[.br 4]⟩, ⟨[.ret]⟩,
       ⟨[.br 3]⟩, ⟨[.nonterm, .condBr 4 6]⟩, ⟨[.ret]⟩] ∧
    codegen_function_decl 5 false
        (.whileStmt (.lit 1) (.doWhileStmt .continueStmt (.lit 0))) =
      [⟨[.br 1]⟩, ⟨[.nonterm, .condBr 2 3]⟩, ⟨[.br 4]⟩, ⟨[.ret]⟩,
       ⟨[.br 1]⟩, ⟨[.nonterm, .condBr 4 6]⟩, ⟨[.ret]⟩] ∧
    (llvm_codegen_stmt 5 (.doWhileStmt .breakStmt (.lit 0))
        ⟨[⟨[]⟩], some 0, none, none, none⟩).last_error =
      some "break statement outside of loop" :=
  ⟨llvm_codegen_stmt_loops, rfl, rfl, rfl, rfl, rfl, rfl, rfl⟩

end ZC

